import Mathlib

/-!
# QSsh: the lazily populated SFTP file system model

A shallow embedding of `src/libs/ssh/sftpfilesystemmodel.{h,cpp}`.

* Nodes live in an explicit heap (`Heap`), a pointer is an address into it, a
  null pointer is `none`.  `new` appends a cell, `delete` empties one; an
  address is never handed out twice.
* The private data of the model (`SftpFileSystemModelPrivate`) and the member
  `nameFilters_` are the fields of `SftpFileSystemModel`.  Three further fields
  record what the model sends out: the requests forwarded to the SFTP channel,
  the Qt signals emitted, and the number of failed soft assertions.
* A member function that asks the channel for a job takes the job id the
  channel answers with as an argument, so every statement holds for every
  channel.
* Dereferencing a null or released pointer is undefined behaviour in C++; the
  embedding returns a `Fault` there.
-/

namespace QSsh

/-! ## Strings -/

/-- Case-insensitive comparison of two code-unit sequences, as `QString::compare`
with `Qt::CaseInsensitive` performs it: the first position where the folded
units differ decides, otherwise the shorter sequence is the smaller one.  The
case-folding table of Qt is the argument `fold`. -/
def ucstricmp (fold : Char → Char) : List Char → List Char → Int
  | [], [] => 0
  | [], _ :: _ => -1
  | _ :: _, [] => 1
  | a :: as, b :: bs =>
    if (fold a).toNat = (fold b).toNat then ucstricmp fold as bs
    else ((fold a).toNat : Int) - ((fold b).toNat : Int)

/-- The call `s.compare(t, Qt::CaseInsensitive)`. -/
def qCompare (fold : Char → Char) (s t : String) : Int :=
  ucstricmp fold s.toList t.toList

/-- Case folding restricted to the ASCII letters, used for concrete inputs. -/
def asciiFold (c : Char) : Char :=
  if 65 ≤ c.toNat ∧ c.toNat ≤ 90 then Char.ofNat (c.toNat + 32) else c

/-- The call `s.endsWith(QLatin1Char('/'))`. -/
def endsWithSlash (s : String) : Bool :=
  s.toList.getLast? == some '/'

/-- The call `QFileInfo(path).fileName()`: what follows the last `/` of the path
(the whole path when it has no `/`, the empty string when it ends in one). -/
def fileName (path : String) : String :=
  String.mk (path.toList.reverse.takeWhile (fun c => c != '/')).reverse

/-! ## Data model -/

abbrev SftpJobId := Nat

/-- Modelled from the spec: `sftpdefs.h` is not among the sources; the invalid
job id is the value `removeFile` initialises its job id with. -/
def SftpInvalidJob : SftpJobId := 0

/-- Modelled from the spec: the entry types of `sftpdefs.h`, which is not among
the sources (section 3 of the specification lists them). -/
inductive SftpFileType where
  | FileTypeRegular
  | FileTypeDirectory
  | FileTypeSymlink
  | FileTypeOther
  | FileTypeUnknown
  deriving DecidableEq, Repr

/-- Modelled from the spec: the file information record of `sftpdefs.h`, with the
fields the model reads. -/
structure SftpFileInfo where
  name : String
  type : SftpFileType
  size : Nat
  deriving DecidableEq, Repr

abbrev Addr := Nat

inductive LsState where
  | LsNotYetCalled
  | LsRunning
  | LsFinished
  deriving DecidableEq, Repr

/-- The members a `SftpDirNode` adds to a `SftpFileNode`. -/
structure SftpDirNode where
  lsState : LsState
  children : List Addr
  deriving DecidableEq, Repr

/-- A node object.  `asDir` is what `dynamic_cast<SftpDirNode *>` yields: `none`
for a plain `SftpFileNode`. -/
structure SftpFileNode where
  path : String
  fileInfo : SftpFileInfo
  parent : Option Addr
  asDir : Option SftpDirNode
  deriving DecidableEq, Repr

/-- What goes wrong where C++ leaves the behaviour undefined. -/
inductive Fault where
  | nullDeref
  | danglingDeref
  | badCast
  | emptyList
  deriving DecidableEq, Repr

/-! ## The heap -/

abbrev Heap := List (Option SftpFileNode)

/-- The object at an address, `none` when nothing (any more) lives there. -/
def Heap.node (h : Heap) (a : Addr) : Option SftpFileNode :=
  (h.get? a).join

/-- The operator `new`: the fresh address and the extended heap. -/
def Heap.alloc (h : Heap) (n : SftpFileNode) : Addr × Heap :=
  (h.length, h ++ [some n])

/-- Assignment to members of the object at `a`. -/
def Heap.write (h : Heap) (a : Addr) (n : SftpFileNode) : Heap :=
  h.set a (some n)

/-- Release of the cell at `a`. -/
def Heap.free (h : Heap) (a : Addr) : Heap :=
  h.set a none

/-- The operator `delete` on a node pointer: the destructor of a directory node
runs `qDeleteAll(children)` first.  A cell that is already empty is skipped.
The function is total: the recursion depth is bounded by `fuel`, and callers
pass the heap size plus one.  A chain of child pointers longer than that visits
some cell twice, which happens only when a node is its own descendant. -/
def Heap.deleteNode : Nat → Heap → Addr → Heap
  | 0, h, _ => h
  | fuel + 1, h, a =>
    match h.node a with
    | none => h
    | some n =>
      match n.asDir with
      | none => h.free a
      | some d => (d.children.foldl (fun acc c => Heap.deleteNode fuel acc c) h).free a

/-- The statement `delete p` for a possibly null pointer. -/
def Heap.delete (h : Heap) (p : Option Addr) : Heap :=
  match p with
  | none => h
  | some a => h.deleteNode (h.length + 1) a

/-- The name stored in the node at `a`. -/
def nameAt (h : Heap) (a : Addr) : Option String :=
  (h.node a).map (fun n => n.fileInfo.name)

/-- The file information stored in the node at `a`. -/
def infoAt (h : Heap) (a : Addr) : Option SftpFileInfo :=
  (h.node a).map (fun n => n.fileInfo)

/-- The names of a child list, when every pointer in it is live. -/
def childNames (h : Heap) : List Addr → Option (List String)
  | [] => some []
  | a :: as =>
    match nameAt h a, childNames h as with
    | some n, some ns => some (n :: ns)
    | _, _ => none

/-- The children of the directory node at `a`. -/
def childrenOf (h : Heap) (a : Addr) : Option (List Addr) :=
  match h.node a with
  | some n => n.asDir.map (fun d => d.children)
  | none => none

/-- The listing state of the directory node at `a`. -/
def lsStateOf (h : Heap) (a : Addr) : Option LsState :=
  match h.node a with
  | some n => n.asDir.map (fun d => d.lsState)
  | none => none

/-! ## `SftpDirNode::insertChild` -/

/-- The scan of `insertChild`: walk the children until the new name no longer
compares greater than the child's name, insert there; append at the end. -/
def insertLoop (fold : Char → Char) (h : Heap) (newName : String) (newFileNode : Addr) :
    List Addr → Except Fault (List Addr)
  | [] => .ok [newFileNode]
  | c :: rest =>
    match h.node c with
    | none => .error .danglingDeref
    | some cn =>
      if qCompare fold newName cn.fileInfo.name > 0 then
        match insertLoop fold h newName newFileNode rest with
        | .ok l => .ok (c :: l)
        | .error e => .error e
      else .ok (newFileNode :: c :: rest)

/-- The member `SftpDirNode::insertChild` of the directory node at `dir`.
`children.contains(newFileNode)` compares pointers. -/
def insertChild (fold : Char → Char) (h : Heap) (dir : Addr) (newFileNode : Addr) :
    Except Fault Heap :=
  match h.node dir with
  | none => .error .danglingDeref
  | some dn =>
    match dn.asDir with
    | none => .error .badCast
    | some d =>
      if d.children.contains newFileNode then .ok h
      else if d.children.isEmpty then
        .ok (h.write dir { dn with asDir := some { d with children := [newFileNode] } })
      else
        match h.node newFileNode with
        | none => .error .danglingDeref
        | some nn =>
          match insertLoop fold h nn.fileInfo.name newFileNode d.children with
          | .ok l => .ok (h.write dir { dn with asDir := some { d with children := l } })
          | .error e => .error e

/-- Ascending order of names under the case-insensitive comparison. -/
def SortedCI (fold : Char → Char) (names : List String) : Prop :=
  names.Pairwise (fun a b => qCompare fold a b ≤ 0)

/-- The child list of the directory at `dir` is sorted by case-insensitive name. -/
def ChildrenSorted (fold : Char → Char) (h : Heap) (dir : Addr) : Prop :=
  ∃ cs names, childrenOf h dir = some cs ∧ childNames h cs = some names ∧ SortedCI fold names

/-- Successive calls of `insertChild` on the directory at `dir`, one per node of
the list, in the order of the list. -/
def insertAll (fold : Char → Char) (dir : Addr) : Heap → List Addr → Except Fault Heap
  | h, [] => .ok h
  | h, n :: ns =>
    match insertChild fold h dir n with
    | .ok h1 => insertAll fold dir h1 ns
    | .error e => .error e

/-! ## The model object -/

/-- A `QModelIndex`: row, column, internal pointer and whether it belongs to a
model. -/
structure QModelIndex where
  row : Int
  column : Int
  internalPointer : Option Addr
  model : Bool
  deriving DecidableEq, Repr

/-- The default-constructed index `QModelIndex()`. -/
def QModelIndex.invalid : QModelIndex :=
  { row := -1, column := -1, internalPointer := none, model := false }

def QModelIndex.isValid (i : QModelIndex) : Bool :=
  decide (0 ≤ i.row) && decide (0 ≤ i.column) && i.model

/-- The call `createIndex(row, column, ptr)`. -/
def createIndex (row column : Int) (ptr : Addr) : QModelIndex :=
  { row := row, column := column, internalPointer := some ptr, model := true }

/-- The signals the model emits. -/
inductive Signal where
  | modelAboutToBeReset
  | modelReset
  | rowsAboutToBeInserted (first last : Int)
  | rowsInserted (first last : Int)
  | layoutAboutToBeChanged
  | layoutChanged
  | sftpOperationFailed (errorMessage : String)
  | sftpOperationFinished (jobId : SftpJobId) (error : String)
  | connectionError (errorMessage : String)
  | connectionSuccess
  deriving DecidableEq, Repr

/-- A request forwarded to the SFTP channel, with the job id the channel
answered. -/
inductive ChannelCall where
  | statFile (path : String) (job : SftpJobId)
  | listDirectory (path : String) (job : SftpJobId)
  | downloadFile (path target : String) (job : SftpJobId)
  | uploadFile (source target : String) (job : SftpJobId)
  | removeFile (path : String) (job : SftpJobId)
  | closeChannel
  deriving DecidableEq, Repr

/-- The hash `DirNodeHash` (`QHash<SftpJobId, SftpDirNode *>`) as an association
list with at most one entry per key. -/
abbrev DirNodeHash := List (SftpJobId × Addr)

/-- The call `lsOps.value(jobId)`: a null pointer for a missing key. -/
def DirNodeHash.value (m : DirNodeHash) (jobId : SftpJobId) : Option Addr :=
  m.lookup jobId

/-- The call `lsOps.insert(jobId, node)`: an existing entry of the key is replaced. -/
def DirNodeHash.insert (m : DirNodeHash) (jobId : SftpJobId) (node : Addr) : DirNodeHash :=
  (jobId, node) :: m.filter (fun e => e.1 != jobId)

/-- The call `lsOps.erase(it)` for the iterator found for `jobId`. -/
def DirNodeHash.erase (m : DirNodeHash) (jobId : SftpJobId) : DirNodeHash :=
  m.filter (fun e => e.1 != jobId)

/-- The state of a `SftpFileSystemModel`: the members of
`SftpFileSystemModelPrivate` (the two pointers to the connection and the channel
reduced to whether they are set), `nameFilters_`, the heap of node objects, and
what the model has sent out so far (channel requests, signals, and the number of
failed soft assertions `QSSH_ASSERT`, which only log a warning). -/
structure SftpFileSystemModel where
  sshConnection : Bool
  sftpChannel : Bool
  rootDirectory : String
  rootNode : Option Addr
  statJobId : SftpJobId
  lsOps : DirNodeHash
  externalJobs : List SftpJobId
  nameFilters_ : List String
  heap : Heap
  channelCalls : List ChannelCall
  emitted : List Signal
  warnings : Nat
  deriving DecidableEq, Repr

/-- The constructor `SftpFileSystemModel::SftpFileSystemModel`. -/
def SftpFileSystemModel.init : SftpFileSystemModel :=
  { sshConnection := false, sftpChannel := false, rootDirectory := "/", rootNode := none,
    statJobId := SftpInvalidJob, lsOps := [], externalJobs := [], nameFilters_ := [],
    heap := [], channelCalls := [], emitted := [], warnings := 0 }

/-- The cast `dynamic_cast<SftpDirNode *>(p)`. -/
def dynamicCastDir (h : Heap) (p : Option Addr) : Except Fault (Option Addr) :=
  match p with
  | none => .ok none
  | some a =>
    match h.node a with
    | none => .error .danglingDeref
    | some n => .ok (if n.asDir.isSome then some a else none)

/-- The member `statRootDirectory`; `job` is what `statFile` returns. -/
def statRootDirectory (s : SftpFileSystemModel) (job : SftpJobId) :
    Except Fault SftpFileSystemModel :=
  if s.sftpChannel then
    .ok { s with statJobId := job,
                 channelCalls := s.channelCalls ++ [ChannelCall.statFile s.rootDirectory job] }
  else .error .nullDeref

/-- The member `setRootDirectory`; `job` is what the channel answers to the
`statFile` request. -/
def setRootDirectory (s : SftpFileSystemModel) (path : String) (job : SftpJobId) :
    Except Fault SftpFileSystemModel :=
  statRootDirectory
    { s with emitted := s.emitted ++ [Signal.modelAboutToBeReset, Signal.modelReset],
             rootDirectory := path,
             heap := s.heap.delete s.rootNode,
             rootNode := none,
             lsOps := [],
             statJobId := SftpInvalidJob } job

/-- The member `rowCount`; `job` is what the channel answers should the call
issue a `listDirectory` request. -/
def rowCount (s : SftpFileSystemModel) (parent : QModelIndex) (job : SftpJobId) :
    Except Fault (Int × SftpFileSystemModel) :=
  if s.rootNode.isNone then .ok (0, s)
  else if !parent.isValid then .ok (1, s)
  else if parent.column ≠ 0 then .ok (0, s)
  else
    match parent.internalPointer with
    | none => .ok (0, { s with warnings := s.warnings + 1 })
    | some a =>
      match s.heap.node a with
      | none => .error .danglingDeref
      | some n =>
        match n.asDir with
        | none => .ok (0, s)
        | some d =>
          if d.lsState ≠ LsState.LsNotYetCalled then .ok ((d.children.length : Int), s)
          else if s.sftpChannel then
            .ok (0, { s with
              lsOps := s.lsOps.insert job a,
              channelCalls := s.channelCalls ++ [ChannelCall.listDirectory n.path job],
              heap := s.heap.write a { n with asDir := some { d with lsState := LsState.LsRunning } } })
          else .error .nullDeref

/-- The directory `update` works on: the pointer `parent` after the first two
conditionals of `SftpFileSystemModel::update`. -/
def updateTarget (s : SftpFileSystemModel) (index : QModelIndex) : Except Fault (Option Addr) :=
  let first : Except Fault (Option Addr) :=
    if !index.isValid then dynamicCastDir s.heap s.rootNode
    else
      match index.internalPointer with
      | none => .error .nullDeref
      | some f =>
        match s.heap.node f with
        | none => .error .danglingDeref
        | some fn => .ok fn.parent
  match first with
  | .error e => .error e
  | .ok (some p) => .ok (some p)
  | .ok none => dynamicCastDir s.heap s.rootNode

/-- The member `update`; `job` is what the channel answers to the
`listDirectory` request. -/
def update (s : SftpFileSystemModel) (index : QModelIndex) (job : SftpJobId) :
    Except Fault SftpFileSystemModel :=
  match updateTarget s index with
  | .error e => .error e
  | .ok none => .error .nullDeref
  | .ok (some p) =>
    match s.heap.node p with
    | none => .error .danglingDeref
    | some pn =>
      match pn.asDir with
      | none => .error .badCast
      | some _ =>
        if s.sftpChannel then
          .ok { s with
            heap := s.heap.write p
              { pn with asDir := some { lsState := LsState.LsRunning, children := [] } },
            lsOps := s.lsOps.insert job p,
            channelCalls := s.channelCalls ++ [ChannelCall.listDirectory pn.path job] }
        else .error .nullDeref

/-- The first loop of `handleFileInfo`: the entries other than `.` and `..`. -/
def filteredList (fileInfoList : List SftpFileInfo) : List SftpFileInfo :=
  fileInfoList.filter (fun fi => fi.name != "." && fi.name != "..")

/-- The node `handleFileInfo` builds for one entry below the directory whose
path is `parentPath`. -/
def newChildNode (parentNode : Addr) (parentPath : String) (fileInfo : SftpFileInfo) :
    SftpFileNode :=
  { path := (if endsWithSlash parentPath then parentPath else parentPath ++ "/") ++ fileInfo.name,
    fileInfo := fileInfo,
    parent := some parentNode,
    asDir := if fileInfo.type = SftpFileType.FileTypeDirectory
             then some { lsState := LsState.LsNotYetCalled, children := [] } else none }

/-- The second loop of `handleFileInfo`: one new node per entry, inserted into
the children of `parentNode`. -/
def insertEntries (fold : Char → Char) (parentNode : Option Addr) :
    Heap → List SftpFileInfo → Except Fault Heap
  | h, [] => .ok h
  | h, fileInfo :: rest =>
    match parentNode with
    | none => .error .nullDeref
    | some p =>
      match h.node p with
      | none => .error .danglingDeref
      | some pn =>
        match insertChild fold (h.alloc (newChildNode p pn.path fileInfo)).2 p h.length with
        | .error e => .error e
        | .ok h2 => insertEntries fold parentNode h2 rest

/-- The slot `handleFileInfo`. -/
def handleFileInfo (fold : Char → Char) (s : SftpFileSystemModel) (jobId : SftpJobId)
    (fileInfoList : List SftpFileInfo) : Except Fault SftpFileSystemModel :=
  if jobId = s.statJobId then
    match fileInfoList.head? with
    | none => .error .emptyList
    | some fi =>
      .ok { s with
        emitted := s.emitted ++ [Signal.rowsAboutToBeInserted 0 0, Signal.rowsInserted 0 0],
        rootNode := some s.heap.length,
        heap := (s.heap.alloc
          { path := s.rootDirectory,
            fileInfo := { fi with name := if s.rootDirectory = "/" then s.rootDirectory
                                          else fileName s.rootDirectory },
            parent := none,
            asDir := some { lsState := LsState.LsNotYetCalled, children := [] } }).2 }
  else if (filteredList fileInfoList).isEmpty then .ok s
  else
    match insertEntries fold (s.lsOps.value jobId) s.heap (filteredList fileInfoList) with
    | .error e => .error e
    | .ok h =>
      .ok { s with heap := h,
                   emitted := s.emitted ++ [Signal.layoutAboutToBeChanged, Signal.layoutChanged] }

/-- The slot `handleSftpJobFinished`. -/
def handleSftpJobFinished (s : SftpFileSystemModel) (jobId : SftpJobId) (errorMessage : String) :
    Except Fault SftpFileSystemModel :=
  if jobId = s.statJobId then
    .ok { s with
      statJobId := SftpInvalidJob,
      emitted := s.emitted
        ++ (if errorMessage.isEmpty then []
            else [Signal.sftpOperationFailed
                    ("Error getting 'stat' info about '" ++ s.rootDirectory ++ "': " ++ errorMessage)])
        ++ [Signal.sftpOperationFinished jobId errorMessage] }
  else
    match s.lsOps.value jobId with
    | some a =>
      match s.heap.node a with
      | none => .error .danglingDeref
      | some n =>
        match n.asDir with
        | none => .error .badCast
        | some d =>
          .ok { s with
            warnings := if d.lsState = LsState.LsRunning then s.warnings else s.warnings + 1,
            heap := s.heap.write a { n with asDir := some { d with lsState := LsState.LsFinished } },
            lsOps := s.lsOps.erase jobId,
            emitted := s.emitted
              ++ (if errorMessage.isEmpty then []
                  else [Signal.sftpOperationFailed
                          ("Error listing contents of directory '" ++ n.path ++ "': " ++ errorMessage)])
              ++ [Signal.sftpOperationFinished jobId errorMessage] }
    | none =>
      if s.externalJobs.indexOf jobId = s.externalJobs.length then
        .ok { s with warnings := s.warnings + 1 }
      else
        .ok { s with
          externalJobs := s.externalJobs.eraseIdx (s.externalJobs.indexOf jobId),
          emitted := s.emitted ++ [Signal.sftpOperationFinished jobId errorMessage] }

/-! ## Name filters -/

/-- The member `passNameFilters` for a non-null node.  `rxMatch pattern name` is
the outcome of matching `name` against
`QRegularExpression(wildcardToRegularExpression(pattern), CaseInsensitiveOption)`. -/
def passNameFilters (rxMatch : String → String → Bool) (nameFilters : List String)
    (node : SftpFileNode) : Bool :=
  if nameFilters.isEmpty then true
  else if node.fileInfo.type ≠ SftpFileType.FileTypeDirectory then
    nameFilters.any (fun nameFilter => rxMatch nameFilter node.fileInfo.name)
  else true

/-- Modelled from the spec: the regular expression engine of Qt is not among the
sources.  Shell-wildcard matching of a whole name, `*` standing for any run of
characters and `?` for any single character, letters compared after case
folding. -/
def wildcardMatchChars (fold : Char → Char) : List Char → List Char → Bool
  | [], cs => cs.isEmpty
  | p :: ps, cs =>
    if p = '*' then cs.tails.any (fun t => wildcardMatchChars fold ps t)
    else
      match cs with
      | [] => false
      | c :: rest => (p = '?' || fold p = fold c) && wildcardMatchChars fold ps rest

/-- Modelled from the spec: `wildcardMatchChars` on strings, with ASCII case
folding. -/
def wildcardMatch (pattern name : String) : Bool :=
  wildcardMatchChars asciiFold pattern.toList name.toList

/-- The item flags the model reports. -/
structure ItemFlags where
  selectable : Bool
  enabled : Bool
  deriving DecidableEq, Repr

/-- The member `flags`: the flags of the base class for an invalid index,
otherwise selectable, and enabled when the node passes the name filters. -/
def flags (rxMatch : String → String → Bool) (s : SftpFileSystemModel) (index : QModelIndex) :
    Except Fault ItemFlags :=
  if !index.isValid then .ok { selectable := false, enabled := false }
  else if s.nameFilters_.isEmpty then .ok { selectable := true, enabled := true }
  else
    match index.internalPointer with
    | none => .error .nullDeref
    | some a =>
      match s.heap.node a with
      | none => .error .danglingDeref
      | some n =>
        .ok { selectable := true, enabled := passNameFilters rxMatch s.nameFilters_ n }

/-! ## Connection set-up and tear-down -/

/-- The slot `handleSshConnectionEstablished`: the channel is created and
`connectionSuccess` is emitted. -/
def handleSshConnectionEstablished (s : SftpFileSystemModel) : Except Fault SftpFileSystemModel :=
  if s.sshConnection then
    .ok { s with sftpChannel := true, emitted := s.emitted ++ [Signal.connectionSuccess] }
  else .error .nullDeref

/-- The member `setSshConnection`; `connected` tells whether the acquired
connection is already in state `Connected`. -/
def setSshConnection (s : SftpFileSystemModel) (connected : Bool) :
    Except Fault SftpFileSystemModel :=
  if s.sshConnection then .ok { s with warnings := s.warnings + 1 }
  else if connected then handleSshConnectionEstablished { s with sshConnection := true }
  else .ok { s with sshConnection := true }

/-- The slot `handleSftpChannelInitialized`; `job` is what `statFile` returns. -/
def handleSftpChannelInitialized (s : SftpFileSystemModel) (job : SftpJobId) :
    Except Fault SftpFileSystemModel :=
  statRootDirectory s job

/-- The member `shutDown`. -/
def shutDown (s : SftpFileSystemModel) : SftpFileSystemModel :=
  { s with
    channelCalls := if s.sftpChannel then s.channelCalls ++ [ChannelCall.closeChannel]
                    else s.channelCalls,
    sftpChannel := false,
    sshConnection := false,
    heap := s.heap.delete s.rootNode,
    rootNode := none }

/-- The slot `handleSshConnectionFailure`; `errorString` is the error text of the
connection. -/
def handleSshConnectionFailure (s : SftpFileSystemModel) (errorString : String) :
    Except Fault SftpFileSystemModel :=
  if s.sshConnection then
    let s1 := shutDown
      { s with emitted := s.emitted ++ [Signal.connectionError errorString,
                                        Signal.modelAboutToBeReset] }
    .ok { s1 with emitted := s1.emitted ++ [Signal.modelReset] }
  else .error .nullDeref

/-- The slot `handleSftpChannelInitializationFailed`. -/
def handleSftpChannelInitializationFailed (s : SftpFileSystemModel) (reason : String) :
    SftpFileSystemModel :=
  let s1 := shutDown
    { s with emitted := s.emitted ++ [Signal.connectionError reason,
                                      Signal.modelAboutToBeReset] }
  { s1 with emitted := s1.emitted ++ [Signal.modelReset] }

/-! ## Reachable states -/

/-- The states the model reaches from its constructor through connection set-up,
`setRootDirectory`, `rowCount`, `update`, `handleFileInfo` and
`handleSftpJobFinished`, whatever job ids the channel answers with. -/
inductive Reachable (fold : Char → Char) : SftpFileSystemModel → Prop where
  | init : Reachable fold SftpFileSystemModel.init
  | setSshConnection (s s1 : SftpFileSystemModel) (connected : Bool) :
      Reachable fold s → setSshConnection s connected = .ok s1 → Reachable fold s1
  | connectionEstablished (s s1 : SftpFileSystemModel) :
      Reachable fold s → handleSshConnectionEstablished s = .ok s1 → Reachable fold s1
  | channelInitialized (s s1 : SftpFileSystemModel) (job : SftpJobId) :
      Reachable fold s → handleSftpChannelInitialized s job = .ok s1 → Reachable fold s1
  | setRootDirectory (s s1 : SftpFileSystemModel) (path : String) (job : SftpJobId) :
      Reachable fold s → setRootDirectory s path job = .ok s1 → Reachable fold s1
  | rowCount (s s1 : SftpFileSystemModel) (parent : QModelIndex) (job : SftpJobId) (n : Int) :
      Reachable fold s → rowCount s parent job = .ok (n, s1) → Reachable fold s1
  | update (s s1 : SftpFileSystemModel) (index : QModelIndex) (job : SftpJobId) :
      Reachable fold s → update s index job = .ok s1 → Reachable fold s1
  | handleFileInfo (s s1 : SftpFileSystemModel) (jobId : SftpJobId)
      (fileInfoList : List SftpFileInfo) :
      Reachable fold s → handleFileInfo fold s jobId fileInfoList = .ok s1 → Reachable fold s1
  | handleSftpJobFinished (s s1 : SftpFileSystemModel) (jobId : SftpJobId)
      (errorMessage : String) :
      Reachable fold s → handleSftpJobFinished s jobId errorMessage = .ok s1 → Reachable fold s1

/-! ## Scenario states

The scenario of the specification: root `/home`, its stat answered, its listing
answered with `b.txt`, `A`, `a.txt`. -/

/-- A connected model with its channel attached and nothing requested yet. -/
def scenarioConnected : SftpFileSystemModel :=
  { SftpFileSystemModel.init with
    sshConnection := true, sftpChannel := true, emitted := [Signal.connectionSuccess] }

/-- The node of the root `/home` in a given listing state with given children. -/
def homeNode (lsState : LsState) (children : List Addr) : SftpFileNode :=
  { path := "/home",
    fileInfo := { name := "home", type := SftpFileType.FileTypeDirectory, size := 0 },
    parent := none,
    asDir := some { lsState := lsState, children := children } }

/-- The index of the root node. -/
def rootIndex : QModelIndex := createIndex 0 0 0

/-- The listing of `/home` in the scenario. -/
def homeListing : List SftpFileInfo :=
  [ { name := "b.txt", type := SftpFileType.FileTypeRegular, size := 10 },
    { name := "A", type := SftpFileType.FileTypeDirectory, size := 0 },
    { name := "a.txt", type := SftpFileType.FileTypeRegular, size := 5 } ]

/-- After `setRootDirectory "/home"` (stat job 1), the stat answer, the end of
job 1 and the first `rowCount` on the root (listing job 2): the root is being
listed and has no children. -/
def scenarioListing : SftpFileSystemModel :=
  { sshConnection := true, sftpChannel := true, rootDirectory := "/home", rootNode := some 0,
    statJobId := 0, lsOps := [(2, 0)], externalJobs := [], nameFilters_ := [],
    heap := [some (homeNode LsState.LsRunning [])],
    channelCalls := [ChannelCall.statFile "/home" 1, ChannelCall.listDirectory "/home" 2],
    emitted := [Signal.connectionSuccess, Signal.modelAboutToBeReset, Signal.modelReset,
      Signal.rowsAboutToBeInserted 0 0, Signal.rowsInserted 0 0,
      Signal.sftpOperationFinished 1 ""],
    warnings := 0 }

/-- The three child nodes the listing of `/home` creates, at addresses 1, 2, 3. -/
def homeChildren : List (Option SftpFileNode) :=
  [ some { path := "/home/b.txt",
           fileInfo := { name := "b.txt", type := SftpFileType.FileTypeRegular, size := 10 },
           parent := some 0, asDir := none },
    some { path := "/home/A",
           fileInfo := { name := "A", type := SftpFileType.FileTypeDirectory, size := 0 },
           parent := some 0,
           asDir := some { lsState := LsState.LsNotYetCalled, children := [] } },
    some { path := "/home/a.txt",
           fileInfo := { name := "a.txt", type := SftpFileType.FileTypeRegular, size := 5 },
           parent := some 0, asDir := none } ]

/-- After the listing answer for job 2: the children are merged in, job 2 has not
ended yet. -/
def scenarioMerged : SftpFileSystemModel :=
  { scenarioListing with
    heap := some (homeNode LsState.LsRunning [2, 3, 1]) :: homeChildren,
    emitted := scenarioListing.emitted ++ [Signal.layoutAboutToBeChanged, Signal.layoutChanged] }

/-- After the end of job 2: the root is listed with three children. -/
def scenarioListed : SftpFileSystemModel :=
  { scenarioMerged with
    lsOps := [],
    heap := some (homeNode LsState.LsFinished [2, 3, 1]) :: homeChildren,
    emitted := scenarioMerged.emitted ++ [Signal.sftpOperationFinished 2 ""] }

/-- The index of the child directory `/home/A` (row 0 of the root, address 2). -/
def dirAIndex : QModelIndex := createIndex 0 0 2

/-- The scenario continued: `/home/A` expanded (listing job 3, answered with the
single file `x`, ended), so both `/home` and `/home/A` are listed. -/
def scenarioNested : SftpFileSystemModel :=
  { scenarioListed with
    heap := [ some (homeNode LsState.LsFinished [2, 3, 1]),
      some { path := "/home/b.txt",
             fileInfo := { name := "b.txt", type := SftpFileType.FileTypeRegular, size := 10 },
             parent := some 0, asDir := none },
      some { path := "/home/A",
             fileInfo := { name := "A", type := SftpFileType.FileTypeDirectory, size := 0 },
             parent := some 0,
             asDir := some { lsState := LsState.LsFinished, children := [4] } },
      some { path := "/home/a.txt",
             fileInfo := { name := "a.txt", type := SftpFileType.FileTypeRegular, size := 5 },
             parent := some 0, asDir := none },
      some { path := "/home/A/x",
             fileInfo := { name := "x", type := SftpFileType.FileTypeRegular, size := 1 },
             parent := some 2, asDir := none } ],
    channelCalls := scenarioListed.channelCalls ++ [ChannelCall.listDirectory "/home/A" 3],
    emitted := scenarioListed.emitted ++
      [Signal.layoutAboutToBeChanged, Signal.layoutChanged, Signal.sftpOperationFinished 3 ""] }

/-- The scenario with a refresh of the root while its listing job 2 is still
running: `update` on the root index, answered with job 3. -/
def scenarioRefreshed : SftpFileSystemModel :=
  { scenarioMerged with
    lsOps := [(3, 0), (2, 0)],
    heap := some (homeNode LsState.LsRunning []) :: homeChildren,
    channelCalls := scenarioMerged.channelCalls ++ [ChannelCall.listDirectory "/home" 3] }

/-- The refreshed scenario after the end of the earlier job 2: the root is
`LsFinished` while job 3 is still registered against it. -/
def scenarioRefreshedFinished : SftpFileSystemModel :=
  { scenarioRefreshed with
    lsOps := [(3, 0)],
    heap := some (homeNode LsState.LsFinished []) :: homeChildren,
    emitted := scenarioRefreshed.emitted ++ [Signal.sftpOperationFinished 2 ""] }

/-- The job ids registered against the directory at `a`. -/
def jobsOf (m : DirNodeHash) (a : Addr) : List SftpJobId :=
  (m.filter (fun e => e.2 == a)).map (fun e => e.1)

/-! ## External jobs -/

/-- The member `downloadFile(index, targetFilePath)`; `job` is what the channel
answers to the download request.  The result is the returned job id. -/
def downloadFile (s : SftpFileSystemModel) (index : QModelIndex) (targetFilePath : String)
    (job : SftpJobId) : Except Fault (SftpJobId × SftpFileSystemModel) :=
  if s.rootNode.isNone then .ok (SftpInvalidJob, { s with warnings := s.warnings + 1 })
  else
    match index.internalPointer with
    | none => .ok (SftpInvalidJob, { s with warnings := s.warnings + 1 })
    | some f =>
      match s.heap.node f with
      | none => .error .danglingDeref
      | some fn =>
        if s.sftpChannel then
          .ok (job, { s with
            channelCalls := s.channelCalls ++ [ChannelCall.downloadFile fn.path targetFilePath job],
            externalJobs := if job ≠ SftpInvalidJob then s.externalJobs ++ [job]
                            else s.externalJobs })
        else .error .nullDeref

/-- The member `uploadFile`; `job` is what the channel answers to the upload
request. -/
def uploadFile (s : SftpFileSystemModel) (localFilePath targetFilePath : String)
    (job : SftpJobId) : Except Fault (SftpJobId × SftpFileSystemModel) :=
  if s.rootNode.isNone then .ok (SftpInvalidJob, { s with warnings := s.warnings + 1 })
  else if s.sftpChannel then
    .ok (job, { s with
      channelCalls := s.channelCalls ++ [ChannelCall.uploadFile localFilePath targetFilePath job],
      externalJobs := if job ≠ SftpInvalidJob then s.externalJobs ++ [job]
                      else s.externalJobs })
  else .error .nullDeref

/-- The member `removeFile`; `job` is what the channel answers to the remove
request. -/
def removeFile (s : SftpFileSystemModel) (index : QModelIndex) (job : SftpJobId) :
    Except Fault (SftpJobId × SftpFileSystemModel) :=
  if s.rootNode.isNone then .ok (SftpInvalidJob, { s with warnings := s.warnings + 1 })
  else
    match index.internalPointer with
    | none => .ok (SftpInvalidJob, { s with warnings := s.warnings + 1 })
    | some f =>
      match s.heap.node f with
      | none => .error .danglingDeref
      | some fn =>
        if s.sftpChannel then
          .ok (job, { s with
            channelCalls := s.channelCalls ++ [ChannelCall.removeFile fn.path job],
            externalJobs := if job ≠ SftpInvalidJob then s.externalJobs ++ [job]
                            else s.externalJobs })
        else .error .nullDeref

/-! ## Item data -/

/-- The value `Qt::DisplayRole` of the enumeration `Qt::ItemDataRole`. -/
def DisplayRole : Int := 0

/-- The value `Qt::DecorationRole`. -/
def DecorationRole : Int := 1

/-- The value `Qt::EditRole`. -/
def EditRole : Int := 2

/-- The value `Qt::TextAlignmentRole`. -/
def TextAlignmentRole : Int := 7

/-- The value `Qt::UserRole`. -/
def UserRole : Int := 256

/-- The constant `SftpFileSystemModel::PathRole`, declared as `Qt::UserRole`. -/
def PathRole : Int := UserRole

/-- The values `data` returns; `invalid` is the default-constructed `QVariant()`. -/
inductive QVariant where
  | invalid
  | string (value : String)
  | size (value : Nat)
  | icon (resource : String)
  | alignment (flags : Nat)
  deriving DecidableEq, Repr

/-- The member `data`.  The warning the display branch logs for a column other
than 0 and 1 is not recorded. -/
def data (s : SftpFileSystemModel) (index : QModelIndex) (role : Int) : Except Fault QVariant :=
  if role = EditRole ∨ role = DisplayRole then
    match index.internalPointer with
    | none => .ok (QVariant.string "")
    | some a =>
      match s.heap.node a with
      | none => .error .danglingDeref
      | some node =>
        if index.column = 0 then .ok (QVariant.string node.fileInfo.name)
        else if index.column = 1 then .ok (QVariant.size node.fileInfo.size)
        else .ok QVariant.invalid
  else if role = DecorationRole then
    if index.column = 0 then
      match index.internalPointer with
      | none => .ok QVariant.invalid
      | some a =>
        match s.heap.node a with
        | none => .error .danglingDeref
        | some node =>
          if node.fileInfo.type = SftpFileType.FileTypeDirectory then
            .ok (QVariant.icon ":/core/folder.ico")
          else .ok QVariant.invalid
    else .ok QVariant.invalid
  else if role = TextAlignmentRole then
    if index.column = 1 then .ok (QVariant.alignment 130) else .ok QVariant.invalid
  else .ok QVariant.invalid

/-! ## Coordinates -/

/-- The member `columnCount`. -/
def columnCount : Int := 2

/-- The call `list.indexOf(p)` of a pointer list: the first position of `p`, or
-1 when it is absent. -/
def qIndexOf (l : List Addr) (p : Addr) : Int :=
  if p ∈ l then (l.indexOf p : Int) else -1

/-- The member `index`; `job` is what the channel answers should the call of
`rowCount` inside issue a `listDirectory` request. -/
def index (s : SftpFileSystemModel) (row column : Int) (parent : QModelIndex)
    (job : SftpJobId) : Except Fault (QModelIndex × SftpFileSystemModel) :=
  if row < 0 then .ok (QModelIndex.invalid, s)
  else
    match rowCount s parent job with
    | .error e => .error e
    | .ok (n, s1) =>
      if row ≥ n ∨ column < 0 ∨ column ≥ columnCount then .ok (QModelIndex.invalid, s1)
      else
        match s1.rootNode with
        | none => .ok (QModelIndex.invalid, s1)
        | some root =>
          if !parent.isValid then .ok (createIndex row column root, s1)
          else
            match parent.internalPointer with
            | none => .ok (QModelIndex.invalid, { s1 with warnings := s1.warnings + 2 })
            | some a =>
              match s1.heap.node a with
              | none => .error .danglingDeref
              | some n =>
                match n.asDir with
                | none => .ok (QModelIndex.invalid, { s1 with warnings := s1.warnings + 1 })
                | some d =>
                  match d.children.get? row.toNat with
                  | none => .ok (QModelIndex.invalid, { s1 with warnings := s1.warnings + 1 })
                  | some childNode => .ok (createIndex row column childNode, s1)

/-- The member `parent`. -/
def parent (s : SftpFileSystemModel) (child : QModelIndex) :
    Except Fault (QModelIndex × SftpFileSystemModel) :=
  if !child.isValid then .ok (QModelIndex.invalid, s)
  else
    match child.internalPointer with
    | none => .ok (QModelIndex.invalid, { s with warnings := s.warnings + 1 })
    | some c =>
      if s.rootNode = some c then .ok (QModelIndex.invalid, s)
      else
        match s.heap.node c with
        | none => .error .danglingDeref
        | some childNode =>
          if childNode.parent = s.rootNode then
            .ok ({ row := 0, column := 0, internalPointer := s.rootNode, model := true }, s)
          else
            match childNode.parent with
            | none => .error .nullDeref
            | some p =>
              match s.heap.node p with
              | none => .error .danglingDeref
              | some parentNode =>
                match parentNode.parent with
                | none => .ok (QModelIndex.invalid, { s with warnings := s.warnings + 1 })
                | some g =>
                  match s.heap.node g with
                  | none => .error .danglingDeref
                  | some grandParentNode =>
                    match grandParentNode.asDir with
                    | none => .error .badCast
                    | some gd => .ok (createIndex (qIndexOf gd.children p) 0 p, s)

/-- The entry the stat of `/home` is answered with. -/
def homeStat : SftpFileInfo :=
  { name := "home", type := SftpFileType.FileTypeDirectory, size := 0 }

/-- The scenario with the stat job 1 still pending: after `setRootDirectory
"/home"` (stat job 1), the stat answer, the first `rowCount` on the root
(listing job 2) and the listing answer, before any job has ended. -/
def scenarioStatPending : SftpFileSystemModel :=
  { sshConnection := true, sftpChannel := true, rootDirectory := "/home", rootNode := some 0,
    statJobId := 1, lsOps := [(2, 0)], externalJobs := [], nameFilters_ := [],
    heap := some (homeNode LsState.LsRunning [2, 3, 1]) :: homeChildren,
    channelCalls := [ChannelCall.statFile "/home" 1, ChannelCall.listDirectory "/home" 2],
    emitted := [Signal.connectionSuccess, Signal.modelAboutToBeReset, Signal.modelReset,
      Signal.rowsAboutToBeInserted 0 0, Signal.rowsInserted 0 0,
      Signal.layoutAboutToBeChanged, Signal.layoutChanged],
    warnings := 0 }

/-- No node of the heap that has a parent, that is none but a node built as a
root, is named `.` or `..`. -/
def ProperNames (h : Heap) : Prop :=
  ∀ a n, h.node a = some n → n.parent ≠ none →
    n.fileInfo.name ≠ "." ∧ n.fileInfo.name ≠ ".."

/-- A listing answer that carries the two pseudo-entries and one file. -/
def dotListing : List SftpFileInfo :=
  [ { name := ".", type := SftpFileType.FileTypeDirectory, size := 0 },
    { name := "..", type := SftpFileType.FileTypeDirectory, size := 0 },
    { name := "a", type := SftpFileType.FileTypeRegular, size := 1 } ]

/-! ## Well-formed trees -/

/-- The child lists of a heap are well formed: no pointer occurs twice in a child
list, and every child is alive and points back to the directory that lists it. -/
def HeapInv (h : Heap) : Prop :=
  ∀ D dn d, h.node D = some dn → dn.asDir = some d →
    d.children.Nodup ∧ ∀ x ∈ d.children, ∃ xn, h.node x = some xn ∧ xn.parent = some D

/-- The root pointer, when set, points to a node that is alive and has no
parent. -/
def RootInv (h : Heap) (rootNode : Option Addr) : Prop :=
  ∀ R, rootNode = some R → ∃ rn, h.node R = some rn ∧ rn.parent = none

/-- The index `p` is the index the model hands out for the node at `D`: row 0
for the root, otherwise the position of `D` among the children of its parent. -/
def Addresses (s : SftpFileSystemModel) (p : QModelIndex) (D : Addr) : Prop :=
  p.isValid = true ∧ p.internalPointer = some D ∧
    ((s.rootNode = some D ∧ p.row = 0) ∨
     (s.rootNode ≠ some D ∧ ∃ dn G gn gd, s.heap.node D = some dn ∧ dn.parent = some G ∧
        s.heap.node G = some gn ∧ gn.asDir = some gd ∧ qIndexOf gd.children D = p.row))

/-- Every node of `h` is still alive in `h2` and has kept its parent pointer. -/
def KeepsParents (h h2 : Heap) : Prop :=
  ∀ b x, h.node b = some x → ∃ x2, h2.node b = some x2 ∧ x2.parent = x.parent

/-- The tree of a model state is well formed. -/
def TreeInv (s : SftpFileSystemModel) : Prop :=
  HeapInv s.heap ∧ RootInv s.heap s.rootNode

/-- Every node of the heap that has a parent, that is every node but one built as
a root, is a directory node exactly when the type of its entry is
`FileTypeDirectory`. -/
def KindsMatch (h : Heap) : Prop :=
  ∀ a n, h.node a = some n → n.parent ≠ none →
    (n.asDir.isSome = true ↔ n.fileInfo.type = SftpFileType.FileTypeDirectory)

/-- Every directory node of `h` is still a directory node in `h2`. -/
def KeepsDirs (h h2 : Heap) : Prop :=
  ∀ b x, h.node b = some x → x.asDir.isSome = true →
    ∃ x2, h2.node b = some x2 ∧ x2.asDir.isSome = true

/-- Every pointer of the listing registry points to a live directory node. -/
def RegistryLive (s : SftpFileSystemModel) : Prop :=
  ∀ j a, s.lsOps.value j = some a → ∃ n d, s.heap.node a = some n ∧ n.asDir = some d

/-- The heap of the merged scenario with one more node, built for a listing
entry `A.TXT` of `/home` and not yet inserted into the child list (address 4). -/
def heapWithNewEntry : Heap :=
  (scenarioMerged.heap.alloc
    (newChildNode 0 "/home"
      { name := "A.TXT", type := SftpFileType.FileTypeRegular, size := 5 })).2

/-- The connected model after `setRootDirectory "/home"` (stat job 1), before the
stat answer. -/
def scenarioRootRequested : SftpFileSystemModel :=
  { scenarioConnected with
    rootDirectory := "/home", statJobId := 1,
    channelCalls := [ChannelCall.statFile "/home" 1],
    emitted := [Signal.connectionSuccess, Signal.modelAboutToBeReset, Signal.modelReset] }

/-! # Verification -/

/-! ## Case-insensitive comparison -/

theorem ucstricmp_swap (fold : Char → Char) :
    ∀ a b : List Char, 0 < ucstricmp fold a b → ucstricmp fold b a < 0
  | [], [] => by simp [ucstricmp]
  | [], _ :: _ => by simp [ucstricmp]
  | _ :: _, [] => by simp [ucstricmp]
  | a :: as, b :: bs => by
    intro h
    unfold ucstricmp at h ⊢
    by_cases hab : (fold a).toNat = (fold b).toNat
    · rw [if_pos hab] at h
      rw [if_pos hab.symm]
      exact ucstricmp_swap fold as bs h
    · rw [if_neg hab] at h
      rw [if_neg (fun e => hab e.symm)]
      omega

theorem ucstricmp_trans (fold : Char → Char) :
    ∀ a b c : List Char, ucstricmp fold a b ≤ 0 → ucstricmp fold b c ≤ 0 →
      ucstricmp fold a c ≤ 0
  | [], _, [] => by intros; simp [ucstricmp]
  | [], _, _ :: _ => by intros; simp [ucstricmp]
  | _ :: _, [], _ => by intro h; simp [ucstricmp] at h
  | _ :: _, _ :: _, [] => by intro _ h; simp [ucstricmp] at h
  | a :: as, b :: bs, c :: cs => by
    intro h1 h2
    unfold ucstricmp at h1 h2 ⊢
    by_cases hab : (fold a).toNat = (fold b).toNat
    · rw [if_pos hab] at h1
      by_cases hbc : (fold b).toNat = (fold c).toNat
      · rw [if_pos hbc] at h2
        rw [if_pos (hab.trans hbc)]
        exact ucstricmp_trans fold as bs cs h1 h2
      · rw [if_neg hbc] at h2
        rw [if_neg (fun e => hbc (hab.symm.trans e))]
        omega
    · rw [if_neg hab] at h1
      by_cases hbc : (fold b).toNat = (fold c).toNat
      · rw [if_pos hbc] at h2
        rw [if_neg (fun e => hab (e.trans hbc.symm))]
        omega
      · rw [if_neg hbc] at h2
        have hac : ¬ (fold a).toNat = (fold c).toNat := by omega
        rw [if_neg hac]
        omega

theorem ucstricmp_eq_zero_symm (fold : Char → Char) :
    ∀ a b : List Char, ucstricmp fold a b = 0 → ucstricmp fold b a = 0
  | [], [] => by simp [ucstricmp]
  | [], _ :: _ => by simp [ucstricmp]
  | _ :: _, [] => by simp [ucstricmp]
  | a :: as, b :: bs => by
    intro h
    unfold ucstricmp at h ⊢
    by_cases hab : (fold a).toNat = (fold b).toNat
    · rw [if_pos hab] at h
      rw [if_pos hab.symm]
      exact ucstricmp_eq_zero_symm fold as bs h
    · rw [if_neg hab] at h
      omega

theorem qCompare_swap (fold : Char → Char) (s t : String) (h : 0 < qCompare fold s t) :
    qCompare fold t s ≤ 0 :=
  le_of_lt (ucstricmp_swap fold _ _ h)

theorem qCompare_trans (fold : Char → Char) (s t u : String)
    (h1 : qCompare fold s t ≤ 0) (h2 : qCompare fold t u ≤ 0) : qCompare fold s u ≤ 0 :=
  ucstricmp_trans fold _ _ _ h1 h2

/-! ## Heap and child lists -/

theorem Heap.node_lt (h : Heap) (a : Addr) (n : SftpFileNode) (ha : h.node a = some n) :
    a < h.length := by
  by_contra hge
  unfold Heap.node at ha
  rw [List.get?_eq_none.mpr (Nat.le_of_not_lt hge)] at ha
  simp at ha

theorem Heap.node_length (h : Heap) : h.node h.length = none := by
  unfold Heap.node
  rw [List.get?_eq_none.mpr (Nat.le_refl _)]
  rfl

theorem Heap.node_write (h : Heap) (a b : Addr) (n n0 : SftpFileNode)
    (ha : h.node a = some n0) :
    (h.write a n).node b = if b = a then some n else h.node b := by
  unfold Heap.node Heap.write at *
  have hlt : a < h.length := by
    by_contra hge
    rw [List.get?_eq_none.mpr (Nat.le_of_not_lt hge)] at ha
    simp at ha
  by_cases hb : b = a
  · subst hb
    simp [List.getElem?_set, hlt]
  · simp [List.getElem?_set, hb, Ne.symm hb]

theorem Heap.length_write (h : Heap) (a : Addr) (n : SftpFileNode) :
    (h.write a n).length = h.length := by
  simp [Heap.write]

theorem Heap.node_append_left (h l : Heap) (a : Addr) (n : SftpFileNode)
    (ha : h.node a = some n) : (h ++ l).node a = some n := by
  have hlt := Heap.node_lt h a n ha
  unfold Heap.node at *
  rw [List.get?_eq_getElem?, List.getElem?_append_left hlt, ← List.get?_eq_getElem?]
  exact ha

theorem Heap.node_alloc (h : Heap) (n : SftpFileNode) :
    (h.alloc n).2.node h.length = some n := by
  simp [Heap.alloc, Heap.node]

theorem Heap.node_write_some (h : Heap) (a b : Addr) (n x : SftpFileNode)
    (hx : (h.write a n).node b = some x) : (b = a ∧ x = n) ∨ h.node b = some x := by
  unfold Heap.node Heap.write at *
  by_cases hb : b = a
  · subst hb
    by_cases hlt : b < h.length
    · left
      simp [List.getElem?_set, hlt] at hx
      exact ⟨rfl, hx.symm⟩
    · right
      rw [List.get?_eq_getElem?, List.getElem?_set] at hx
      simp [hlt] at hx
  · right
    rw [List.get?_eq_getElem?, List.getElem?_set] at hx
    simp [Ne.symm hb] at hx
    rw [List.get?_eq_getElem?]
    simpa using hx

theorem Heap.node_free_some (h : Heap) (a b : Addr) (x : SftpFileNode)
    (hx : (h.free a).node b = some x) : h.node b = some x := by
  unfold Heap.node Heap.free at *
  by_cases hb : b = a
  · subst hb
    by_cases hlt : b < h.length
    · simp [List.getElem?_set, hlt] at hx
    · rw [List.get?_eq_getElem?, List.getElem?_set] at hx
      simp [hlt] at hx
  · rw [List.get?_eq_getElem?, List.getElem?_set] at hx
    simp [Ne.symm hb] at hx
    rw [List.get?_eq_getElem?]
    simpa using hx

theorem Heap.node_alloc_some (h : Heap) (n x : SftpFileNode) (b : Addr)
    (hx : (h.alloc n).2.node b = some x) : (b = h.length ∧ x = n) ∨ h.node b = some x := by
  unfold Heap.node Heap.alloc at *
  simp only at hx
  rw [List.get?_eq_getElem?] at hx
  by_cases hlt : b < h.length
  · right
    rw [List.getElem?_append_left hlt] at hx
    rw [List.get?_eq_getElem?]
    exact hx
  · left
    rw [List.getElem?_append_right (Nat.le_of_not_lt hlt)] at hx
    by_cases hb : b = h.length
    · subst hb
      simp at hx
      exact ⟨rfl, hx.symm⟩
    · have hge : h.length ≤ b := Nat.le_of_not_lt hlt
      have : b - h.length ≠ 0 := by
        intro h0
        exact hb (Nat.le_antisymm (Nat.sub_eq_zero_iff_le.mp h0) hge)
      obtain ⟨k, hk⟩ := Nat.exists_eq_succ_of_ne_zero this
      rw [hk] at hx
      simp at hx

theorem Heap.deleteNode_some (fuel : Nat) :
    ∀ (h : Heap) (a b : Addr) (x : SftpFileNode), (Heap.deleteNode fuel h a).node b = some x →
      h.node b = some x := by
  induction fuel with
  | zero =>
    intro h a b x hx
    exact hx
  | succ fuel ih =>
    intro h a b x hx
    unfold Heap.deleteNode at hx
    cases hn : h.node a with
    | none =>
      rw [hn] at hx
      exact hx
    | some n =>
      rw [hn] at hx
      cases hd : n.asDir with
      | none =>
        simp only [hd] at hx
        exact Heap.node_free_some h a b x hx
      | some d =>
        simp only [hd] at hx
        have hx1 := Heap.node_free_some _ a b x hx
        have hfold : ∀ (cs : List Addr) (g : Heap),
            (cs.foldl (fun acc c => Heap.deleteNode fuel acc c) g).node b = some x →
            g.node b = some x := by
          intro cs
          induction cs with
          | nil => intro g hg; exact hg
          | cons c cs ihc =>
            intro g hg
            exact ih g c b x (ihc _ hg)
        exact hfold d.children h hx1

theorem Heap.delete_some (h : Heap) (p : Option Addr) (b : Addr) (x : SftpFileNode)
    (hx : (h.delete p).node b = some x) : h.node b = some x := by
  cases p with
  | none => exact hx
  | some a => exact Heap.deleteNode_some _ h a b x hx

/-- A cell that `deleteNode` empties is the deleted node itself or a child of a
directory node that is emptied too. -/
theorem Heap.deleteNode_freed (fuel : Nat) :
    ∀ (h : Heap) (a x : Addr) (xn : SftpFileNode), h.node x = some xn →
      (Heap.deleteNode fuel h a).node x = none →
      x = a ∨ ∃ P pn pd, h.node P = some pn ∧ pn.asDir = some pd ∧ x ∈ pd.children ∧
        (Heap.deleteNode fuel h a).node P = none := by
  induction fuel with
  | zero =>
    intro h a x xn hx hdead
    rw [show Heap.deleteNode 0 h a = h from rfl, hx] at hdead
    simp at hdead
  | succ fuel ih =>
    intro h a x xn hx hdead
    by_cases hxa : x = a
    · exact Or.inl hxa
    right
    unfold Heap.deleteNode at hdead ⊢
    cases hn : h.node a with
    | none =>
      simp only [hn] at hdead
      rw [hx] at hdead
      simp at hdead
    | some n =>
      simp only [hn] at hdead ⊢
      have hfree_other : ∀ (g : Heap) (b : Addr), b ≠ a → (g.free a).node b = g.node b := by
        intro g b hb
        unfold Heap.node Heap.free
        rw [List.get?_eq_getElem?, List.getElem?_set, List.get?_eq_getElem?]
        simp [Ne.symm hb]
      have hfree_self : ∀ g : Heap, (g.free a).node a = none := by
        intro g
        cases hg : (g.free a).node a with
        | none => rfl
        | some v =>
          exfalso
          unfold Heap.node Heap.free at hg
          rw [List.get?_eq_getElem?, List.getElem?_set] at hg
          by_cases hlt : a < g.length
          · simp [hlt] at hg
          · simp [hlt] at hg
      cases hd : n.asDir with
      | none =>
        simp only [hd] at hdead
        rw [hfree_other h x hxa, hx] at hdead
        simp at hdead
      | some d =>
        simp only [hd] at hdead ⊢
        rw [hfree_other _ x hxa] at hdead
        have hfold : ∀ (cs : List Addr) (g : Heap),
            (∀ b v, g.node b = some v → h.node b = some v) →
            g.node x = some xn →
            (cs.foldl (fun acc c => Heap.deleteNode fuel acc c) g).node x = none →
            x ∈ cs ∨ ∃ P pn pd, h.node P = some pn ∧ pn.asDir = some pd ∧ x ∈ pd.children ∧
              (cs.foldl (fun acc c => Heap.deleteNode fuel acc c) g).node P = none := by
          intro cs
          induction cs with
          | nil =>
            intro g _ hgx hgd
            simp only [List.foldl_nil] at hgd
            rw [hgx] at hgd
            simp at hgd
          | cons c cs ihc =>
            intro g hsub hgx hgd
            simp only [List.foldl_cons] at hgd ⊢
            have hmono : ∀ (l : List Addr) (g1 : Heap) (b : Addr) (v : SftpFileNode),
                (l.foldl (fun acc c => Heap.deleteNode fuel acc c) g1).node b = some v →
                g1.node b = some v := by
              intro l
              induction l with
              | nil => intro g1 b v hv; exact hv
              | cons c' l' ihl =>
                intro g1 b v hv
                exact Heap.deleteNode_some fuel g1 c' b v (ihl _ b v hv)
            cases hstep : (Heap.deleteNode fuel g c).node x with
            | none =>
              rcases ih g c x xn hgx hstep with hxc | ⟨P, pn, pd, hP, hpd, hxP, hPdead⟩
              · exact Or.inl (hxc ▸ List.mem_cons_self c cs)
              · refine Or.inr ⟨P, pn, pd, hsub P pn hP, hpd, hxP, ?_⟩
                cases hfin : (cs.foldl (fun acc c => Heap.deleteNode fuel acc c)
                    (Heap.deleteNode fuel g c)).node P with
                | none => rfl
                | some v =>
                  have := hmono cs _ P v hfin
                  rw [hPdead] at this
                  simp at this
            | some v =>
              have hv : v = xn := by
                have := Heap.deleteNode_some fuel g c x v hstep
                rw [hgx] at this
                exact (Option.some.inj this).symm
              subst hv
              rcases ihc (Heap.deleteNode fuel g c)
                  (fun b w hw => hsub b w (Heap.deleteNode_some fuel g c b w hw)) hstep hgd
                with hxcs | hP
              · exact Or.inl (List.mem_cons_of_mem c hxcs)
              · exact Or.inr hP
        rcases hfold d.children h (fun _ _ hv => hv) hx hdead with hxd | ⟨P, pn, pd, hP, hpd, hxP, hPd⟩
        · exact ⟨a, n, d, hn, hd, hxd, hfree_self _⟩
        · refine ⟨P, pn, pd, hP, hpd, hxP, ?_⟩
          by_cases hPa : P = a
          · rw [hPa]
            exact hfree_self _
          · rw [hfree_other _ P hPa]
            exact hPd

theorem nameAt_eq (h : Heap) (a : Addr) (n : SftpFileNode) (hn : h.node a = some n) :
    nameAt h a = some n.fileInfo.name := by
  simp [nameAt, hn]

theorem nameAt_eq_infoAt (h : Heap) (a : Addr) :
    nameAt h a = (infoAt h a).map (fun fi => fi.name) := by
  unfold nameAt infoAt
  cases h.node a <;> rfl

theorem infoAt_of_node (h : Heap) (a : Addr) (n : SftpFileNode) (hn : h.node a = some n) :
    infoAt h a = some n.fileInfo := by
  simp [infoAt, hn]

theorem nameAt_write_dir (h : Heap) (dir : Addr) (dn : SftpFileNode) (d' : Option SftpDirNode)
    (hdir : h.node dir = some dn) (b : Addr) :
    nameAt (h.write dir { dn with asDir := d' }) b = nameAt h b := by
  unfold nameAt
  rw [Heap.node_write h dir b _ dn hdir]
  by_cases hb : b = dir
  · subst hb
    simp [hdir]
  · simp [hb]

theorem childNames_cons (h : Heap) (a : Addr) (as : List Addr) (names : List String) :
    childNames h (a :: as) = some names ↔
      ∃ n ns, nameAt h a = some n ∧ childNames h as = some ns ∧ names = n :: ns := by
  have hdef : childNames h (a :: as) =
      (match nameAt h a, childNames h as with
        | some n, some ns => some (n :: ns)
        | _, _ => none) := rfl
  rw [hdef]
  cases hn : nameAt h a with
  | none => simp
  | some n =>
    cases hns : childNames h as with
    | none => simp
    | some ns => simp [eq_comm]

theorem childNames_congr (h h' : Heap) (hn : ∀ b, nameAt h' b = nameAt h b) :
    ∀ l : List Addr, childNames h' l = childNames h l
  | [] => rfl
  | a :: as => by
    have hdef : ∀ g : Heap, childNames g (a :: as) =
      (match nameAt g a, childNames g as with
        | some n, some ns => some (n :: ns)
        | _, _ => none) := fun _ => rfl
    rw [hdef h', hdef h, hn a, childNames_congr h h' hn as]

theorem childNames_congr_on (h h' : Heap) :
    ∀ l : List Addr, (∀ b ∈ l, nameAt h' b = nameAt h b) → childNames h' l = childNames h l
  | [], _ => rfl
  | a :: as, hn => by
    have hdef : ∀ g : Heap, childNames g (a :: as) =
      (match nameAt g a, childNames g as with
        | some n, some ns => some (n :: ns)
        | _, _ => none) := fun _ => rfl
    rw [hdef h', hdef h, hn a (List.mem_cons_self a as),
      childNames_congr_on h h' as (fun b hb => hn b (List.mem_cons_of_mem a hb))]

theorem childNames_live (h : Heap) :
    ∀ (cs : List Addr) (names : List String), childNames h cs = some names →
      ∀ a ∈ cs, (h.node a).isSome = true
  | [], _, _, a, ha => by simp at ha
  | c :: rest, names, hc, a, ha => by
    have hdef : childNames h (c :: rest) =
      (match nameAt h c, childNames h rest with
        | some n, some ns => some (n :: ns)
        | _, _ => none) := rfl
    rw [hdef] at hc
    cases hn : nameAt h c with
    | none => simp [hn] at hc
    | some n =>
      cases hns : childNames h rest with
      | none => simp [hn, hns] at hc
      | some ns =>
        rcases List.mem_cons.mp ha with rfl | ha
        · unfold nameAt at hn
          cases hx : h.node a with
          | none => simp [hx] at hn
          | some _ => rfl
        · exact childNames_live h rest ns hns a ha

theorem childNames_eq_map (h : Heap) :
    ∀ (l : List Addr) (names : List String), childNames h l = some names →
      l.map (nameAt h) = names.map some
  | [], names, hc => by
    simp [childNames] at hc
    subst hc
    rfl
  | a :: as, names, hc => by
    obtain ⟨n, ns, hn, hns, rfl⟩ := (childNames_cons h a as names).mp hc
    simp [hn, childNames_eq_map h as ns hns]

theorem perm_map_some {α : Type} (xs : List (Option α)) (ys : List α)
    (hp : xs.Perm (ys.map some)) : ∃ zs : List α, xs = zs.map some ∧ zs.Perm ys := by
  refine ⟨xs.filterMap id, ?_, ?_⟩
  · have hall : ∀ x ∈ xs, ∃ y, x = some y := by
      intro x hx
      obtain ⟨y, _, hy⟩ := List.mem_map.mp (hp.subset hx)
      exact ⟨y, hy.symm⟩
    clear hp
    induction xs with
    | nil => rfl
    | cons x xs ih =>
      obtain ⟨y, rfl⟩ := hall x (List.mem_cons_self x xs)
      have := ih (fun z hz => hall z (List.mem_cons_of_mem _ hz))
      simp only [List.filterMap_cons, id_eq, List.map_cons]
      rw [← this]
  · have h1 := hp.filterMap id
    have h2 : (ys.map some).filterMap id = ys := by
      induction ys with
      | nil => rfl
      | cons y ys ih => simp [List.filterMap_cons, ih]
    rw [h2] at h1
    exact h1

theorem takeWhile_append_stop {α : Type} (p : α → Bool) (xs ys : List α) (y : α)
    (hxs : ∀ x ∈ xs, p x = true) (hy : p y = false) :
    (xs ++ y :: ys).takeWhile p = xs := by
  induction xs with
  | nil => simp [List.takeWhile, hy]
  | cons x xs ih =>
    have hx : p x = true := hxs x (List.mem_cons_self x xs)
    simp only [List.cons_append, List.takeWhile_cons, hx, if_true]
    rw [ih (fun z hz => hxs z (List.mem_cons_of_mem x hz))]

theorem isNone_of_isSome {α : Type} (o : Option α) (h : o.isSome = true) : o.isNone = false := by
  cases o with
  | none => simp at h
  | some _ => rfl

/-! ## The registry of listing jobs -/

theorem DirNodeHash.value_insert_self (m : DirNodeHash) (j : SftpJobId) (a : Addr) :
    (m.insert j a).value j = some a := by
  simp [DirNodeHash.insert, DirNodeHash.value, List.lookup]

theorem lookup_filter_ne (m : List (SftpJobId × Addr)) (j k : SftpJobId) (hk : k ≠ j) :
    (m.filter (fun e => e.1 != j)).lookup k = m.lookup k := by
  induction m with
  | nil => rfl
  | cons e m ih =>
    obtain ⟨x, y⟩ := e
    by_cases hx : x = j
    · subst hx
      have h1 : (k == x) = false := by simpa using hk
      simp [List.filter_cons, List.lookup, h1, ih]
    · by_cases hkx : k = x
      · subst hkx
        simp [List.filter_cons, List.lookup, hx]
      · have h1 : (k == x) = false := by simpa using hkx
        simp [List.filter_cons, List.lookup, hx, h1, ih]

theorem lookup_filter_self (m : List (SftpJobId × Addr)) (j : SftpJobId) :
    (m.filter (fun e => e.1 != j)).lookup j = none := by
  induction m with
  | nil => rfl
  | cons e m ih =>
    obtain ⟨x, y⟩ := e
    by_cases hx : x = j
    · subst hx
      simp [List.filter_cons, ih]
    · have h1 : (j == x) = false := by simpa using fun e => hx e.symm
      simp [List.filter_cons, List.lookup, hx, h1, ih]

theorem DirNodeHash.value_insert_other (m : DirNodeHash) (j k : SftpJobId) (a : Addr)
    (hk : k ≠ j) : (m.insert j a).value k = m.value k := by
  have h1 : (k == j) = false := by simpa using hk
  simp only [DirNodeHash.insert, DirNodeHash.value, List.lookup, h1]
  exact lookup_filter_ne m j k hk

theorem DirNodeHash.value_erase_self (m : DirNodeHash) (j : SftpJobId) :
    (m.erase j).value j = none :=
  lookup_filter_self m j

theorem DirNodeHash.value_erase_other (m : DirNodeHash) (j k : SftpJobId) (hk : k ≠ j) :
    (m.erase j).value k = m.value k :=
  lookup_filter_ne m j k hk

/-! ## Insertion into a child list -/

theorem insertLoop_sorted (fold : Char → Char) (h : Heap) (nn : String) (new : Addr)
    (hnew : nameAt h new = some nn) :
    ∀ (cs : List Addr) (names : List String), childNames h cs = some names →
      SortedCI fold names →
      ∃ l names', insertLoop fold h nn new cs = .ok l ∧ childNames h l = some names' ∧
        SortedCI fold names' ∧ l.Perm (new :: cs) ∧ names'.Perm (nn :: names)
  | [], names, hc, _ => by
    simp [childNames] at hc
    subst hc
    refine ⟨[new], [nn], by simp [insertLoop], ?_, by simp [SortedCI], List.Perm.refl _,
      List.Perm.refl _⟩
    simp [childNames, hnew]
  | c :: rest, names, hc, hs => by
    obtain ⟨n, ns, hcn, hrest, rfl⟩ := (childNames_cons h c rest names).mp hc
    obtain ⟨cn, hcnode, hcname⟩ : ∃ cn, h.node c = some cn ∧ cn.fileInfo.name = n := by
      unfold nameAt at hcn
      cases hx : h.node c with
      | none => simp [hx] at hcn
      | some cn => exact ⟨cn, rfl, by simpa [hx] using hcn⟩
    have hs' : SortedCI fold ns := (List.pairwise_cons.mp hs).2
    have hhead : ∀ x ∈ ns, qCompare fold n x ≤ 0 := (List.pairwise_cons.mp hs).1
    unfold insertLoop
    simp only [hcnode, hcname]
    by_cases hgt : qCompare fold nn n > 0
    · obtain ⟨l, names', hl, hln, hsorted, hperm, hnperm⟩ :=
        insertLoop_sorted fold h nn new hnew rest ns hrest hs'
      refine ⟨c :: l, n :: names', by simp [hgt, hl], ?_, ?_, ?_, ?_⟩
      · exact (childNames_cons h c l _).mpr ⟨n, names', hcn, hln, rfl⟩
      · refine List.pairwise_cons.mpr ⟨?_, hsorted⟩
        intro x hx
        rcases List.mem_cons.mp (hnperm.subset hx) with rfl | hx
        · exact qCompare_swap fold _ _ hgt
        · exact hhead x hx
      · exact (List.Perm.cons c hperm).trans (List.Perm.swap new c rest)
      · exact (List.Perm.cons n hnperm).trans (List.Perm.swap nn n ns)
    · have hle : qCompare fold nn n ≤ 0 := not_lt.mp hgt
      refine ⟨new :: c :: rest, nn :: n :: ns, by simp [hgt], ?_, ?_, List.Perm.refl _,
        List.Perm.refl _⟩
      · exact (childNames_cons h new _ _).mpr ⟨nn, n :: ns, hnew, hc, rfl⟩
      · refine List.pairwise_cons.mpr ⟨?_, hs⟩
        intro x hx
        rcases List.mem_cons.mp hx with rfl | hx
        · exact hle
        · exact qCompare_trans fold _ _ _ hle (hhead x hx)

/-- What one call of `insertChild` does to a directory with a sorted child list. -/
theorem insertChild_ok (fold : Char → Char) (h : Heap) (dir new : Addr)
    (dn nnode : SftpFileNode) (d : SftpDirNode) (names : List String)
    (hdir : h.node dir = some dn) (hd : dn.asDir = some d)
    (hnames : childNames h d.children = some names) (hs : SortedCI fold names)
    (hnew : h.node new = some nnode) :
    ∃ h' l names', insertChild fold h dir new = .ok h' ∧
      h'.node dir = some { dn with asDir := some { d with children := l } } ∧
      (∀ b, b ≠ dir → h'.node b = h.node b) ∧
      h'.length = h.length ∧
      childNames h' l = some names' ∧ SortedCI fold names' ∧
      (new ∉ d.children →
        l.Perm (new :: d.children) ∧ names'.Perm (nnode.fileInfo.name :: names)) ∧
      (new ∈ d.children → h' = h ∧ l = d.children) := by
  unfold insertChild
  simp only [hdir, hd]
  by_cases hc : new ∈ d.children
  · refine ⟨h, d.children, names, by simp [hc], ?_, fun _ _ => rfl, rfl, hnames, hs,
      fun hn => absurd hc hn, fun _ => ⟨rfl, rfl⟩⟩
    rw [hdir]
    cases dn
    cases d
    simp_all
  · obtain ⟨l, names', hl, hln, hsorted, hperm, hnperm⟩ :=
      insertLoop_sorted fold h nnode.fileInfo.name new (nameAt_eq h new nnode hnew)
        d.children names hnames hs
    refine ⟨h.write dir { dn with asDir := some { d with children := l } }, l, names', ?_, ?_,
      ?_, Heap.length_write _ _ _, ?_, hsorted, fun _ => ⟨hperm, hnperm⟩,
      fun hn => absurd hn hc⟩
    · by_cases he : d.children.isEmpty = true
      · have hnil : d.children = [] := by simpa using he
        rw [hnil] at hl
        simp only [insertLoop, Except.ok.injEq] at hl
        simp [hc, hnil, hl.symm]
      · simp [hc, he, hnew, hl]
    · rw [Heap.node_write h dir dir _ dn hdir]
      simp
    · intro b hb
      rw [Heap.node_write h dir b _ dn hdir]
      simp [hb]
    · rw [childNames_congr h _ (nameAt_write_dir h dir dn _ hdir) l]
      exact hln

/-- One call of `insertChild` on a sorted directory: the outcome in terms of
`ChildrenSorted`, liveness and membership. -/
theorem insertChild_sorted_step (fold : Char → Char) (h : Heap) (dir new : Addr)
    (hs : ChildrenSorted fold h dir) (hnew : (h.node new).isSome = true) :
    ∃ h', insertChild fold h dir new = .ok h' ∧ ChildrenSorted fold h' dir ∧
      (∀ b, (h.node b).isSome = true → (h'.node b).isSome = true) ∧
      (∀ cs, childrenOf h dir = some cs →
        ∃ cs', childrenOf h' dir = some cs' ∧ ∀ a, a ∈ cs' ↔ a = new ∨ a ∈ cs) := by
  obtain ⟨cs, names, hcs, hnames, hsorted⟩ := hs
  obtain ⟨dn, hdir, d, hd, rfl⟩ : ∃ dn, h.node dir = some dn ∧ ∃ d, dn.asDir = some d ∧
      d.children = cs := by
    unfold childrenOf at hcs
    cases hx : h.node dir with
    | none => simp [hx] at hcs
    | some dn =>
      simp only [hx, Option.map_eq_some'] at hcs
      obtain ⟨d, hd, hdc⟩ := hcs
      exact ⟨dn, rfl, d, hd, hdc⟩
  obtain ⟨nnode, hnn⟩ := Option.isSome_iff_exists.mp hnew
  obtain ⟨h', l, names', hins, hdir', hother, _, hln, hsorted', hfresh, hold⟩ :=
    insertChild_ok fold h dir new dn nnode d names hdir hd hnames hsorted hnn
  have hch' : childrenOf h' dir = some l := by simp [childrenOf, hdir']
  refine ⟨h', hins, ⟨l, names', hch', hln, hsorted'⟩, ?_, ?_⟩
  · intro b hb
    by_cases hbd : b = dir
    · subst hbd
      simp [hdir']
    · rw [hother b hbd]
      exact hb
  · intro cs0 hcs0
    have hcs0' : cs0 = d.children := by
      rw [hcs] at hcs0
      exact (Option.some.inj hcs0).symm
    subst hcs0'
    refine ⟨l, hch', fun a => ?_⟩
    by_cases hc : new ∈ d.children
    · rw [(hold hc).2]
      constructor
      · exact fun ha => Or.inr ha
      · rintro (rfl | ha)
        · exact hc
        · exact ha
    · rw [(hfresh hc).1.mem_iff]
      exact List.mem_cons

theorem insertAll_sorted (fold : Char → Char) (dir : Addr) :
    ∀ (order : List Addr) (h : Heap), ChildrenSorted fold h dir →
      (∀ a ∈ order, (h.node a).isSome = true) →
      ∃ h', insertAll fold dir h order = .ok h' ∧ ChildrenSorted fold h' dir ∧
        (∀ cs, childrenOf h dir = some cs →
          ∃ cs', childrenOf h' dir = some cs' ∧ ∀ a, a ∈ cs' ↔ a ∈ order ∨ a ∈ cs)
  | [], h, hs, _ => by
    refine ⟨h, rfl, hs, fun cs hcs => ⟨cs, hcs, fun a => by simp⟩⟩
  | n :: ns, h, hs, hlive => by
    obtain ⟨h1, hins, hs1, hlive1, hmem1⟩ :=
      insertChild_sorted_step fold h dir n hs (hlive n (List.mem_cons_self n ns))
    obtain ⟨h2, hall, hs2, hmem2⟩ := insertAll_sorted fold dir ns h1 hs1
      (fun a ha => hlive1 a (hlive a (List.mem_cons_of_mem n ha)))
    refine ⟨h2, by simp [insertAll, hins, hall], hs2, ?_⟩
    intro cs hcs
    obtain ⟨cs1, hcs1, hm1⟩ := hmem1 cs hcs
    obtain ⟨cs2, hcs2, hm2⟩ := hmem2 cs1 hcs1
    refine ⟨cs2, hcs2, fun a => ?_⟩
    rw [hm2 a, hm1 a, List.mem_cons]
    tauto

/-- The second loop of `handleFileInfo` on a directory with a sorted child list:
it succeeds, the new child list is sorted, and the file information records of
the children are those of the old children together with the entries. -/
theorem insertEntries_ok (fold : Char → Char) (D : Addr) :
    ∀ (entries : List SftpFileInfo) (h : Heap) (dn : SftpFileNode) (d : SftpDirNode)
      (names : List String),
      h.node D = some dn → dn.asDir = some d → childNames h d.children = some names →
      SortedCI fold names →
      ∃ h' l names', insertEntries fold (some D) h entries = .ok h' ∧
        h'.node D = some { dn with asDir := some { d with children := l } } ∧
        childNames h' l = some names' ∧ SortedCI fold names' ∧
        (l.map (infoAt h')).Perm (entries.map some ++ d.children.map (infoAt h)) ∧
        (∀ b, (h.node b).isSome = true → infoAt h' b = infoAt h b) ∧
        (∀ b, b ≠ D → (h.node b).isSome = true → h'.node b = h.node b)
  | [], h, dn, d, names, hD, hd, hnames, hs => by
    refine ⟨h, d.children, names, rfl, ?_, hnames, hs, by simp, fun _ _ => rfl,
      fun _ _ _ => rfl⟩
    rw [hD]
    cases dn
    cases d
    simp_all
  | fi :: rest, h, dn, d, names, hD, hd, hnames, hs => by
    have hlive := childNames_live h d.children names hnames
    have hfresh : h.length ∉ d.children := by
      intro hmem
      have := hlive _ hmem
      rw [Heap.node_length] at this
      simp at this
    have hD1 : (h.alloc (newChildNode D dn.path fi)).2.node D = some dn :=
      Heap.node_append_left h _ D dn hD
    have hkeep : ∀ b, (h.node b).isSome = true →
        (h.alloc (newChildNode D dn.path fi)).2.node b = h.node b := by
      intro b hb
      obtain ⟨x, hx⟩ := Option.isSome_iff_exists.mp hb
      rw [hx]
      exact Heap.node_append_left h _ b x hx
    have hnames1 : childNames (h.alloc (newChildNode D dn.path fi)).2 d.children = some names := by
      rw [childNames_congr_on h _ d.children
        (fun b hb => by unfold nameAt; rw [hkeep b (hlive b hb)])]
      exact hnames
    obtain ⟨h2, l2, names2, hins, hD2, hother2, _, hnames2, hs2, hperm2, _⟩ :=
      insertChild_ok fold _ D h.length dn (newChildNode D dn.path fi) d names hD1 hd hnames1 hs
        (Heap.node_alloc h _)
    obtain ⟨h', l, names', hrest, hD', hnames', hs', hperm', hinfo', hframe'⟩ :=
      insertEntries_ok fold D rest h2 _ _ names2 hD2 rfl hnames2 hs2
    have hne : h.length ≠ D := fun e => by
      have := Heap.node_length h
      rw [e, hD] at this
      simp at this
    have hinfo2 : ∀ b, (h.node b).isSome = true → infoAt h2 b = infoAt h b := by
      intro b hb
      by_cases hbD : b = D
      · subst hbD
        rw [infoAt_of_node h2 b _ hD2, infoAt_of_node h b dn hD]
      · unfold infoAt
        rw [hother2 b hbD, hkeep b hb]
    have hlive2 : ∀ b, (h.node b).isSome = true → (h2.node b).isSome = true := by
      intro b hb
      by_cases hbD : b = D
      · subst hbD
        simp [hD2]
      · rw [hother2 b hbD, hkeep b hb]
        exact hb
    have hnew2 : h2.node h.length = some (newChildNode D dn.path fi) := by
      rw [hother2 _ hne]
      exact Heap.node_alloc h _
    refine ⟨h', l, names', ?_, hD', hnames', hs', ?_, ?_, ?_⟩
    · simp only [insertEntries, hD, hins, hrest]
    · refine hperm'.trans ?_
      have h1 : (l2.map (infoAt h2)).Perm ((h.length :: d.children).map (infoAt h2)) :=
        (hperm2 hfresh).1.map _
      have h2' : (h.length :: d.children).map (infoAt h2) =
          some fi :: d.children.map (infoAt h) := by
        rw [List.map_cons, infoAt_of_node h2 _ _ hnew2]
        congr 1
        exact List.map_congr_left (fun b hb => hinfo2 b (hlive b hb))
      rw [h2'] at h1
      refine (List.Perm.append_left _ h1).trans ?_
      simp only [List.map_cons, List.cons_append]
      exact List.perm_middle
    · intro b hb
      rw [hinfo' b (hlive2 b hb), hinfo2 b hb]
    · intro b hbD hb
      rw [hframe' b hbD (hlive2 b hb), hother2 b hbD, hkeep b hb]

theorem insertLoop_total (fold : Char → Char) (h : Heap) (nn : String) (new : Addr) :
    ∀ cs : List Addr, (∀ c ∈ cs, (h.node c).isSome = true) →
      ∃ l, insertLoop fold h nn new cs = .ok l ∧ l.Perm (new :: cs)
  | [], _ => ⟨[new], rfl, List.Perm.refl _⟩
  | c :: rest, hlive => by
    obtain ⟨cn, hcn⟩ := Option.isSome_iff_exists.mp (hlive c (List.mem_cons_self c rest))
    obtain ⟨l, hl, hperm⟩ := insertLoop_total fold h nn new rest
      (fun x hx => hlive x (List.mem_cons_of_mem c hx))
    unfold insertLoop
    simp only [hcn, hl]
    by_cases hgt : qCompare fold nn cn.fileInfo.name > 0
    · exact ⟨c :: l, by simp [hgt],
        (List.Perm.cons c hperm).trans (List.Perm.swap new c rest)⟩
    · exact ⟨new :: c :: rest, by simp [hgt], List.Perm.refl _⟩

/-- One call of `insertChild` on a directory whose children are alive. -/
theorem insertChild_total (fold : Char → Char) (h : Heap) (dir new : Addr)
    (dn nnode : SftpFileNode) (d : SftpDirNode)
    (hdir : h.node dir = some dn) (hd : dn.asDir = some d)
    (hlive : ∀ c ∈ d.children, (h.node c).isSome = true)
    (hnew : h.node new = some nnode) :
    ∃ h' l, insertChild fold h dir new = .ok h' ∧
      h'.node dir = some { dn with asDir := some { d with children := l } } ∧
      (∀ b, b ≠ dir → h'.node b = h.node b) ∧
      h'.length = h.length ∧
      (∀ x, x ∈ l ↔ x = new ∨ x ∈ d.children) ∧
      (new ∉ d.children → l.Perm (new :: d.children)) ∧
      (new ∈ d.children → l = d.children) := by
  unfold insertChild
  simp only [hdir, hd]
  by_cases hc : new ∈ d.children
  · refine ⟨h, d.children, by simp [hc], ?_, fun _ _ => rfl, rfl, ?_, fun hn => absurd hc hn,
      fun _ => rfl⟩
    · rw [hdir]
      cases dn
      cases d
      simp_all
    · intro x
      constructor
      · exact fun hx => Or.inr hx
      · rintro (rfl | hx)
        · exact hc
        · exact hx
  · obtain ⟨l, hl, hperm⟩ := insertLoop_total fold h nnode.fileInfo.name new d.children hlive
    refine ⟨h.write dir { dn with asDir := some { d with children := l } }, l, ?_, ?_, ?_,
      Heap.length_write _ _ _, ?_, fun _ => hperm, fun hn => absurd hn hc⟩
    · by_cases he : d.children.isEmpty = true
      · have hnil : d.children = [] := by simpa using he
        rw [hnil] at hl
        simp only [insertLoop, Except.ok.injEq] at hl
        simp [hc, hnil, hl.symm]
      · simp [hc, he, hnew, hl]
    · rw [Heap.node_write h dir dir _ dn hdir]
      simp
    · intro b hb
      rw [Heap.node_write h dir b _ dn hdir]
      simp [hb]
    · intro x
      rw [hperm.mem_iff]
      exact List.mem_cons

/-- The second loop of `handleFileInfo` on a directory whose children are alive:
it succeeds, and the cells it adds to the heap are, in the order of the entries,
the nodes `newChildNode` builds; all of them are among the children afterwards. -/
theorem insertEntries_nodes (fold : Char → Char) (D : Addr) :
    ∀ (entries : List SftpFileInfo) (h : Heap) (dn : SftpFileNode) (d : SftpDirNode),
      h.node D = some dn → dn.asDir = some d →
      (∀ c ∈ d.children, (h.node c).isSome = true) →
      ∃ h' l, insertEntries fold (some D) h entries = .ok h' ∧
        h'.length = h.length + entries.length ∧
        h'.node D = some { dn with asDir := some { d with children := l } } ∧
        (∀ i fi, entries.get? i = some fi →
          h'.node (h.length + i) = some (newChildNode D dn.path fi) ∧ h.length + i ∈ l) ∧
        (∀ x, x ∈ d.children → x ∈ l) ∧
        (∀ x ∈ l, (h'.node x).isSome = true) ∧
        (∀ b, b ≠ D → (h.node b).isSome = true → h'.node b = h.node b)
  | [], h, dn, d, hD, hd, hlive => by
    refine ⟨h, d.children, rfl, rfl, ?_, ?_, fun _ hx => hx, hlive, fun _ _ _ => rfl⟩
    · rw [hD]
      cases dn
      cases d
      simp_all
    · intro i fi hi
      simp at hi
  | fi :: rest, h, dn, d, hD, hd, hlive => by
    have hD1 : (h.alloc (newChildNode D dn.path fi)).2.node D = some dn :=
      Heap.node_append_left h _ D dn hD
    have hkeep : ∀ b, (h.node b).isSome = true →
        (h.alloc (newChildNode D dn.path fi)).2.node b = h.node b := by
      intro b hb
      obtain ⟨x, hx⟩ := Option.isSome_iff_exists.mp hb
      rw [hx]
      exact Heap.node_append_left h _ b x hx
    have hlen1 : (h.alloc (newChildNode D dn.path fi)).2.length = h.length + 1 := by
      simp [Heap.alloc]
    obtain ⟨h2, l2, hins, hD2, hother2, hlen2, hmem2, _, _⟩ :=
      insertChild_total fold _ D h.length dn (newChildNode D dn.path fi) d hD1 hd
        (fun c hc => by rw [hkeep c (hlive c hc)]; exact hlive c hc) (Heap.node_alloc h _)
    have hne : h.length ≠ D := fun e => by
      have := Heap.node_length h
      rw [e, hD] at this
      simp at this
    have hnew2 : h2.node h.length = some (newChildNode D dn.path fi) := by
      rw [hother2 _ hne]
      exact Heap.node_alloc h _
    have hlive2 : ∀ b, (h.node b).isSome = true → (h2.node b).isSome = true := by
      intro b hb
      by_cases hbD : b = D
      · subst hbD
        simp [hD2]
      · rw [hother2 b hbD, hkeep b hb]
        exact hb
    have hl2live : ∀ c ∈ l2, (h2.node c).isSome = true := by
      intro c hc
      rcases (hmem2 c).mp hc with rfl | hc
      · simp [hnew2]
      · exact hlive2 c (hlive c hc)
    obtain ⟨h', l, hrest, hlen', hD', hnodes', hsub', hlive', hframe'⟩ :=
      insertEntries_nodes fold D rest h2 _ _ hD2 rfl hl2live
    refine ⟨h', l, ?_, ?_, hD', ?_, ?_, hlive', ?_⟩
    · simp only [insertEntries, hD, hins, hrest]
    · rw [hlen', hlen2, hlen1]
      simp only [List.length_cons]
      omega
    · intro i x hi
      cases i with
      | zero =>
        simp only [List.get?_cons_zero, Option.some.injEq] at hi
        subst hi
        constructor
        · rw [Nat.add_zero, hframe' _ hne (by simp [hnew2])]
          exact hnew2
        · rw [Nat.add_zero]
          exact hsub' _ ((hmem2 _).mpr (Or.inl rfl))
      | succ i =>
        simp only [List.get?_cons_succ] at hi
        have := hnodes' i x hi
        rw [hlen2, hlen1] at this
        have he : h.length + (i + 1) = h.length + 1 + i := by omega
        rw [he]
        exact this
    · intro x hx
      exact hsub' x ((hmem2 x).mpr (Or.inr hx))
    · intro b hbD hb
      rw [hframe' b hbD (hlive2 b hb), hother2 b hbD, hkeep b hb]

/-! ## `rowCount` and `update` -/

/-- In a state past `LsNotYetCalled`, `rowCount` only reads. -/
theorem rowCount_read_only (s : SftpFileSystemModel) (parent : QModelIndex) (D : Addr)
    (n : SftpFileNode) (d : SftpDirNode) (job : SftpJobId)
    (hroot : s.rootNode.isSome = true) (hvalid : parent.isValid = true)
    (hcol : parent.column = 0) (hptr : parent.internalPointer = some D)
    (hD : s.heap.node D = some n) (hd : n.asDir = some d)
    (hstate : d.lsState ≠ LsState.LsNotYetCalled) :
    rowCount s parent job = .ok ((d.children.length : Int), s) := by
  have hrn : s.rootNode.isNone = false := by
    cases hr : s.rootNode with
    | none => simp [hr] at hroot
    | some _ => rfl
  simp [rowCount, hrn, hvalid, hcol, hptr, hD, hd, hstate]

/-- The effect of `update` once the directory it works on is known. -/
theorem update_ok (s : SftpFileSystemModel) (index : QModelIndex) (job : SftpJobId) (T : Addr)
    (tn : SftpFileNode) (td : SftpDirNode) (hchannel : s.sftpChannel = true)
    (htarget : updateTarget s index = .ok (some T)) (hT : s.heap.node T = some tn)
    (hd : tn.asDir = some td) :
    update s index job = .ok { s with
      heap := s.heap.write T
        { tn with asDir := some { lsState := LsState.LsRunning, children := [] } },
      lsOps := s.lsOps.insert job T,
      channelCalls := s.channelCalls ++ [ChannelCall.listDirectory tn.path job] } := by
  simp [update, htarget, hT, hd, hchannel]

/-! ## Well-formed trees -/

theorem heapInv_write (h : Heap) (a : Addr) (n n' : SftpFileNode) (hinv : HeapInv h)
    (ha : h.node a = some n) (hpar : n'.parent = n.parent)
    (hch : ∀ d', n'.asDir = some d' →
      d'.children.Nodup ∧ ∀ x ∈ d'.children, ∃ xn, h.node x = some xn ∧ xn.parent = some a) :
    HeapInv (h.write a n') := by
  have hstay : ∀ x xn D, h.node x = some xn → xn.parent = some D →
      ∃ xn', (h.write a n').node x = some xn' ∧ xn'.parent = some D := by
    intro x xn D hx hxp
    rw [Heap.node_write h a x n' n ha]
    by_cases hxa : x = a
    · subst hxa
      rw [ha] at hx
      have : n = xn := Option.some.inj hx
      subst this
      exact ⟨n', by simp, by rw [hpar]; exact hxp⟩
    · exact ⟨xn, by simp [hxa, hx], hxp⟩
  intro D dn d hD hd
  rw [Heap.node_write h a D n' n ha] at hD
  by_cases hDa : D = a
  · subst hDa
    simp only [if_true, Option.some.injEq] at hD
    subst hD
    obtain ⟨hnd, hmem⟩ := hch d hd
    refine ⟨hnd, fun x hx => ?_⟩
    obtain ⟨xn, hxn, hxp⟩ := hmem x hx
    exact hstay x xn D hxn hxp
  · simp only [hDa, if_false] at hD
    obtain ⟨hnd, hmem⟩ := hinv D dn d hD hd
    refine ⟨hnd, fun x hx => ?_⟩
    obtain ⟨xn, hxn, hxp⟩ := hmem x hx
    exact hstay x xn D hxn hxp

theorem heapInv_alloc (h : Heap) (n : SftpFileNode) (hinv : HeapInv h)
    (hn : ∀ d, n.asDir = some d → d.children = []) : HeapInv (h.alloc n).2 := by
  intro D dn d hD hd
  rcases Heap.node_alloc_some h n dn D hD with ⟨_, rfl⟩ | hold
  · rw [hn d hd]
    exact ⟨List.nodup_nil, fun x hx => by simp at hx⟩
  · obtain ⟨hnd, hmem⟩ := hinv D dn d hold hd
    refine ⟨hnd, fun x hx => ?_⟩
    obtain ⟨xn, hxn, hxp⟩ := hmem x hx
    exact ⟨xn, Heap.node_append_left h _ x xn hxn, hxp⟩

theorem keepsParents_refl (h : Heap) : KeepsParents h h :=
  fun _ x hx => ⟨x, hx, rfl⟩

theorem keepsParents_trans (h1 h2 h3 : Heap) (h12 : KeepsParents h1 h2)
    (h23 : KeepsParents h2 h3) : KeepsParents h1 h3 := by
  intro b x hx
  obtain ⟨x2, hx2, hp2⟩ := h12 b x hx
  obtain ⟨x3, hx3, hp3⟩ := h23 b x2 hx2
  exact ⟨x3, hx3, hp3.trans hp2⟩

theorem keepsParents_write (h : Heap) (a : Addr) (n n' : SftpFileNode)
    (ha : h.node a = some n) (hpar : n'.parent = n.parent) : KeepsParents h (h.write a n') := by
  intro b x hx
  rw [Heap.node_write h a b n' n ha]
  by_cases hb : b = a
  · subst hb
    rw [ha] at hx
    have : n = x := Option.some.inj hx
    subst this
    exact ⟨n', by simp, hpar⟩
  · exact ⟨x, by simp [hb, hx], rfl⟩

theorem keepsParents_alloc (h : Heap) (n : SftpFileNode) : KeepsParents h (h.alloc n).2 :=
  fun b x hx => ⟨x, Heap.node_append_left h _ b x hx, rfl⟩

theorem rootInv_keeps (h h2 : Heap) (r : Option Addr) (hr : RootInv h r)
    (hk : KeepsParents h h2) : RootInv h2 r := by
  intro R hR
  obtain ⟨rn, hrn, hp⟩ := hr R hR
  obtain ⟨x2, hx2, hp2⟩ := hk R rn hrn
  exact ⟨x2, hx2, hp2.trans hp⟩

theorem heapInv_delete (h : Heap) (root : Option Addr) (hinv : HeapInv h)
    (hroot : RootInv h root) : HeapInv (h.delete root) := by
  cases root with
  | none => exact hinv
  | some a =>
    intro D dn d hD hd
    have hD0 : h.node D = some dn := Heap.delete_some h (some a) D dn hD
    obtain ⟨hnd, hmem⟩ := hinv D dn d hD0 hd
    refine ⟨hnd, fun x hx => ?_⟩
    obtain ⟨xn, hxn, hxp⟩ := hmem x hx
    cases hx2 : (h.delete (some a)).node x with
    | some v =>
      have := Heap.delete_some h (some a) x v hx2
      rw [hxn] at this
      have hv : xn = v := Option.some.inj this
      subst hv
      exact ⟨xn, rfl, hxp⟩
    | none =>
      exfalso
      rcases Heap.deleteNode_freed _ h a x xn hxn hx2 with hxa | ⟨P, pn, pd, hP, hpd, hxP, hPdead⟩
      · obtain ⟨rn, hrn, hrp⟩ := hroot a rfl
        rw [← hxa, hxn] at hrn
        have : xn = rn := Option.some.inj hrn
        subst this
        rw [hrp] at hxp
        simp at hxp
      · obtain ⟨xn2, hxn2, hxp2⟩ := (hinv P pn pd hP hpd).2 x hxP
        rw [hxn] at hxn2
        have : xn = xn2 := Option.some.inj hxn2
        subst this
        rw [hxp] at hxp2
        have hPD : D = P := Option.some.inj hxp2
        subst hPD
        have : (h.delete (some a)).node D = none := hPdead
        rw [hD] at this
        simp at this

theorem insertChild_inv (fold : Char → Char) (h h2 : Heap) (dir new : Addr) (nn : SftpFileNode)
    (hinv : HeapInv h) (hnew : h.node new = some nn) (hpar : nn.parent = some dir)
    (hins : insertChild fold h dir new = .ok h2) : HeapInv h2 ∧ KeepsParents h h2 := by
  cases hdn : h.node dir with
  | none => simp [insertChild, hdn] at hins
  | some dn =>
    cases hd : dn.asDir with
    | none => simp [insertChild, hdn, hd] at hins
    | some d =>
      obtain ⟨hnd, hmem⟩ := hinv dir dn d hdn hd
      obtain ⟨h', l, hins', hdir', hother, _, hl, hperm, hsame⟩ :=
        insertChild_total fold h dir new dn nn d hdn hd
          (fun c hc => by obtain ⟨xn, hxn, _⟩ := hmem c hc; simp [hxn]) hnew
      rw [hins] at hins'
      have he : h2 = h' := Except.ok.inj hins'
      subst he
      have hk : KeepsParents h h2 := by
        intro b x hx
        by_cases hb : b = dir
        · subst hb
          rw [hdn] at hx
          have : dn = x := Option.some.inj hx
          subst this
          exact ⟨_, hdir', rfl⟩
        · exact ⟨x, by rw [hother b hb]; exact hx, rfl⟩
      refine ⟨?_, hk⟩
      intro D dnD dD hD hdD
      by_cases hDd : D = dir
      · subst hDd
        rw [hdir'] at hD
        have hdD' : dD.children = l := by
          have := Option.some.inj hD
          subst this
          simp only [Option.some.injEq] at hdD
          rw [← hdD]
        rw [hdD']
        constructor
        · by_cases hc : new ∈ d.children
          · rw [hsame hc]
            exact hnd
          · rw [(hperm hc).nodup_iff]
            exact List.nodup_cons.mpr ⟨hc, hnd⟩
        · intro x hx
          rcases (hl x).mp hx with rfl | hxold
          · obtain ⟨x2, hx2, hp2⟩ := hk x nn hnew
            exact ⟨x2, hx2, hp2.trans hpar⟩
          · obtain ⟨xn, hxn, hxp⟩ := hmem x hxold
            obtain ⟨x2, hx2, hp2⟩ := hk x xn hxn
            exact ⟨x2, hx2, hp2.trans hxp⟩
      · rw [hother D hDd] at hD
        obtain ⟨hndD, hmemD⟩ := hinv D dnD dD hD hdD
        refine ⟨hndD, fun x hx => ?_⟩
        obtain ⟨xn, hxn, hxp⟩ := hmemD x hx
        obtain ⟨x2, hx2, hp2⟩ := hk x xn hxn
        exact ⟨x2, hx2, hp2.trans hxp⟩

theorem insertEntries_inv (fold : Char → Char) (parentNode : Option Addr) :
    ∀ (entries : List SftpFileInfo) (h h2 : Heap), HeapInv h →
      insertEntries fold parentNode h entries = .ok h2 → HeapInv h2 ∧ KeepsParents h h2
  | [], h, h2, hinv, hins => by
    simp only [insertEntries, Except.ok.injEq] at hins
    rw [← hins]
    exact ⟨hinv, keepsParents_refl h⟩
  | fi :: rest, h, h2, hinv, hins => by
    unfold insertEntries at hins
    cases hpn : parentNode with
    | none => simp [hpn] at hins
    | some p =>
      simp only [hpn] at hins
      cases hnode : h.node p with
      | none => simp [hnode] at hins
      | some pn =>
        simp only [hnode] at hins
        cases hic : insertChild fold (h.alloc (newChildNode p pn.path fi)).2 p h.length with
        | error e => simp [hic] at hins
        | ok h1 =>
          simp only [hic] at hins
          have hinv0 : HeapInv (h.alloc (newChildNode p pn.path fi)).2 :=
            heapInv_alloc h _ hinv (fun d hd => by
              unfold newChildNode at hd
              simp only at hd
              split at hd
              · simp only [Option.some.injEq] at hd
                rw [← hd]
              · simp at hd)
          obtain ⟨hinv1, hk1⟩ := insertChild_inv fold _ h1 p h.length
            (newChildNode p pn.path fi) hinv0 (Heap.node_alloc h _) rfl hic
          rw [← hpn] at hins
          obtain ⟨hinv2, hk2⟩ := insertEntries_inv fold parentNode rest h1 h2 hinv1 hins
          exact ⟨hinv2, keepsParents_trans _ _ _
            (keepsParents_trans _ _ _ (keepsParents_alloc h _) hk1) hk2⟩

/-- A write that changes only the listing state of a directory node keeps the
tree well formed. -/
theorem treeInv_write_lsState (h : Heap) (r : Option Addr) (a : Addr) (n : SftpFileNode)
    (d : SftpDirNode) (st : LsState) (hinv : HeapInv h) (hroot : RootInv h r)
    (ha : h.node a = some n) (hd : n.asDir = some d) :
    HeapInv (h.write a { n with asDir := some { d with lsState := st } }) ∧
    RootInv (h.write a { n with asDir := some { d with lsState := st } }) r := by
  constructor
  · refine heapInv_write h a n _ hinv ha rfl ?_
    intro d' hd'
    simp only [Option.some.injEq] at hd'
    rw [← hd']
    exact hinv a n d ha hd
  · exact rootInv_keeps h _ r hroot (keepsParents_write h a n _ ha rfl)

/-- A write that empties the child list of a directory node keeps the tree well
formed. -/
theorem treeInv_write_clear (h : Heap) (r : Option Addr) (a : Addr) (n : SftpFileNode)
    (st : LsState) (hinv : HeapInv h) (hroot : RootInv h r) (ha : h.node a = some n) :
    HeapInv (h.write a { n with asDir := some { lsState := st, children := [] } }) ∧
    RootInv (h.write a { n with asDir := some { lsState := st, children := [] } }) r := by
  constructor
  · refine heapInv_write h a n _ hinv ha rfl ?_
    intro d' hd'
    simp only [Option.some.injEq] at hd'
    rw [← hd']
    exact ⟨List.nodup_nil, fun x hx => by simp at hx⟩
  · exact rootInv_keeps h _ r hroot (keepsParents_write h a n _ ha rfl)

theorem treeInv_setSshConnection (s s1 : SftpFileSystemModel) (connected : Bool)
    (hp : TreeInv s) (h : setSshConnection s connected = .ok s1) : TreeInv s1 := by
  unfold QSsh.setSshConnection handleSshConnectionEstablished at h
  split at h
  · simp only [Except.ok.injEq] at h
    rw [← h]
    exact hp
  · split at h
    · simp only [if_true, Except.ok.injEq] at h
      rw [← h]
      exact hp
    · simp only [Except.ok.injEq] at h
      rw [← h]
      exact hp

theorem treeInv_connectionEstablished (s s1 : SftpFileSystemModel)
    (hp : TreeInv s) (h : handleSshConnectionEstablished s = .ok s1) : TreeInv s1 := by
  unfold handleSshConnectionEstablished at h
  split at h
  · simp only [Except.ok.injEq] at h
    rw [← h]
    exact hp
  · simp at h

theorem treeInv_statRootDirectory (s s1 : SftpFileSystemModel) (job : SftpJobId)
    (hp : TreeInv s) (h : statRootDirectory s job = .ok s1) : TreeInv s1 := by
  unfold QSsh.statRootDirectory at h
  split at h
  · simp only [Except.ok.injEq] at h
    rw [← h]
    exact hp
  · simp at h

theorem treeInv_setRootDirectory (s s1 : SftpFileSystemModel) (path : String)
    (job : SftpJobId) (hp : TreeInv s) (h : setRootDirectory s path job = .ok s1) :
    TreeInv s1 := by
  unfold QSsh.setRootDirectory at h
  refine treeInv_statRootDirectory _ s1 job ?_ h
  exact ⟨heapInv_delete s.heap s.rootNode hp.1 hp.2, fun R hR => by simp at hR⟩

theorem treeInv_rowCount (s s1 : SftpFileSystemModel) (parent : QModelIndex)
    (job : SftpJobId) (n : Int) (hp : TreeInv s)
    (h : rowCount s parent job = .ok (n, s1)) : TreeInv s1 := by
  unfold QSsh.rowCount at h
  split at h
  · simp only [Except.ok.injEq, Prod.mk.injEq] at h
    rw [← h.2]
    exact hp
  · split at h
    · simp only [Except.ok.injEq, Prod.mk.injEq] at h
      rw [← h.2]
      exact hp
    · split at h
      · simp only [Except.ok.injEq, Prod.mk.injEq] at h
        rw [← h.2]
        exact hp
      · split at h
        · simp only [Except.ok.injEq, Prod.mk.injEq] at h
          rw [← h.2]
          exact hp
        · split at h
          · simp at h
          · split at h
            · simp only [Except.ok.injEq, Prod.mk.injEq] at h
              rw [← h.2]
              exact hp
            · split at h
              · simp only [Except.ok.injEq, Prod.mk.injEq] at h
                rw [← h.2]
                exact hp
              · split at h
                · simp only [Except.ok.injEq, Prod.mk.injEq] at h
                  rw [← h.2]
                  refine treeInv_write_lsState s.heap s.rootNode _ _ _ _ hp.1 hp.2 ?ha ?hd
                  case ha => assumption
                  case hd => assumption
                · simp at h

theorem treeInv_update (s s1 : SftpFileSystemModel) (index : QModelIndex)
    (job : SftpJobId) (hp : TreeInv s) (h : update s index job = .ok s1) : TreeInv s1 := by
  unfold QSsh.update at h
  split at h
  · simp at h
  · simp at h
  · split at h
    · simp at h
    · split at h
      · simp at h
      · split at h
        · simp only [Except.ok.injEq] at h
          rw [← h]
          refine treeInv_write_clear s.heap s.rootNode _ _ _ hp.1 hp.2 ?ha
          case ha => assumption
        · simp at h

theorem treeInv_handleFileInfo (fold : Char → Char) (s s1 : SftpFileSystemModel)
    (jobId : SftpJobId) (fileInfoList : List SftpFileInfo) (hp : TreeInv s)
    (h : handleFileInfo fold s jobId fileInfoList = .ok s1) : TreeInv s1 := by
  unfold QSsh.handleFileInfo at h
  split at h
  · split at h
    · simp at h
    · simp only [Except.ok.injEq] at h
      rw [← h]
      refine ⟨heapInv_alloc s.heap _ hp.1 (fun d hd => ?_), fun R hR => ?_⟩
      · simp only [Option.some.injEq] at hd
        rw [← hd]
      · simp only [Option.some.injEq] at hR
        rw [← hR]
        exact ⟨_, Heap.node_alloc s.heap _, rfl⟩
  · split at h
    · simp only [Except.ok.injEq] at h
      rw [← h]
      exact hp
    · split at h
      · simp at h
      · simp only [Except.ok.injEq] at h
        rw [← h]
        rename_i h2 hins
        obtain ⟨hinv2, hk⟩ := insertEntries_inv fold _ _ s.heap h2 hp.1 hins
        exact ⟨hinv2, rootInv_keeps s.heap h2 s.rootNode hp.2 hk⟩

theorem treeInv_handleSftpJobFinished (s s1 : SftpFileSystemModel) (jobId : SftpJobId)
    (errorMessage : String) (hp : TreeInv s)
    (h : handleSftpJobFinished s jobId errorMessage = .ok s1) : TreeInv s1 := by
  unfold QSsh.handleSftpJobFinished at h
  split at h
  · simp only [Except.ok.injEq] at h
    rw [← h]
    exact hp
  · split at h
    · split at h
      · simp at h
      · split at h
        · simp at h
        · simp only [Except.ok.injEq] at h
          rw [← h]
          refine treeInv_write_lsState s.heap s.rootNode _ _ _ _ hp.1 hp.2 ?ha ?hd
          case ha => assumption
          case hd => assumption
    · split at h
      · simp only [Except.ok.injEq] at h
        rw [← h]
        exact hp
      · simp only [Except.ok.injEq] at h
        rw [← h]
        exact hp

/-- Every reachable state has a well-formed tree. -/
theorem reachable_treeInv (fold : Char → Char) (s : SftpFileSystemModel)
    (hr : Reachable fold s) : TreeInv s := by
  induction hr with
  | init =>
    refine ⟨fun D dn d hD _ => ?_, fun R hR => ?_⟩
    · simp [SftpFileSystemModel.init, Heap.node] at hD
    · simp [SftpFileSystemModel.init] at hR
  | setSshConnection s s1 connected _ h ih => exact treeInv_setSshConnection s s1 connected ih h
  | connectionEstablished s s1 _ h ih => exact treeInv_connectionEstablished s s1 ih h
  | channelInitialized s s1 job _ h ih => exact treeInv_statRootDirectory s s1 job ih h
  | setRootDirectory s s1 path job _ h ih => exact treeInv_setRootDirectory s s1 path job ih h
  | rowCount s s1 parent job n _ h ih => exact treeInv_rowCount s s1 parent job n ih h
  | update s s1 index job _ h ih => exact treeInv_update s s1 index job ih h
  | handleFileInfo s s1 jobId fileInfoList _ h ih =>
    exact treeInv_handleFileInfo fold s s1 jobId fileInfoList ih h
  | handleSftpJobFinished s s1 jobId errorMessage _ h ih =>
    exact treeInv_handleSftpJobFinished s s1 jobId errorMessage ih h

/-! ## The scenario states are reached by running the model -/

theorem scenarioConnected_eq :
    setSshConnection SftpFileSystemModel.init true = .ok scenarioConnected := rfl

theorem scenarioListing_eq :
    (do
      let s1 ← setRootDirectory scenarioConnected "/home" 1
      let s2 ← handleFileInfo asciiFold s1 1
        [{ name := "home", type := SftpFileType.FileTypeDirectory, size := 0 }]
      let s3 ← handleSftpJobFinished s2 1 ""
      rowCount s3 rootIndex 2) = Except.ok (0, scenarioListing) := rfl

theorem scenarioMerged_eq :
    handleFileInfo asciiFold scenarioListing 2 homeListing = .ok scenarioMerged := rfl

theorem scenarioListed_eq :
    handleSftpJobFinished scenarioMerged 2 "" = .ok scenarioListed := rfl

theorem scenarioNested_eq :
    (do
      let r ← rowCount scenarioListed dirAIndex 3
      let s2 ← handleFileInfo asciiFold r.2 3
        [{ name := "x", type := SftpFileType.FileTypeRegular, size := 1 }]
      handleSftpJobFinished s2 3 "") = Except.ok scenarioNested := rfl

theorem scenarioRefreshed_eq :
    update scenarioMerged rootIndex 3 = .ok scenarioRefreshed := rfl

theorem scenarioRefreshedFinished_eq :
    handleSftpJobFinished scenarioRefreshed 2 "" = .ok scenarioRefreshedFinished := rfl

theorem scenarioStatPending_eq :
    (do
      let s1 ← setRootDirectory scenarioConnected "/home" 1
      let s2 ← handleFileInfo asciiFold s1 1 [homeStat]
      let r ← rowCount s2 rootIndex 2
      handleFileInfo asciiFold r.2 2 homeListing) = Except.ok scenarioStatPending := rfl

theorem reachable_scenarioListing : Reachable asciiFold scenarioListing := by
  have h0 : Reachable asciiFold scenarioConnected :=
    Reachable.setSshConnection _ _ true Reachable.init scenarioConnected_eq
  have h1 := Reachable.setRootDirectory _ _ "/home" 1 h0 rfl
  have h2 := Reachable.handleFileInfo _ _ 1
    [{ name := "home", type := SftpFileType.FileTypeDirectory, size := 0 }] h1 rfl
  have h3 := Reachable.handleSftpJobFinished _ _ 1 "" h2 rfl
  exact Reachable.rowCount _ scenarioListing rootIndex 2 0 h3 rfl

theorem reachable_scenarioMerged : Reachable asciiFold scenarioMerged :=
  Reachable.handleFileInfo _ _ 2 homeListing reachable_scenarioListing scenarioMerged_eq

theorem reachable_scenarioListed : Reachable asciiFold scenarioListed :=
  Reachable.handleSftpJobFinished _ _ 2 "" reachable_scenarioMerged scenarioListed_eq

theorem reachable_scenarioNested : Reachable asciiFold scenarioNested := by
  have h1 := Reachable.rowCount _ _ dirAIndex 3 0 reachable_scenarioListed rfl
  have h2 := Reachable.handleFileInfo _ _ 3
    [{ name := "x", type := SftpFileType.FileTypeRegular, size := 1 }] h1 rfl
  exact Reachable.handleSftpJobFinished _ scenarioNested 3 "" h2 rfl

theorem reachable_scenarioRefreshed : Reachable asciiFold scenarioRefreshed :=
  Reachable.update _ _ rootIndex 3 reachable_scenarioMerged scenarioRefreshed_eq

theorem reachable_scenarioRefreshedFinished : Reachable asciiFold scenarioRefreshedFinished :=
  Reachable.handleSftpJobFinished _ _ 2 "" reachable_scenarioRefreshed
    scenarioRefreshedFinished_eq

/-! ## C1: `insertChild` keeps the child list sorted -/

/-- C1. `SftpDirNode::insertChild` keeps a child list sorted ascending by
case-insensitive name: inserting any live node into a directory whose children
are sorted leaves them sorted; hence inserting the nodes of a fixed entry set one
by one into an empty child list, in any permutation of the insertion order, ends
with a sorted child list that holds exactly those nodes. -/
theorem insertChild_preserves_sorted (fold : Char → Char) (h : Heap) (dir : Addr) :
    (ChildrenSorted fold h dir → ∀ newFileNode, (h.node newFileNode).isSome = true →
      ∃ h', insertChild fold h dir newFileNode = .ok h' ∧ ChildrenSorted fold h' dir) ∧
    (childrenOf h dir = some [] → ∀ entries order : List Addr, order.Perm entries →
      (∀ a ∈ entries, (h.node a).isSome = true) →
      ∃ h' cs, insertAll fold dir h order = .ok h' ∧ ChildrenSorted fold h' dir ∧
        childrenOf h' dir = some cs ∧ ∀ a, a ∈ cs ↔ a ∈ entries) := by
  constructor
  · intro hs new hnew
    obtain ⟨h', hins, hs', _⟩ := insertChild_sorted_step fold h dir new hs hnew
    exact ⟨h', hins, hs'⟩
  · intro hempty entries order hperm hlive
    have hs : ChildrenSorted fold h dir :=
      ⟨[], [], hempty, rfl, List.Pairwise.nil⟩
    obtain ⟨h', hall, hs', hmem⟩ := insertAll_sorted fold dir order h hs
      (fun a ha => hlive a (hperm.subset ha))
    obtain ⟨cs, hcs, hm⟩ := hmem [] hempty
    refine ⟨h', cs, hall, hs', hcs, fun a => ?_⟩
    rw [hm a, hperm.mem_iff]
    simp

/-- Witness of `insertChild_preserves_sorted`: the file `x` (address 4) inserted
into the sorted children `A`, `a.txt`, `b.txt` of `/home`; and the three nodes
`b.txt`, `A`, `a.txt` (addresses 1, 2, 3) inserted into the empty child list of
`/home` in the order 3, 1, 2. -/
theorem insertChild_preserves_sorted_witness :
    (∃ h', insertChild asciiFold scenarioNested.heap 0 4 = .ok h' ∧
      ChildrenSorted asciiFold h' 0) ∧
    (∃ h' cs, insertAll asciiFold 0 scenarioRefreshed.heap [3, 1, 2] = .ok h' ∧
      ChildrenSorted asciiFold h' 0 ∧ childrenOf h' 0 = some cs ∧
      ∀ a, a ∈ cs ↔ a ∈ [1, 2, 3]) :=
  ⟨(insertChild_preserves_sorted asciiFold scenarioNested.heap 0).1
      ⟨[2, 3, 1], ["A", "a.txt", "b.txt"], rfl, rfl, by unfold SortedCI; decide⟩ 4 rfl,
   (insertChild_preserves_sorted asciiFold scenarioRefreshed.heap 0).2 rfl [1, 2, 3] [3, 1, 2]
      (by decide) (by decide)⟩

/-! ## C2: a repeated name -/

/-- C2 (the code departs from the claim).  The root `/home` has the children
`A`, `a.txt`, `b.txt` and its listing job 2 still registered.  A further listing
answer for job 2 that names `a.txt` again, or `A.TXT`, makes `handleFileInfo`
build a new node and `insertChild` insert it: the pointer test
`children.contains` never finds a node that was just built, so the child list
grows to four entries with two of the same name. -/
theorem handleFileInfo_duplicate_name_grows :
    (childrenOf scenarioMerged.heap 0).bind (childNames scenarioMerged.heap) =
      some ["A", "a.txt", "b.txt"] ∧
    (handleFileInfo asciiFold scenarioMerged 2
        [{ name := "a.txt", type := SftpFileType.FileTypeRegular, size := 5 }]).map
      (fun s1 => (childrenOf s1.heap 0).bind (childNames s1.heap)) =
      .ok (some ["A", "a.txt", "a.txt", "b.txt"]) ∧
    (handleFileInfo asciiFold scenarioMerged 2
        [{ name := "A.TXT", type := SftpFileType.FileTypeRegular, size := 5 }]).map
      (fun s1 => (childrenOf s1.heap 0).bind (childNames s1.heap)) =
      .ok (some ["A", "A.TXT", "a.txt", "b.txt"]) :=
  ⟨rfl, rfl, rfl⟩

/-! ## C3: lazy listing through `rowCount` -/

/-- C3. The first `rowCount` on the column-0 index of a directory node in state
`LsNotYetCalled` (a root existing and the channel attached) returns 0, forwards
exactly one `listDirectory` request, for the path of that directory, registers
the returned job id against it (leaving every other key of the registry as it
was) and moves it to `LsRunning`, keeping its children.  In every state in which
the directory is `LsRunning`, so in particular between that call and the
completion of the job, `rowCount` returns the current number of children and
changes nothing: no request, no registration.  Directly after the first call
that number is the number of children the directory had, 0 for a directory
without children. -/
theorem rowCount_lazy_listing (s : SftpFileSystemModel) (parent : QModelIndex) (D : Addr)
    (n : SftpFileNode) (d : SftpDirNode) (job : SftpJobId)
    (hroot : s.rootNode.isSome = true) (hchannel : s.sftpChannel = true)
    (hvalid : parent.isValid = true) (hcol : parent.column = 0)
    (hptr : parent.internalPointer = some D)
    (hD : s.heap.node D = some n) (hd : n.asDir = some d)
    (hstate : d.lsState = LsState.LsNotYetCalled) :
    ∃ s1, rowCount s parent job = .ok (0, s1) ∧
      s1.channelCalls = s.channelCalls ++ [ChannelCall.listDirectory n.path job] ∧
      s1.lsOps.value job = some D ∧
      (∀ k, k ≠ job → s1.lsOps.value k = s.lsOps.value k) ∧
      lsStateOf s1.heap D = some LsState.LsRunning ∧
      childrenOf s1.heap D = some d.children ∧
      (∀ b, b ≠ D → s1.heap.node b = s.heap.node b) ∧
      s1.rootNode = s.rootNode ∧ s1.emitted = s.emitted ∧
      (∀ (s2 : SftpFileSystemModel) (n2 : SftpFileNode) (d2 : SftpDirNode) (job2 : SftpJobId),
        s2.rootNode.isSome = true → s2.heap.node D = some n2 → n2.asDir = some d2 →
        d2.lsState = LsState.LsRunning →
        rowCount s2 parent job2 = .ok ((d2.children.length : Int), s2)) ∧
      (∀ job2, rowCount s1 parent job2 = .ok ((d.children.length : Int), s1)) ∧
      (d.children = [] → ∀ job2, rowCount s1 parent job2 = .ok (0, s1)) := by
  have hrn : s.rootNode.isNone = false := by
    cases hr : s.rootNode with
    | none => simp [hr] at hroot
    | some _ => rfl
  have hlater : ∀ (s2 : SftpFileSystemModel) (n2 : SftpFileNode) (d2 : SftpDirNode)
      (job2 : SftpJobId), s2.rootNode.isSome = true → s2.heap.node D = some n2 →
      n2.asDir = some d2 → d2.lsState = LsState.LsRunning →
      rowCount s2 parent job2 = .ok ((d2.children.length : Int), s2) := by
    intro s2 n2 d2 job2 hroot2 hD2 hd2 hst2
    have hrn2 : s2.rootNode.isNone = false := by
      cases hr : s2.rootNode with
      | none => simp [hr] at hroot2
      | some _ => rfl
    simp [rowCount, hrn2, hvalid, hcol, hptr, hD2, hd2, hst2]
  have hnode1 : (s.heap.write D { n with asDir := some { d with lsState := LsState.LsRunning } }).node D
      = some { n with asDir := some { d with lsState := LsState.LsRunning } } := by
    rw [Heap.node_write s.heap D D _ n hD]
    simp
  have hnext : ∀ job2, rowCount
      { s with
        lsOps := s.lsOps.insert job D,
        channelCalls := s.channelCalls ++ [ChannelCall.listDirectory n.path job],
        heap := s.heap.write D { n with asDir := some { d with lsState := LsState.LsRunning } } }
      parent job2 = .ok ((d.children.length : Int),
      { s with
        lsOps := s.lsOps.insert job D,
        channelCalls := s.channelCalls ++ [ChannelCall.listDirectory n.path job],
        heap := s.heap.write D { n with asDir := some { d with lsState := LsState.LsRunning } } }) :=
    fun job2 => hlater _ _ { d with lsState := LsState.LsRunning } job2 hroot hnode1 rfl rfl
  refine ⟨{ s with
        lsOps := s.lsOps.insert job D,
        channelCalls := s.channelCalls ++ [ChannelCall.listDirectory n.path job],
        heap := s.heap.write D { n with asDir := some { d with lsState := LsState.LsRunning } } },
    ?_, rfl, DirNodeHash.value_insert_self _ _ _,
    fun k hk => DirNodeHash.value_insert_other _ _ _ _ hk, ?_, ?_, ?_, rfl, rfl, hlater, hnext, ?_⟩
  · simp [rowCount, hrn, hvalid, hcol, hptr, hD, hd, hstate, hchannel]
  · simp [lsStateOf, hnode1]
  · simp [childrenOf, hnode1]
  · intro b hb
    show (s.heap.write D _).node b = _
    rw [Heap.node_write s.heap D b _ n hD]
    simp [hb]
  · intro hnil job2
    have := hnext job2
    simp only [hnil, List.length_nil, Nat.cast_zero] at this
    simp only [hnil]
    exact this

/-- Witness of `rowCount_lazy_listing`: the first `rowCount` on the directory
`/home/A` of the listed scenario, answered with job 3. -/
theorem rowCount_lazy_listing_witness :
    ∃ s1, rowCount scenarioListed dirAIndex 3 = .ok (0, s1) ∧
      s1.channelCalls = scenarioListed.channelCalls ++ [ChannelCall.listDirectory "/home/A" 3] ∧
      s1.lsOps.value 3 = some 2 ∧
      lsStateOf s1.heap 2 = some LsState.LsRunning ∧
      (∀ job2, rowCount s1 dirAIndex job2 = .ok (0, s1)) := by
  obtain ⟨s1, h1, h2, h3, _, h5, _, _, _, _, _, _, h12⟩ :=
    rowCount_lazy_listing scenarioListed dirAIndex 2
      { path := "/home/A",
        fileInfo := { name := "A", type := SftpFileType.FileTypeDirectory, size := 0 },
        parent := some 0,
        asDir := some { lsState := LsState.LsNotYetCalled, children := [] } }
      { lsState := LsState.LsNotYetCalled, children := [] } 3 rfl rfl rfl rfl rfl rfl rfl rfl
  exact ⟨s1, h1, h2, h3, h5, h12 rfl⟩

/-! ## C4: merging a listing -/

/-- C4. A listing delivered for a job registered against a directory without
children (the job not being the pending root-stat job), whose entries other than
`.` and `..` have names pairwise distinct ignoring case: `handleFileInfo`
succeeds, afterwards the children of the directory carry exactly those entries,
in strictly ascending case-insensitive name order, and, the directory being past
`LsNotYetCalled`, `rowCount` on its column-0 index returns their number and
changes nothing. -/
theorem handleFileInfo_listing_sorted (fold : Char → Char) (s : SftpFileSystemModel)
    (jobId : SftpJobId) (fileInfoList : List SftpFileInfo) (D : Addr) (dn : SftpFileNode)
    (d : SftpDirNode)
    (hjob : s.lsOps.value jobId = some D) (hstat : jobId ≠ s.statJobId)
    (hD : s.heap.node D = some dn) (hd : dn.asDir = some d) (hempty : d.children = [])
    (hdistinct : (filteredList fileInfoList).Pairwise
      (fun a b => qCompare fold a.name b.name ≠ 0)) :
    ∃ (s1 : SftpFileSystemModel) (cs : List Addr) (infos : List SftpFileInfo),
      handleFileInfo fold s jobId fileInfoList = .ok s1 ∧
      childrenOf s1.heap D = some cs ∧
      cs.map (infoAt s1.heap) = infos.map some ∧
      infos.Perm (filteredList fileInfoList) ∧
      infos.Pairwise (fun a b => qCompare fold a.name b.name < 0) ∧
      (∀ (parent : QModelIndex) (job : SftpJobId), s.rootNode.isSome = true →
        parent.isValid = true → parent.column = 0 → parent.internalPointer = some D →
        d.lsState ≠ LsState.LsNotYetCalled →
        rowCount s1 parent job = .ok (((filteredList fileInfoList).length : Int), s1)) := by
  obtain ⟨h', l, names', hins, hD', hnames', hs', hperm', _, _⟩ :=
    insertEntries_ok fold D (filteredList fileInfoList) s.heap dn d [] hD hd
      (by rw [hempty]; rfl) List.Pairwise.nil
  rw [hempty] at hperm'
  simp only [List.map_nil, List.append_nil] at hperm'
  obtain ⟨infos, hmap, hinfos⟩ := perm_map_some _ _ hperm'
  have hlen : l.length = (filteredList fileInfoList).length := by
    rw [← hinfos.length_eq]
    simpa using congrArg List.length hmap
  have hnamesEq : names' = infos.map (fun fi => fi.name) := by
    have h1 := childNames_eq_map h' l names' hnames'
    have h2 : l.map (nameAt h') = (infos.map (fun fi => fi.name)).map some := by
      have : l.map (nameAt h') = (l.map (infoAt h')).map (Option.map (fun fi => fi.name)) := by
        rw [List.map_map]
        exact List.map_congr_left (fun a _ => nameAt_eq_infoAt h' a)
      rw [this, hmap]
      simp [List.map_map]
    rw [h1] at h2
    exact List.map_injective_iff.mpr (Option.some_injective _) h2
  have hle : infos.Pairwise (fun a b => qCompare fold a.name b.name ≤ 0) := by
    have := hs'
    rw [hnamesEq] at this
    exact List.pairwise_map.mp this
  have hne : infos.Pairwise (fun a b => qCompare fold a.name b.name ≠ 0) := by
    refine (hinfos.pairwise_iff ?_).mpr hdistinct
    intro a b hab hba
    exact hab (ucstricmp_eq_zero_symm fold _ _ hba)
  have hlt : infos.Pairwise (fun a b => qCompare fold a.name b.name < 0) :=
    (hle.and hne).imp (fun hx => lt_of_le_of_ne hx.1 hx.2)
  by_cases hnil : (filteredList fileInfoList).isEmpty = true
  · have hfl : filteredList fileInfoList = [] := by simpa using hnil
    rw [hfl] at hins hlen
    simp only [insertEntries, Except.ok.injEq] at hins
    subst hins
    have hl : l = [] := List.length_eq_zero.mp hlen
    subst hl
    refine ⟨s, [], infos, by simp [handleFileInfo, hstat, hfl], ?_, hmap, hinfos, hlt, ?_⟩
    · simp [childrenOf, hD, hd, hempty]
    · intro parent job hroot hvalid hcol hptr hstate
      have hrn : s.rootNode.isNone = false := by
        cases hr : s.rootNode with
        | none => simp [hr] at hroot
        | some _ => rfl
      simp [rowCount, hrn, hvalid, hcol, hptr, hD, hd, hstate, hempty, hfl]
  · refine ⟨{ s with heap := h',
                     emitted := s.emitted ++ [Signal.layoutAboutToBeChanged, Signal.layoutChanged] },
      l, infos, ?_, ?_, hmap, hinfos, hlt, ?_⟩
    · simp [handleFileInfo, hstat, hnil, hjob, hins]
    · simp [childrenOf, hD']
    · intro parent job hroot hvalid hcol hptr hstate
      have hrn : s.rootNode.isNone = false := by
        cases hr : s.rootNode with
        | none => simp [hr] at hroot
        | some _ => rfl
      simp [rowCount, hrn, hvalid, hcol, hptr, hD', hstate, hlen]

/-- Witness of `handleFileInfo_listing_sorted`, the scenario of the
specification: root `/home`, listing `b.txt`, `A`, `a.txt` delivered for job 2
gives the children `A`, `a.txt`, `b.txt`, and `rowCount` on the root returns 3. -/
theorem handleFileInfo_listing_sorted_witness :
    (∃ (s1 : SftpFileSystemModel) (cs : List Addr) (infos : List SftpFileInfo),
      handleFileInfo asciiFold scenarioListing 2 homeListing = .ok s1 ∧
      childrenOf s1.heap 0 = some cs ∧
      cs.map (infoAt s1.heap) = infos.map some ∧
      infos.Perm (filteredList homeListing) ∧
      infos.Pairwise (fun a b => qCompare asciiFold a.name b.name < 0) ∧
      (∀ (parent : QModelIndex) (job : SftpJobId), scenarioListing.rootNode.isSome = true →
        parent.isValid = true → parent.column = 0 → parent.internalPointer = some 0 →
        LsState.LsRunning ≠ LsState.LsNotYetCalled →
        rowCount s1 parent job = .ok (((filteredList homeListing).length : Int), s1))) ∧
    (handleFileInfo asciiFold scenarioListing 2 homeListing).map
      (fun s1 => (childrenOf s1.heap 0).bind (childNames s1.heap)) =
      .ok (some ["A", "a.txt", "b.txt"]) ∧
    rowCount scenarioMerged rootIndex 3 = .ok (3, scenarioMerged) :=
  ⟨handleFileInfo_listing_sorted asciiFold scenarioListing 2 homeListing 0
      (homeNode LsState.LsRunning []) { lsState := LsState.LsRunning, children := [] }
      rfl (by decide) rfl rfl rfl (by decide),
   rfl, rfl⟩

/-! ## C5: `update` re-lists at once -/

/-- C5, as the code has it.  `update` on an index whose directory (the one
`update` works on) is the directory node `T`, in whatever listing state and with
however many children, in particular listed with N children: the call succeeds,
`T` is left in state `LsRunning` (not `LsNotYetCalled`) with an empty child list,
the call itself forwards exactly one `listDirectory` request for the path of `T`
and registers the returned job id against `T`; a following `rowCount` on the
column-0 index of `T` returns 0, forwards no request and changes nothing. -/
theorem update_relists_at_once (s : SftpFileSystemModel) (index : QModelIndex)
    (job : SftpJobId) (T : Addr) (tn : SftpFileNode) (td : SftpDirNode)
    (hchannel : s.sftpChannel = true)
    (htarget : updateTarget s index = .ok (some T)) (hT : s.heap.node T = some tn)
    (hd : tn.asDir = some td) :
    ∃ s1, update s index job = .ok s1 ∧
      lsStateOf s1.heap T = some LsState.LsRunning ∧
      childrenOf s1.heap T = some [] ∧
      s1.channelCalls = s.channelCalls ++ [ChannelCall.listDirectory tn.path job] ∧
      s1.lsOps.value job = some T ∧
      (∀ (parent : QModelIndex) (job2 : SftpJobId), s.rootNode.isSome = true →
        parent.isValid = true → parent.column = 0 → parent.internalPointer = some T →
        rowCount s1 parent job2 = .ok (0, s1)) := by
  have hnode : (s.heap.write T
      { tn with asDir := some { lsState := LsState.LsRunning, children := [] } }).node T =
      some { tn with asDir := some { lsState := LsState.LsRunning, children := [] } } := by
    rw [Heap.node_write s.heap T T _ tn hT]
    simp
  refine ⟨_, update_ok s index job T tn td hchannel htarget hT hd, ?_, ?_, rfl,
    DirNodeHash.value_insert_self _ _ _, ?_⟩
  · simp [lsStateOf, hnode]
  · simp [childrenOf, hnode]
  · intro parent job2 hroot hvalid hcol hptr
    exact rowCount_read_only _ parent T _ { lsState := LsState.LsRunning, children := [] } job2
      hroot hvalid hcol hptr hnode rfl (by decide)

/-- Witness of `update_relists_at_once`: the listed root `/home` with its three
children, refreshed through the root index with job 3. -/
theorem update_relists_at_once_witness :
    ∃ s1, update scenarioListed rootIndex 3 = .ok s1 ∧
      lsStateOf s1.heap 0 = some LsState.LsRunning ∧
      childrenOf s1.heap 0 = some [] ∧
      s1.channelCalls = scenarioListed.channelCalls ++ [ChannelCall.listDirectory "/home" 3] ∧
      s1.lsOps.value 3 = some 0 ∧
      (∀ (parent : QModelIndex) (job2 : SftpJobId), scenarioListed.rootNode.isSome = true →
        parent.isValid = true → parent.column = 0 → parent.internalPointer = some 0 →
        rowCount s1 parent job2 = .ok (0, s1)) :=
  update_relists_at_once scenarioListed rootIndex 3 0 (homeNode LsState.LsFinished [2, 3, 1])
    { lsState := LsState.LsFinished, children := [2, 3, 1] } rfl rfl rfl rfl

/-- C5 fails as stated: the listed root `/home` (three children) is refreshed
through its own index.  Afterwards its state is `LsRunning`, not
`LsNotYetCalled`, the `listDirectory` request has already been forwarded by
`update`, and the next `rowCount` on the root forwards none. -/
theorem update_not_back_to_notListed :
    lsStateOf scenarioListed.heap 0 = some LsState.LsFinished ∧
    childrenOf scenarioListed.heap 0 = some [2, 3, 1] ∧
    ∃ s1, update scenarioListed rootIndex 3 = .ok s1 ∧
      lsStateOf s1.heap 0 ≠ some LsState.LsNotYetCalled ∧
      s1.channelCalls = scenarioListed.channelCalls ++ [ChannelCall.listDirectory "/home" 3] ∧
      ∃ s2, rowCount s1 rootIndex 4 = .ok (0, s2) ∧ s2.channelCalls = s1.channelCalls :=
  ⟨rfl, rfl, _, rfl, by decide, rfl, _, rfl, rfl⟩

/-! ## C6: `update` works on the parent of the addressed node -/

/-- C6, as the code has it.  `update` works on the parent directory of the
addressed node: `updateTarget` is that parent for a valid index whose node has a
parent, and the root for a valid index whose node has none (the root itself) and
for an invalid index.  On the directory `T` it works on, `update` succeeds,
leaves `T` in state `LsRunning` without children, forwards one `listDirectory`
request for the path of `T` and registers the returned job id against `T`; every
other node, the addressed node included when it is not `T`, is left as it was,
as are the root pointer, the pending stat job, the signals and the external
jobs. -/
theorem update_acts_on_parent (s : SftpFileSystemModel) (index : QModelIndex)
    (job : SftpJobId) (hchannel : s.sftpChannel = true) :
    (∀ (f P : Addr) (fn : SftpFileNode), index.isValid = true →
      index.internalPointer = some f → s.heap.node f = some fn → fn.parent = some P →
      updateTarget s index = .ok (some P)) ∧
    (∀ (f R : Addr) (fn rn : SftpFileNode), index.isValid = true →
      index.internalPointer = some f → s.heap.node f = some fn → fn.parent = none →
      s.rootNode = some R → s.heap.node R = some rn → rn.asDir.isSome = true →
      updateTarget s index = .ok (some R)) ∧
    (∀ (R : Addr) (rn : SftpFileNode), index.isValid = false →
      s.rootNode = some R → s.heap.node R = some rn → rn.asDir.isSome = true →
      updateTarget s index = .ok (some R)) ∧
    (∀ (T : Addr) (tn : SftpFileNode) (td : SftpDirNode),
      updateTarget s index = .ok (some T) → s.heap.node T = some tn → tn.asDir = some td →
      ∃ s1, update s index job = .ok s1 ∧
        s1.heap.node T =
          some { tn with asDir := some { lsState := LsState.LsRunning, children := [] } } ∧
        (∀ b, b ≠ T → s1.heap.node b = s.heap.node b) ∧
        s1.channelCalls = s.channelCalls ++ [ChannelCall.listDirectory tn.path job] ∧
        s1.lsOps = s.lsOps.insert job T ∧
        s1.rootNode = s.rootNode ∧ s1.statJobId = s.statJobId ∧ s1.emitted = s.emitted ∧
        s1.externalJobs = s.externalJobs) := by
  refine ⟨?_, ?_, ?_, ?_⟩
  · intro f P fn hvalid hptr hf hparent
    simp [updateTarget, hvalid, hptr, hf, hparent]
  · intro f R fn rn hvalid hptr hf hparent hroot hR hdir
    simp [updateTarget, hvalid, hptr, hf, hparent, hroot, dynamicCastDir, hR, hdir]
  · intro R rn hvalid hroot hR hdir
    simp [updateTarget, hvalid, hroot, dynamicCastDir, hR, hdir]
  · intro T tn td htarget hT hd
    refine ⟨_, update_ok s index job T tn td hchannel htarget hT hd, ?_, ?_, rfl, rfl, rfl,
      rfl, rfl, rfl⟩
    · show (s.heap.write T _).node T = _
      rw [Heap.node_write s.heap T T _ tn hT]
      simp
    · intro b hb
      show (s.heap.write T _).node b = _
      rw [Heap.node_write s.heap T b _ tn hT]
      simp [hb]

/-- Witness of `update_acts_on_parent`: in the nested scenario, `update` on the
index of the directory `/home/A` works on its parent `/home`. -/
theorem update_acts_on_parent_witness :
    updateTarget scenarioNested dirAIndex = .ok (some 0) ∧
    ∃ s1, update scenarioNested dirAIndex 4 = .ok s1 ∧
      s1.heap.node 0 = some (homeNode LsState.LsRunning []) ∧
      (∀ b, b ≠ 0 → s1.heap.node b = scenarioNested.heap.node b) ∧
      s1.channelCalls = scenarioNested.channelCalls ++ [ChannelCall.listDirectory "/home" 4] ∧
      s1.lsOps = scenarioNested.lsOps.insert 4 0 ∧
      s1.rootNode = scenarioNested.rootNode ∧ s1.statJobId = scenarioNested.statJobId ∧
      s1.emitted = scenarioNested.emitted ∧
      s1.externalJobs = scenarioNested.externalJobs :=
  ⟨(update_acts_on_parent scenarioNested dirAIndex 4 rfl).1 2 0 _ rfl rfl rfl rfl,
   (update_acts_on_parent scenarioNested dirAIndex 4 rfl).2.2.2 0
     (homeNode LsState.LsFinished [2, 3, 1])
     { lsState := LsState.LsFinished, children := [2, 3, 1] } rfl rfl rfl⟩

/-- C6 fails as stated: in the nested scenario both `/home` (children at 2, 3, 1)
and `/home/A` (address 2, one child at 4) are listed.  `update` on the index of
`/home/A` leaves `/home/A` listed with its child, clears the children of its
parent `/home` and forwards and registers the listing of `/home`, not of
`/home/A`. -/
theorem update_clears_parent_of_addressed :
    dirAIndex.isValid = true ∧ dirAIndex.internalPointer = some 2 ∧
    childrenOf scenarioNested.heap 2 = some [4] ∧
    childrenOf scenarioNested.heap 0 = some [2, 3, 1] ∧
    ∃ s1, update scenarioNested dirAIndex 4 = .ok s1 ∧
      childrenOf s1.heap 2 = some [4] ∧
      lsStateOf s1.heap 2 = some LsState.LsFinished ∧
      childrenOf s1.heap 0 = some [] ∧
      lsStateOf s1.heap 0 = some LsState.LsRunning ∧
      s1.lsOps.value 4 = some 0 ∧
      s1.channelCalls = scenarioNested.channelCalls ++ [ChannelCall.listDirectory "/home" 4] :=
  ⟨rfl, rfl, rfl, rfl, _, rfl, rfl, rfl, rfl, rfl, rfl, rfl⟩

/-! ## C7: a listing answer for an unknown job -/

/-- C7 (the code departs from the claim).  Job id 9 is neither the pending
root-stat job nor a key of the registry of the scenario state.  A listing answer
for it with a real entry is not ignored: `lsOps.value` yields a null pointer and
the loop over the entries dereferences it.  The same holds in every state for
every such job id and every list with an entry other than `.` and `..`; only a
list without such an entry is ignored. -/
theorem handleFileInfo_unknown_job_faults :
    9 ≠ scenarioListing.statJobId ∧ scenarioListing.lsOps.value 9 = none ∧
    handleFileInfo asciiFold scenarioListing 9
      [{ name := "a.txt", type := SftpFileType.FileTypeRegular, size := 5 }] =
      .error Fault.nullDeref ∧
    (∀ (fold : Char → Char) (s : SftpFileSystemModel) (jobId : SftpJobId)
      (fileInfoList : List SftpFileInfo), jobId ≠ s.statJobId → s.lsOps.value jobId = none →
      (filteredList fileInfoList ≠ [] →
        handleFileInfo fold s jobId fileInfoList = .error Fault.nullDeref) ∧
      (filteredList fileInfoList = [] → handleFileInfo fold s jobId fileInfoList = .ok s)) := by
  refine ⟨by decide, rfl, rfl, ?_⟩
  intro fold s jobId fileInfoList hstat hnone
  constructor
  · intro hne
    obtain ⟨fi, rest, hfl⟩ := List.exists_cons_of_ne_nil hne
    simp [handleFileInfo, hstat, hfl, hnone, insertEntries]
  · intro hnil
    simp [handleFileInfo, hstat, hnil]

/-! ## C8: jobs registered against one directory -/

/-- C8 (the code departs from the claim).  Both scenario states are reachable.
After `update` on the root while its listing job 2 is running, the jobs 3 and 2
are both registered against the root.  After the end of job 2 the root is
`LsFinished` while job 3 is still registered against it, and the end of job 3
then trips the soft assertion `lsState == LsRunning` of
`handleSftpJobFinished`. -/
theorem update_registers_second_job :
    Reachable asciiFold scenarioRefreshed ∧
    jobsOf scenarioRefreshed.lsOps 0 = [3, 2] ∧
    Reachable asciiFold scenarioRefreshedFinished ∧
    jobsOf scenarioRefreshedFinished.lsOps 0 = [3] ∧
    lsStateOf scenarioRefreshedFinished.heap 0 = some LsState.LsFinished ∧
    scenarioRefreshedFinished.warnings = 0 ∧
    (handleSftpJobFinished scenarioRefreshedFinished 3 "").map (fun s1 => s1.warnings) = .ok 1 :=
  ⟨reachable_scenarioRefreshed, rfl, reachable_scenarioRefreshedFinished, rfl, rfl, rfl, rfl⟩

/-! ## C9: name filters -/

/-- The star of the wildcard model stands for any run of characters. -/
theorem wildcardMatchChars_star (fold : Char → Char) (ps cs : List Char) :
    wildcardMatchChars fold ('*' :: ps) cs = true ↔
      ∃ run rest, cs = run ++ rest ∧ wildcardMatchChars fold ps rest = true := by
  simp only [wildcardMatchChars, if_true, List.any_eq_true, List.mem_tails]
  constructor
  · rintro ⟨t, ⟨run, hrun⟩, ht⟩
    exact ⟨run, t, hrun.symm, ht⟩
  · rintro ⟨run, rest, hcs, hrest⟩
    exact ⟨rest, ⟨run, hcs.symm⟩, hrest⟩

/-- C9. `passNameFilters`, for every matcher `rxMatch` standing for the
case-insensitive wildcard match of Qt: a directory entry passes whatever the
filter list; every entry passes the empty filter list; an entry that is not a
directory passes a non-empty list exactly when its name matches at least one of
the patterns.  With the wildcard model (`*` any run of characters, `?` any single
character, case folded) and the filter list `["*.log"]`: the file `app.log`
passes, the file `app.txt` does not, a directory named `x.log` passes. -/
theorem passNameFilters_spec (rxMatch : String → String → Bool) (nameFilters : List String)
    (node : SftpFileNode) :
    (node.fileInfo.type = SftpFileType.FileTypeDirectory →
      passNameFilters rxMatch nameFilters node = true) ∧
    (nameFilters = [] → passNameFilters rxMatch nameFilters node = true) ∧
    (node.fileInfo.type ≠ SftpFileType.FileTypeDirectory → nameFilters ≠ [] →
      (passNameFilters rxMatch nameFilters node = true ↔
        ∃ nameFilter ∈ nameFilters, rxMatch nameFilter node.fileInfo.name = true)) ∧
    (∀ (path : String) (size : Nat) (parent : Option Addr),
      passNameFilters wildcardMatch ["*.log"]
        { path := path,
          fileInfo := { name := "app.log", type := SftpFileType.FileTypeRegular, size := size },
          parent := parent, asDir := none } = true ∧
      passNameFilters wildcardMatch ["*.log"]
        { path := path,
          fileInfo := { name := "app.txt", type := SftpFileType.FileTypeRegular, size := size },
          parent := parent, asDir := none } = false ∧
      passNameFilters wildcardMatch ["*.log"]
        { path := path,
          fileInfo := { name := "x.log", type := SftpFileType.FileTypeDirectory, size := size },
          parent := parent,
          asDir := some { lsState := LsState.LsNotYetCalled, children := [] } } = true) := by
  refine ⟨?_, ?_, ?_, ?_⟩
  · intro hdir
    simp [passNameFilters, hdir]
  · intro hnil
    simp [passNameFilters, hnil]
  · intro hfile hne
    simp [passNameFilters, hfile, hne, List.any_eq_true]
  · intro path size parent
    exact ⟨rfl, rfl, rfl⟩

/-! ## C10: the root node after the stat answer -/

/-- The name `QFileInfo::fileName` yields is the last segment of the path. -/
theorem fileName_last_segment (dir seg : String) (hseg : '/' ∉ seg.toList) :
    fileName (dir ++ "/" ++ seg) = seg := by
  unfold fileName
  have h1 : (dir ++ "/" ++ seg).toList = dir.toList ++ '/' :: seg.toList := by
    simp [String.toList, String.data_append]
  rw [h1, List.reverse_append, List.reverse_cons, List.append_assoc]
  have h2 : (seg.toList.reverse ++ ([('/' : Char)] ++ dir.toList.reverse)).takeWhile
      (fun c => c != '/') = seg.toList.reverse := by
    apply takeWhile_append_stop
    · intro x hx
      have hx' : x ∈ seg.toList := List.mem_reverse.mp hx
      have : x ≠ '/' := fun e => hseg (e ▸ hx')
      simpa using this
    · simp
  rw [h2, List.reverse_reverse]
  cases seg
  rfl

/-- C10. After `setRootDirectory path` in a state with the channel attached and
a stat answer for the job the channel returned, carrying one entry (of type
Directory or any other): both calls succeed, the root node exists, its path is
`path`, its name is `/` when `path` is `/` and otherwise what
`QFileInfo::fileName` gives, which is the last segment `seg` whenever `path` is
`dir/seg` with no `/` in `seg`; it is a directory node in state
`LsNotYetCalled` without children and without parent. -/
theorem root_created_after_stat (fold : Char → Char) (s : SftpFileSystemModel) (path : String)
    (job : SftpJobId) (fi : SftpFileInfo) (hchannel : s.sftpChannel = true) :
    ∃ s1 s2 R rn, setRootDirectory s path job = .ok s1 ∧
      s1.rootNode = none ∧ s1.statJobId = job ∧ s1.rootDirectory = path ∧
      handleFileInfo fold s1 job [fi] = .ok s2 ∧
      s2.rootNode = some R ∧ s2.heap.node R = some rn ∧
      rn.path = path ∧
      rn.fileInfo.name = (if path = "/" then "/" else fileName path) ∧
      (path = "/" → rn.fileInfo.name = "/") ∧
      (∀ dir seg : String, path = dir ++ "/" ++ seg → '/' ∉ seg.toList → path ≠ "/" →
        rn.fileInfo.name = seg) ∧
      rn.asDir = some { lsState := LsState.LsNotYetCalled, children := [] } ∧
      rn.parent = none ∧
      lsStateOf s2.heap R = some LsState.LsNotYetCalled ∧
      childrenOf s2.heap R = some [] := by
  have hset : setRootDirectory s path job = .ok
      { s with emitted := s.emitted ++ [Signal.modelAboutToBeReset, Signal.modelReset],
               rootDirectory := path,
               heap := s.heap.delete s.rootNode,
               rootNode := none,
               lsOps := [],
               statJobId := job,
               channelCalls := s.channelCalls ++ [ChannelCall.statFile path job] } := by
    simp [setRootDirectory, statRootDirectory, hchannel]
  have hfi : ∀ S1 : SftpFileSystemModel, S1.statJobId = job →
      handleFileInfo fold S1 job [fi] = .ok
        { S1 with
          emitted := S1.emitted ++ [Signal.rowsAboutToBeInserted 0 0, Signal.rowsInserted 0 0],
          rootNode := some S1.heap.length,
          heap := (S1.heap.alloc
            { path := S1.rootDirectory,
              fileInfo := { fi with name := if S1.rootDirectory = "/" then S1.rootDirectory
                                            else fileName S1.rootDirectory },
              parent := none,
              asDir := some { lsState := LsState.LsNotYetCalled, children := [] } }).2 } := by
    intro S1 hS1
    simp [handleFileInfo, hS1]
  have hnode := Heap.node_alloc (s.heap.delete s.rootNode)
    { path := path,
      fileInfo := { fi with name := if path = "/" then path else fileName path },
      parent := none,
      asDir := some { lsState := LsState.LsNotYetCalled, children := [] } }
  refine ⟨_, _, (s.heap.delete s.rootNode).length,
    { path := path,
      fileInfo := { fi with name := if path = "/" then path else fileName path },
      parent := none,
      asDir := some { lsState := LsState.LsNotYetCalled, children := [] } },
    hset, rfl, rfl, rfl, hfi _ rfl, rfl, hnode, rfl, ?_, ?_, ?_, rfl, rfl, ?_, ?_⟩
  · by_cases hp : path = "/"
    · simp [hp]
    · simp [hp]
  · intro hp
    simp [hp]
  · intro dir seg hpath hseg hne
    simp only [hne, if_false]
    rw [hpath]
    exact fileName_last_segment dir seg hseg
  · simp only [lsStateOf, hnode]
    rfl
  · simp only [childrenOf, hnode]
    rfl

/-- Witness of `root_created_after_stat`: `/home` on the freshly connected model,
stat job 1 answered with the directory entry `home`. -/
theorem root_created_after_stat_witness :
    ∃ s1 s2 R rn, setRootDirectory scenarioConnected "/home" 1 = .ok s1 ∧
      s1.rootNode = none ∧ s1.statJobId = 1 ∧ s1.rootDirectory = "/home" ∧
      handleFileInfo asciiFold s1 1
        [{ name := "home", type := SftpFileType.FileTypeDirectory, size := 0 }] = .ok s2 ∧
      s2.rootNode = some R ∧ s2.heap.node R = some rn ∧
      rn.path = "/home" ∧
      rn.fileInfo.name = (if "/home" = "/" then "/" else fileName "/home") ∧
      ("/home" = "/" → rn.fileInfo.name = "/") ∧
      (∀ dir seg : String, "/home" = dir ++ "/" ++ seg → '/' ∉ seg.toList → "/home" ≠ "/" →
        rn.fileInfo.name = seg) ∧
      rn.asDir = some { lsState := LsState.LsNotYetCalled, children := [] } ∧
      rn.parent = none ∧
      lsStateOf s2.heap R = some LsState.LsNotYetCalled ∧
      childrenOf s2.heap R = some [] :=
  root_created_after_stat asciiFold scenarioConnected "/home" 1
    { name := "home", type := SftpFileType.FileTypeDirectory, size := 0 } rfl

/-! ## C11: a second stat answer -/

/-- C11 (the code departs from the claim).  The root `/home` has been built from
the stat answer for job 1 and populated with three children.  A second stat
answer for job 1 before the end of that job is not ignored: `handleFileInfo`
builds a new root node (address 4, `LsNotYetCalled`, no children) and makes it
the root, so the populated root is no longer the root.  After the end of job 1
the same answer is not ignored either: the id is then neither the stat job nor
a key of the registry and the entry `home` makes the loop dereference a null
pointer. -/
theorem second_stat_answer_not_ignored :
    scenarioStatPending.rootNode = some 0 ∧
    childrenOf scenarioStatPending.heap 0 = some [2, 3, 1] ∧
    (∃ s1, handleFileInfo asciiFold scenarioStatPending 1 [homeStat] = .ok s1 ∧
      s1.rootNode = some 4 ∧ s1.heap.length = scenarioStatPending.heap.length + 1 ∧
      lsStateOf s1.heap 4 = some LsState.LsNotYetCalled ∧ childrenOf s1.heap 4 = some [] ∧
      s1.emitted = scenarioStatPending.emitted ++
        [Signal.rowsAboutToBeInserted 0 0, Signal.rowsInserted 0 0]) ∧
    (∃ s2, handleSftpJobFinished scenarioStatPending 1 "" = .ok s2 ∧
      s2.rootNode = some 0 ∧ s2.statJobId = SftpInvalidJob ∧ s2.lsOps.value 1 = none ∧
      handleFileInfo asciiFold s2 1 [homeStat] = .error Fault.nullDeref) :=
  ⟨rfl, rfl, ⟨_, rfl, rfl, rfl, rfl, rfl, rfl⟩, ⟨_, rfl, rfl, rfl, rfl, rfl⟩⟩

/-! ## C12: the path role -/

/-- C12 (the code departs from the claim).  `data` has no branch for
`PathRole`: for every state and every index it returns the invalid `QVariant`,
for instance for the root index of the listed scenario, whose node has the path
`/home`. -/
theorem data_pathRole_invalid :
    (∀ (s : SftpFileSystemModel) (index : QModelIndex),
      data s index PathRole = .ok QVariant.invalid) ∧
    rootIndex.isValid = true ∧
    (scenarioListed.heap.node 0).map (fun n => n.path) = some "/home" ∧
    data scenarioListed rootIndex PathRole = .ok QVariant.invalid ∧
    data scenarioListed rootIndex DisplayRole = .ok (QVariant.string "home") :=
  ⟨fun _ _ => rfl, rfl, rfl, rfl, rfl⟩

/-! ## C13: the end of an external job -/

/-- C14. `downloadFile`, `uploadFile` and `removeFile`.  Without a root node
each returns `SftpInvalidJob`, forwards nothing to the channel and leaves the
external jobs as they were (only the soft assertion fails); so do `downloadFile`
and `removeFile` for an index without a node.  Otherwise, the channel being
attached and the addressed node alive, each forwards one request and returns
exactly the job id the channel answered, and that id is appended to the external
jobs if and only if it is not `SftpInvalidJob`. -/
theorem external_requests_spec (s : SftpFileSystemModel) (index : QModelIndex)
    (source target : String) (job : SftpJobId) :
    (s.rootNode = none →
      downloadFile s index target job =
        .ok (SftpInvalidJob, { s with warnings := s.warnings + 1 }) ∧
      uploadFile s source target job =
        .ok (SftpInvalidJob, { s with warnings := s.warnings + 1 }) ∧
      removeFile s index job =
        .ok (SftpInvalidJob, { s with warnings := s.warnings + 1 })) ∧
    (index.internalPointer = none →
      downloadFile s index target job =
        .ok (SftpInvalidJob, { s with warnings := s.warnings + 1 }) ∧
      removeFile s index job =
        .ok (SftpInvalidJob, { s with warnings := s.warnings + 1 })) ∧
    (s.rootNode.isSome = true → s.sftpChannel = true →
      uploadFile s source target job =
        .ok (job, { s with
          channelCalls := s.channelCalls ++ [ChannelCall.uploadFile source target job],
          externalJobs := if job ≠ SftpInvalidJob then s.externalJobs ++ [job]
                          else s.externalJobs })) ∧
    (s.rootNode.isSome = true → s.sftpChannel = true →
      ∀ (f : Addr) (fn : SftpFileNode), index.internalPointer = some f →
        s.heap.node f = some fn →
        downloadFile s index target job =
          .ok (job, { s with
            channelCalls := s.channelCalls ++ [ChannelCall.downloadFile fn.path target job],
            externalJobs := if job ≠ SftpInvalidJob then s.externalJobs ++ [job]
                            else s.externalJobs }) ∧
        removeFile s index job =
          .ok (job, { s with
            channelCalls := s.channelCalls ++ [ChannelCall.removeFile fn.path job],
            externalJobs := if job ≠ SftpInvalidJob then s.externalJobs ++ [job]
                            else s.externalJobs })) := by
  refine ⟨?_, ?_, ?_, ?_⟩
  · intro hroot
    simp [downloadFile, uploadFile, removeFile, hroot]
  · intro hptr
    by_cases hroot : s.rootNode.isNone = true
    · simp [downloadFile, removeFile, hroot]
    · simp [downloadFile, removeFile, hroot, hptr]
  · intro hroot hchannel
    simp [uploadFile, isNone_of_isSome _ hroot, hchannel]
  · intro hroot hchannel f fn hptr hf
    simp [downloadFile, removeFile, isNone_of_isSome _ hroot, hchannel, hptr, hf]

/-! ## C15: the end of a listing job -/

/-- C15. The end of a listing job `j` registered against the directory `D` in
state `LsRunning` (`j` not being the pending root-stat job), with whatever error
message: `handleSftpJobFinished` sets `D` to `LsFinished` and keeps its children,
removes `j` from the registry and leaves the other keys, touches no other node,
forwards no request to the channel, emits `sftpOperationFailed` exactly when the
error message is not empty, then `sftpOperationFinished`; a later `rowCount` on
the column-0 index of `D` returns the number of children and changes nothing. -/
theorem listing_job_finished (s : SftpFileSystemModel) (j : SftpJobId) (errorMessage : String)
    (D : Addr) (dn : SftpFileNode) (d : SftpDirNode)
    (hstat : j ≠ s.statJobId) (hreg : s.lsOps.value j = some D)
    (hD : s.heap.node D = some dn) (hd : dn.asDir = some d)
    (hstate : d.lsState = LsState.LsRunning) :
    ∃ s1, handleSftpJobFinished s j errorMessage = .ok s1 ∧
      s1.heap.node D = some { dn with asDir := some { d with lsState := LsState.LsFinished } } ∧
      lsStateOf s1.heap D = some LsState.LsFinished ∧
      childrenOf s1.heap D = some d.children ∧
      (∀ b, b ≠ D → s1.heap.node b = s.heap.node b) ∧
      s1.lsOps.value j = none ∧
      (∀ k, k ≠ j → s1.lsOps.value k = s.lsOps.value k) ∧
      s1.channelCalls = s.channelCalls ∧
      s1.externalJobs = s.externalJobs ∧ s1.rootNode = s.rootNode ∧
      s1.statJobId = s.statJobId ∧ s1.warnings = s.warnings ∧
      (errorMessage = "" →
        s1.emitted = s.emitted ++ [Signal.sftpOperationFinished j errorMessage]) ∧
      (errorMessage ≠ "" →
        s1.emitted = s.emitted ++
          [Signal.sftpOperationFailed
            ("Error listing contents of directory '" ++ dn.path ++ "': " ++ errorMessage),
           Signal.sftpOperationFinished j errorMessage]) ∧
      (∀ (parent : QModelIndex) (job2 : SftpJobId), s.rootNode.isSome = true →
        parent.isValid = true → parent.column = 0 → parent.internalPointer = some D →
        rowCount s1 parent job2 = .ok ((d.children.length : Int), s1)) := by
  have hnode : (s.heap.write D
      { dn with asDir := some { d with lsState := LsState.LsFinished } }).node D =
      some { dn with asDir := some { d with lsState := LsState.LsFinished } } := by
    rw [Heap.node_write s.heap D D _ dn hD]
    simp
  refine ⟨{ s with
      warnings := if d.lsState = LsState.LsRunning then s.warnings else s.warnings + 1,
      heap := s.heap.write D { dn with asDir := some { d with lsState := LsState.LsFinished } },
      lsOps := s.lsOps.erase j,
      emitted := s.emitted
        ++ (if errorMessage.isEmpty then []
            else [Signal.sftpOperationFailed
                    ("Error listing contents of directory '" ++ dn.path ++ "': " ++ errorMessage)])
        ++ [Signal.sftpOperationFinished j errorMessage] },
    ?_, hnode, ?_, ?_, ?_, DirNodeHash.value_erase_self _ _,
    fun k hk => DirNodeHash.value_erase_other _ _ _ hk, rfl, rfl, rfl, rfl, ?_, ?_, ?_, ?_⟩
  · simp only [handleSftpJobFinished, hstat, if_false, hreg, hD, hd]
  · simp only [lsStateOf, hnode]
    rfl
  · simp only [childrenOf, hnode]
    rfl
  · intro b hb
    show (s.heap.write D _).node b = _
    rw [Heap.node_write s.heap D b _ dn hD]
    simp [hb]
  · simp [hstate]
  · intro he
    have : errorMessage.isEmpty = true := (String.isEmpty_iff _).mpr he
    simp [this]
  · intro he
    have : errorMessage.isEmpty = false := by
      cases hx : errorMessage.isEmpty with
      | false => rfl
      | true => exact absurd ((String.isEmpty_iff _).mp hx) he
    simp [this]
  · intro parent job2 hroot hvalid hcol hptr
    exact rowCount_read_only _ parent D _ { d with lsState := LsState.LsFinished } job2
      hroot hvalid hcol hptr hnode rfl (by simp)

/-- Witness of `listing_job_finished`: the end of the listing job 2 of `/home`
with the error `Permission denied`. -/
theorem listing_job_finished_witness :
    ∃ s1, handleSftpJobFinished scenarioMerged 2 "Permission denied" = .ok s1 ∧
      lsStateOf s1.heap 0 = some LsState.LsFinished ∧
      childrenOf s1.heap 0 = some [2, 3, 1] ∧
      s1.lsOps.value 2 = none ∧
      s1.channelCalls = scenarioMerged.channelCalls ∧
      s1.emitted = scenarioMerged.emitted ++
        [Signal.sftpOperationFailed
          "Error listing contents of directory '/home': Permission denied",
         Signal.sftpOperationFinished 2 "Permission denied"] ∧
      rowCount s1 rootIndex 9 = .ok (3, s1) := by
  obtain ⟨s1, h1, _, h3, h4, _, h6, _, h8, _, _, _, _, _, h14, h15⟩ :=
    listing_job_finished scenarioMerged 2 "Permission denied" 0
      (homeNode LsState.LsRunning [2, 3, 1])
      { lsState := LsState.LsRunning, children := [2, 3, 1] } (by decide) rfl rfl rfl rfl
  exact ⟨s1, h1, h3, h4, h6, h8, h14 (by decide), h15 rootIndex 9 rfl rfl rfl rfl⟩

/-! ## C16: connection failure -/

/-- What the two failure slots do.  `handleSshConnectionFailure` (a connection
being attached, `message` its error string) and
`handleSftpChannelInitializationFailed message`, from every state: the signal
`connectionError message` is emitted, followed by the two reset signals; channel
and connection are released; the root node is dropped, so `rowCount` returns 0
for every index and changes nothing.  The registry is not touched: the listing
jobs, the external jobs and the pending root-stat id stay as they were. -/
theorem connection_failure_drops_tree (s : SftpFileSystemModel) (message : String) :
    (s.sshConnection = true →
      ∃ s1, handleSshConnectionFailure s message = .ok s1 ∧
        s1.emitted = s.emitted ++ [Signal.connectionError message,
          Signal.modelAboutToBeReset, Signal.modelReset] ∧
        s1.rootNode = none ∧
        (∀ (parent : QModelIndex) (job : SftpJobId), rowCount s1 parent job = .ok (0, s1)) ∧
        s1.sftpChannel = false ∧ s1.sshConnection = false ∧
        s1.lsOps = s.lsOps ∧ s1.externalJobs = s.externalJobs ∧ s1.statJobId = s.statJobId) ∧
    (∃ s1, handleSftpChannelInitializationFailed s message = s1 ∧
        s1.emitted = s.emitted ++ [Signal.connectionError message,
          Signal.modelAboutToBeReset, Signal.modelReset] ∧
        s1.rootNode = none ∧
        (∀ (parent : QModelIndex) (job : SftpJobId), rowCount s1 parent job = .ok (0, s1)) ∧
        s1.sftpChannel = false ∧ s1.sshConnection = false ∧
        s1.lsOps = s.lsOps ∧ s1.externalJobs = s.externalJobs ∧ s1.statJobId = s.statJobId) := by
  constructor
  · intro hconn
    refine ⟨handleSftpChannelInitializationFailed s message, ?_, ?_, rfl, ?_, rfl, rfl,
      rfl, rfl, rfl⟩
    · simp only [handleSshConnectionFailure, hconn, if_true]
      rfl
    · simp [handleSftpChannelInitializationFailed, shutDown]
    · intro parent job
      simp [rowCount, handleSftpChannelInitializationFailed, shutDown]
  · refine ⟨handleSftpChannelInitializationFailed s message, rfl, ?_, rfl, ?_, rfl, rfl, rfl,
      rfl, rfl⟩
    · simp [handleSftpChannelInitializationFailed, shutDown]
    · intro parent job
      simp [rowCount, handleSftpChannelInitializationFailed, shutDown]

/-- Witness of `connection_failure_drops_tree`: the connection of the listed
scenario fails. -/
theorem connection_failure_drops_tree_witness :
    ∃ s1, handleSshConnectionFailure scenarioListed "Connection lost" = .ok s1 ∧
      s1.emitted = scenarioListed.emitted ++ [Signal.connectionError "Connection lost",
        Signal.modelAboutToBeReset, Signal.modelReset] ∧
      s1.rootNode = none ∧
      (∀ (parent : QModelIndex) (job : SftpJobId), rowCount s1 parent job = .ok (0, s1)) ∧
      s1.sftpChannel = false ∧ s1.sshConnection = false ∧
      s1.lsOps = scenarioListed.lsOps ∧ s1.externalJobs = scenarioListed.externalJobs ∧
      s1.statJobId = scenarioListed.statJobId :=
  (connection_failure_drops_tree scenarioListed "Connection lost").1 rfl

/-- C16 (the code departs from the claim).  In the scenario with the stat job 1
pending and the listing job 2 registered, a download is requested (external
job 7) and then the connection fails, or the channel initialisation fails.  The
root is dropped, but the registry is not cleared: the listing job 2, the
external job 7 and the pending stat id 1 all remain, and the entry of job 2 now
points to a deleted node.  `setRootDirectory` cannot clear it, the channel being
gone.  After a new connection, a new stat answer and its end, the root is
rebuilt at address 4 with the stale entry still registered; the end of a job
with the id 2, here a download on the new channel, is then taken for the end of
that listing and dereferences the deleted node. -/
theorem connection_failure_keeps_registry :
    ∃ s0, downloadFile scenarioStatPending (createIndex 2 0 1) "/tmp/b.txt" 7 = .ok (7, s0) ∧
      (∃ s1, handleSshConnectionFailure s0 "Connection lost" = .ok s1 ∧
        s1.rootNode = none ∧ s1.lsOps = [(2, 0)] ∧ s1.externalJobs = [7] ∧
        s1.statJobId = 1 ∧ s1.statJobId ≠ SftpInvalidJob ∧
        s1.lsOps.value 2 = some 0 ∧ s1.heap.node 0 = none ∧
        setRootDirectory s1 "/home" 1 = .error Fault.nullDeref ∧
        (∃ s2 s3 s4 s5 s6, setSshConnection s1 true = .ok s2 ∧
          handleSftpChannelInitialized s2 1 = .ok s3 ∧
          handleFileInfo asciiFold s3 1 [homeStat] = .ok s4 ∧
          handleSftpJobFinished s4 1 "" = .ok s5 ∧
          s5.rootNode = some 4 ∧ s5.lsOps = [(2, 0)] ∧ s5.heap.node 0 = none ∧
          downloadFile s5 (createIndex 0 0 4) "/tmp/home" 2 = .ok (2, s6) ∧
          s6.externalJobs = [7, 2] ∧
          handleSftpJobFinished s6 2 "" = .error Fault.danglingDeref)) ∧
      (handleSftpChannelInitializationFailed s0 "No sftp subsystem").rootNode = none ∧
      (handleSftpChannelInitializationFailed s0 "No sftp subsystem").lsOps = [(2, 0)] ∧
      (handleSftpChannelInitializationFailed s0 "No sftp subsystem").externalJobs = [7] ∧
      (handleSftpChannelInitializationFailed s0 "No sftp subsystem").statJobId = 1 ∧
      (handleSftpChannelInitializationFailed s0 "No sftp subsystem").heap.node 0 = none :=
  ⟨_, rfl, ⟨_, rfl, rfl, rfl, rfl, rfl, by decide, rfl, rfl, rfl,
    ⟨_, _, _, _, _, rfl, rfl, rfl, rfl, rfl, rfl, rfl, rfl, rfl, rfl⟩⟩, rfl, rfl, rfl, rfl, rfl⟩

/-! ## C17: `setRootDirectory` resets the model -/

/-- C17. `setRootDirectory path` in a state with the channel attached: the call
succeeds, the configured root is `path`, there is no root node, so `rowCount`
returns 0 for every index and changes nothing, the registry of listing jobs is
empty, so the end of a job issued before (any job other than the new stat job)
touches no node, and the pending root-stat job is the id the channel answered to
the one `statFile path` request the call forwarded. -/
theorem setRootDirectory_resets (s : SftpFileSystemModel) (path : String) (job : SftpJobId)
    (hchannel : s.sftpChannel = true) :
    ∃ s1, setRootDirectory s path job = .ok s1 ∧
      s1.rootDirectory = path ∧ s1.rootNode = none ∧
      (∀ (parent : QModelIndex) (job2 : SftpJobId), rowCount s1 parent job2 = .ok (0, s1)) ∧
      s1.lsOps = [] ∧ (∀ j, s1.lsOps.value j = none) ∧
      s1.statJobId = job ∧
      s1.channelCalls = s.channelCalls ++ [ChannelCall.statFile path job] ∧
      s1.emitted = s.emitted ++ [Signal.modelAboutToBeReset, Signal.modelReset] ∧
      s1.externalJobs = s.externalJobs ∧
      (∀ (j : SftpJobId) (errorMessage : String), j ≠ job →
        ∃ s2, handleSftpJobFinished s1 j errorMessage = .ok s2 ∧ s2.heap = s1.heap ∧
          s2.rootNode = none ∧ s2.statJobId = job) := by
  refine ⟨{ s with emitted := s.emitted ++ [Signal.modelAboutToBeReset, Signal.modelReset],
                   rootDirectory := path,
                   heap := s.heap.delete s.rootNode,
                   rootNode := none,
                   lsOps := [],
                   statJobId := job,
                   channelCalls := s.channelCalls ++ [ChannelCall.statFile path job] },
    ?_, rfl, rfl, ?_, rfl, fun _ => rfl, rfl, rfl, rfl, rfl, ?_⟩
  · simp [setRootDirectory, statRootDirectory, hchannel]
  · intro parent job2
    simp [rowCount]
  · intro j errorMessage hj
    have hne : ¬ j = ({ s with
        emitted := s.emitted ++ [Signal.modelAboutToBeReset, Signal.modelReset],
        rootDirectory := path, heap := s.heap.delete s.rootNode, rootNode := none,
        lsOps := [], statJobId := job,
        channelCalls := s.channelCalls ++ [ChannelCall.statFile path job] } :
        SftpFileSystemModel).statJobId := hj
    unfold handleSftpJobFinished
    rw [if_neg hne]
    simp only [DirNodeHash.value, List.lookup]
    split
    · exact ⟨_, rfl, rfl, rfl, rfl⟩
    · exact ⟨_, rfl, rfl, rfl, rfl⟩

/-- Witness of `setRootDirectory_resets`: the listed scenario re-rooted at `/tmp`,
the stat answered with job 5. -/
theorem setRootDirectory_resets_witness :
    ∃ s1, setRootDirectory scenarioListed "/tmp" 5 = .ok s1 ∧
      s1.rootDirectory = "/tmp" ∧ s1.rootNode = none ∧
      rowCount s1 QModelIndex.invalid 6 = .ok (0, s1) ∧
      s1.lsOps = [] ∧ s1.statJobId = 5 ∧
      s1.channelCalls = scenarioListed.channelCalls ++ [ChannelCall.statFile "/tmp" 5] := by
  obtain ⟨s1, h1, h2, h3, h4, h5, _, h7, h8, _⟩ :=
    setRootDirectory_resets scenarioListed "/tmp" 5 rfl
  exact ⟨s1, h1, h2, h3, h4 _ 6, h5, h7, h8⟩

/-! ## C18: coordinates -/

theorem QModelIndex.eq_createIndex (p : QModelIndex) (D : Addr) (hvalid : p.isValid = true)
    (hcol : p.column = 0) (hptr : p.internalPointer = some D) :
    createIndex p.row 0 D = p := by
  cases p with
  | mk row column ptr model =>
    simp only [QModelIndex.isValid, Bool.and_eq_true, decide_eq_true_eq] at hvalid
    simp only at hcol hptr
    simp [createIndex, hcol, hptr, hvalid.2]

/-- The round trip between `index` and `parent` in a state whose tree facts are
given as hypotheses: the children of the directory point back to it and are not
the root, and the index of the directory carries its row. -/
theorem index_parent_round_trip (s : SftpFileSystemModel) (R : Addr)
    (hroot : s.rootNode = some R) :
    (∀ (c : Int) (job : SftpJobId), c = 0 ∨ c = 1 →
      index s 0 c QModelIndex.invalid job = .ok (createIndex 0 c R, s) ∧
      parent s (createIndex 0 c R) = .ok (QModelIndex.invalid, s)) ∧
    (∀ (p : QModelIndex) (D : Addr) (dn : SftpFileNode) (d : SftpDirNode),
      p.isValid = true → p.column = 0 → p.internalPointer = some D →
      s.heap.node D = some dn → dn.asDir = some d → d.lsState ≠ LsState.LsNotYetCalled →
      (∀ x ∈ d.children, x ≠ R ∧ ∃ xn, s.heap.node x = some xn ∧ xn.parent = some D) →
      ((D = R ∧ p.row = 0) ∨
        (D ≠ R ∧ ∃ G gn gd, dn.parent = some G ∧ s.heap.node G = some gn ∧
          gn.asDir = some gd ∧ qIndexOf gd.children D = p.row)) →
      ∀ (r c : Int) (job : SftpJobId), 0 ≤ r → r < (d.children.length : Int) →
        c = 0 ∨ c = 1 →
        ∃ childNode, d.children.get? r.toNat = some childNode ∧
          index s r c p job = .ok (createIndex r c childNode, s) ∧
          parent s (createIndex r c childNode) = .ok (p, s)) ∧
    (∀ (p : QModelIndex) (r c : Int) (job : SftpJobId),
      (r < 0 → index s r c p job = .ok (QModelIndex.invalid, s)) ∧
      (∀ (n : Int) (s1 : SftpFileSystemModel), 0 ≤ r → rowCount s p job = .ok (n, s1) →
        n ≤ r ∨ c < 0 ∨ 2 ≤ c → index s r c p job = .ok (QModelIndex.invalid, s1))) := by
  have hrn : s.rootNode.isNone = false := by simp [hroot]
  refine ⟨?_, ?_, ?_⟩
  · intro c job hc
    have hc0 : 0 ≤ c := by rcases hc with h | h <;> omega
    have hc2 : ¬ (c < 0 ∨ c ≥ 2) := by rcases hc with h | h <;> omega
    constructor
    · have hinv : QModelIndex.invalid.isValid = false := rfl
      have hrc : rowCount s QModelIndex.invalid job = .ok (1, s) := by
        simp [rowCount, hrn, hinv]
      have hnot : ¬ ((0 : Int) ≥ 1 ∨ c < 0 ∨ c ≥ 2) := by omega
      simp only [index, lt_irrefl, if_false, hrc, columnCount, hnot, hroot, hinv,
        Bool.not_false, if_true]
    · simp [parent, createIndex, QModelIndex.isValid, hc0, hroot]
  · intro p D dn d hvalid hcol hptr hD hd hstate hwf hp r c job hr0 hrlt hc
    have hc0 : 0 ≤ c := by rcases hc with h | h <;> omega
    have hc2 : ¬ (c < 0 ∨ c ≥ 2) := by rcases hc with h | h <;> omega
    have hrc : rowCount s p job = .ok ((d.children.length : Int), s) :=
      rowCount_read_only s p D dn d job (by simp [hroot]) hvalid hcol hptr hD hd hstate
    have hlt : r.toNat < d.children.length := by omega
    obtain ⟨childNode, hchild⟩ : ∃ x, d.children.get? r.toNat = some x :=
      ⟨d.children.get ⟨r.toNat, hlt⟩, List.get?_eq_get hlt⟩
    have hmem : childNode ∈ d.children := List.get?_mem hchild
    obtain ⟨hneR, xn, hxn, hxparent⟩ := hwf childNode hmem
    refine ⟨childNode, hchild, ?_, ?_⟩
    · have hnot : ¬ (r ≥ (d.children.length : Int) ∨ c < 0 ∨ c ≥ 2) := by omega
      simp only [index, not_lt.mpr hr0, if_false, hrc, columnCount, hnot, hroot, hvalid,
        Bool.not_true, Bool.false_eq_true, hptr, hD, hd, hchild]
    · have hvalidChild : (createIndex r c childNode).isValid = true := by
        simp [createIndex, QModelIndex.isValid, hr0, hc0]
      have hneR' : ¬ (some R = some childNode) := fun e => hneR (Option.some.inj e).symm
      have hptrChild : (createIndex r c childNode).internalPointer = some childNode := rfl
      rcases hp with ⟨hDR, hrow⟩ | ⟨hDR, G, gn, gd, hG, hGn, hgd, hrow⟩
      · subst hDR
        have hpe := QModelIndex.eq_createIndex p D hvalid hcol hptr
        rw [hrow] at hpe
        simp only [parent, hvalidChild, Bool.not_true, Bool.false_eq_true, if_false, hroot,
          hptrChild, hneR', hxn, hxparent, if_true]
        rw [← hpe]
        rfl
      · have hne2 : ¬ (some D = some R) := fun e => hDR (Option.some.inj e)
        have hpe := QModelIndex.eq_createIndex p D hvalid hcol hptr
        simp only [parent, hvalidChild, Bool.not_true, Bool.false_eq_true, if_false, hroot,
          hptrChild, hneR', hxn, hxparent, hne2, hD, hG, hGn, hgd, hrow]
        rw [hpe]
  · intro p r c job
    constructor
    · intro hr
      simp [index, hr]
    · intro n s1 hr0 hrc hout
      have hr : ¬ r < 0 := not_lt.mpr hr0
      have hcond : r ≥ n ∨ c < 0 ∨ c ≥ columnCount := by
        unfold columnCount
        omega
      simp only [index, hr, if_false, hrc, hcond, if_true]

theorem qIndexOf_get (l : List Addr) (hnd : l.Nodup) (i : Nat) (x : Addr)
    (hx : l.get? i = some x) : qIndexOf l x = (i : Int) := by
  have hmem : x ∈ l := List.get?_mem hx
  have hlt : i < l.length := by
    by_contra hge
    rw [List.get?_eq_none.mpr (Nat.le_of_not_lt hge)] at hx
    simp at hx
  have hget : l[i] = x := by
    rw [List.get?_eq_getElem?, List.getElem?_eq_getElem hlt] at hx
    exact Option.some.inj hx
  unfold qIndexOf
  rw [if_pos hmem, ← hget, List.indexOf_getElem hnd i hlt]

/-- C18. Coordinates in a reachable state with a root `R`.  `index 0 c` below
the invalid index is the index of the root for both columns, and `parent` of it
is the invalid index.  For a column-0 index `p` of a directory `D` past
`LsNotYetCalled`, every row `r` below the number of children and both columns:
`index r c p` is the index of the `r`-th child and `parent` of that index is
`p`; neither call changes the state.  For a negative row, a row not below
`rowCount`, or a column outside 0 and 1, `index` returns the invalid index. -/
theorem coordinate_round_trip (fold : Char → Char) (s : SftpFileSystemModel)
    (hr : Reachable fold s) (R : Addr) (hroot : s.rootNode = some R) :
    (∀ (c : Int) (job : SftpJobId), c = 0 ∨ c = 1 →
      index s 0 c QModelIndex.invalid job = .ok (createIndex 0 c R, s) ∧
      Addresses s (createIndex 0 c R) R ∧
      parent s (createIndex 0 c R) = .ok (QModelIndex.invalid, s)) ∧
    (∀ (p : QModelIndex) (D : Addr) (dn : SftpFileNode) (d : SftpDirNode),
      Addresses s p D → p.column = 0 →
      s.heap.node D = some dn → dn.asDir = some d → d.lsState ≠ LsState.LsNotYetCalled →
      ∀ (r c : Int) (job : SftpJobId), 0 ≤ r → r < (d.children.length : Int) →
        c = 0 ∨ c = 1 →
        ∃ childNode, d.children.get? r.toNat = some childNode ∧
          index s r c p job = .ok (createIndex r c childNode, s) ∧
          Addresses s (createIndex r c childNode) childNode ∧
          parent s (createIndex r c childNode) = .ok (p, s)) ∧
    (∀ (p : QModelIndex) (r c : Int) (job : SftpJobId),
      (r < 0 → index s r c p job = .ok (QModelIndex.invalid, s)) ∧
      (∀ (n : Int) (s1 : SftpFileSystemModel), 0 ≤ r → rowCount s p job = .ok (n, s1) →
        n ≤ r ∨ c < 0 ∨ 2 ≤ c → index s r c p job = .ok (QModelIndex.invalid, s1))) := by
  obtain ⟨hinv, hrinv⟩ := reachable_treeInv fold s hr
  obtain ⟨rn, hrn, hrp⟩ := hrinv R hroot
  obtain ⟨haux1, haux2, haux3⟩ := index_parent_round_trip s R hroot
  refine ⟨?_, ?_, haux3⟩
  · intro c job hc
    have hc0 : 0 ≤ c := by rcases hc with h | h <;> omega
    refine ⟨(haux1 c job hc).1, ?_, (haux1 c job hc).2⟩
    exact ⟨by simp [createIndex, QModelIndex.isValid, hc0], rfl, Or.inl ⟨hroot, rfl⟩⟩
  · intro p D dn d hp hcol hD hd hstate r c job hr0 hrlt hc
    obtain ⟨hvalid, hptr, hrow⟩ := hp
    obtain ⟨hnd, hmem⟩ := hinv D dn d hD hd
    have hwf : ∀ x ∈ d.children, x ≠ R ∧ ∃ xn, s.heap.node x = some xn ∧ xn.parent = some D := by
      intro x hx
      obtain ⟨xn, hxn, hxp⟩ := hmem x hx
      refine ⟨fun e => ?_, xn, hxn, hxp⟩
      rw [e, hrn] at hxn
      have : rn = xn := Option.some.inj hxn
      subst this
      rw [hrp] at hxp
      simp at hxp
    have hrow' : (D = R ∧ p.row = 0) ∨
        (D ≠ R ∧ ∃ G gn gd, dn.parent = some G ∧ s.heap.node G = some gn ∧
          gn.asDir = some gd ∧ qIndexOf gd.children D = p.row) := by
      rcases hrow with ⟨hDR, h0⟩ | ⟨hDR, dn', G, gn, gd, hD', hG, hGn, hgd, hq⟩
      · rw [hroot] at hDR
        exact Or.inl ⟨(Option.some.inj hDR).symm, h0⟩
      · rw [hD] at hD'
        have : dn = dn' := Option.some.inj hD'
        subst this
        refine Or.inr ⟨fun e => hDR (by rw [hroot, e]), G, gn, gd, hG, hGn, hgd, hq⟩
    obtain ⟨childNode, hchild, hidx, hpar⟩ :=
      haux2 p D dn d hvalid hcol hptr hD hd hstate hwf hrow' r c job hr0 hrlt hc
    have hc0 : 0 ≤ c := by rcases hc with h | h <;> omega
    obtain ⟨hneR, xn, hxn, hxp⟩ := hwf childNode (List.get?_mem hchild)
    refine ⟨childNode, hchild, hidx, ?_, hpar⟩
    refine ⟨by simp [createIndex, QModelIndex.isValid, hr0, hc0], rfl, Or.inr ⟨?_, xn, D, dn, d,
      hxn, hxp, hD, hd, ?_⟩⟩
    · rw [hroot]
      exact fun e => hneR (Option.some.inj e).symm
    · rw [qIndexOf_get d.children hnd r.toNat childNode hchild]
      show ((r.toNat : Nat) : Int) = r
      exact Int.toNat_of_nonneg hr0

/-- Witness of `coordinate_round_trip`: the nested scenario, root at address 0;
the root index, the child `x` (address 4) of `/home/A`, and a row out of range. -/
theorem coordinate_round_trip_witness :
    (index scenarioNested 0 1 QModelIndex.invalid 9 =
        .ok (createIndex 0 1 0, scenarioNested) ∧
      parent scenarioNested (createIndex 0 1 0) = .ok (QModelIndex.invalid, scenarioNested)) ∧
    (∃ childNode, [4].get? (0 : Int).toNat = some childNode ∧
      index scenarioNested 0 1 dirAIndex 9 = .ok (createIndex 0 1 childNode, scenarioNested) ∧
      parent scenarioNested (createIndex 0 1 childNode) = .ok (dirAIndex, scenarioNested)) ∧
    index scenarioNested 5 0 dirAIndex 9 = .ok (QModelIndex.invalid, scenarioNested) := by
  have hthm := coordinate_round_trip asciiFold scenarioNested reachable_scenarioNested 0 rfl
  obtain ⟨h1, h2, h3⟩ := hthm
  refine ⟨⟨(h1 1 9 (Or.inr rfl)).1, (h1 1 9 (Or.inr rfl)).2.2⟩, ?_, ?_⟩
  · obtain ⟨childNode, hc, hi, _, hp⟩ := h2 dirAIndex 2
      { path := "/home/A",
        fileInfo := { name := "A", type := SftpFileType.FileTypeDirectory, size := 0 },
        parent := some 0,
        asDir := some { lsState := LsState.LsFinished, children := [4] } }
      { lsState := LsState.LsFinished, children := [4] }
      ⟨rfl, rfl, Or.inr ⟨by decide, _, 0, homeNode LsState.LsFinished [2, 3, 1],
        { lsState := LsState.LsFinished, children := [2, 3, 1] }, rfl, rfl, rfl, rfl, rfl⟩⟩
      rfl rfl rfl (by decide) 0 1 9 (le_refl 0) (by decide) (Or.inr rfl)
    exact ⟨childNode, hc, hi, hp⟩
  · exact ((h3 dirAIndex 5 0 9).2 1 scenarioNested (by decide) rfl (Or.inl (by decide)))

/-! ## C19: no node named `.` or `..` -/

theorem properNames_write (h : Heap) (a : Addr) (n0 n : SftpFileNode) (hp : ProperNames h)
    (ha : h.node a = some n0) (hinfo : n.fileInfo = n0.fileInfo) (hpar : n.parent = n0.parent) :
    ProperNames (h.write a n) := by
  intro b x hx hxp
  rcases Heap.node_write_some h a b n x hx with ⟨_, rfl⟩ | hold
  · rw [hinfo]
    exact hp a n0 ha (by rw [← hpar]; exact hxp)
  · exact hp b x hold hxp

theorem properNames_alloc (h : Heap) (n : SftpFileNode) (hp : ProperNames h)
    (hn : n.parent ≠ none → n.fileInfo.name ≠ "." ∧ n.fileInfo.name ≠ "..") :
    ProperNames (h.alloc n).2 := by
  intro b x hx hxp
  rcases Heap.node_alloc_some h n x b hx with ⟨_, rfl⟩ | hold
  · exact hn hxp
  · exact hp b x hold hxp

theorem properNames_delete (h : Heap) (p : Option Addr) (hp : ProperNames h) :
    ProperNames (h.delete p) :=
  fun b x hx hxp => hp b x (Heap.delete_some h p b x hx) hxp

theorem properNames_insertChild (fold : Char → Char) (h h2 : Heap) (dir new : Addr)
    (hp : ProperNames h) (hins : insertChild fold h dir new = .ok h2) : ProperNames h2 := by
  unfold QSsh.insertChild at hins
  cases hdn : h.node dir with
  | none => simp [hdn] at hins
  | some dn =>
    cases hd : dn.asDir with
    | none => simp [hdn, hd] at hins
    | some d =>
      simp only [hdn, hd] at hins
      split at hins
      · simp only [Except.ok.injEq] at hins
        rw [← hins]
        exact hp
      · split at hins
        · simp only [Except.ok.injEq] at hins
          rw [← hins]
          exact properNames_write h dir dn _ hp hdn rfl rfl
        · cases hnn : h.node new with
          | none => simp [hnn] at hins
          | some nn =>
            simp only [hnn] at hins
            cases hl : insertLoop fold h nn.fileInfo.name new d.children with
            | error e => simp [hl] at hins
            | ok l =>
              simp only [hl, Except.ok.injEq] at hins
              rw [← hins]
              exact properNames_write h dir dn _ hp hdn rfl rfl

theorem filteredList_names (fileInfoList : List SftpFileInfo) :
    ∀ fi ∈ filteredList fileInfoList, fi.name ≠ "." ∧ fi.name ≠ ".." := by
  intro fi hfi
  unfold filteredList at hfi
  have := (List.mem_filter.mp hfi).2
  simpa using this

theorem properNames_insertEntries (fold : Char → Char) (parentNode : Option Addr) :
    ∀ (entries : List SftpFileInfo) (h h2 : Heap), ProperNames h →
      (∀ fi ∈ entries, fi.name ≠ "." ∧ fi.name ≠ "..") →
      insertEntries fold parentNode h entries = .ok h2 → ProperNames h2
  | [], h, h2, hp, _, hins => by
    simp only [QSsh.insertEntries, Except.ok.injEq] at hins
    rw [← hins]
    exact hp
  | fi :: rest, h, h2, hp, hnames, hins => by
    unfold QSsh.insertEntries at hins
    cases hpn : parentNode with
    | none => simp [hpn] at hins
    | some p =>
      simp only [hpn] at hins
      cases hnode : h.node p with
      | none => simp [hnode] at hins
      | some pn =>
        simp only [hnode] at hins
        cases hic : QSsh.insertChild fold (h.alloc (newChildNode p pn.path fi)).2 p h.length with
        | error e => simp [hic] at hins
        | ok h1 =>
          simp only [hic] at hins
          have hp0 : ProperNames (h.alloc (newChildNode p pn.path fi)).2 :=
            properNames_alloc h _ hp (fun _ => hnames fi (List.mem_cons_self fi rest))
          have hp1 := properNames_insertChild fold _ h1 p h.length hp0 hic
          rw [← hpn] at hins
          exact properNames_insertEntries fold parentNode rest h1 h2 hp1
            (fun x hx => hnames x (List.mem_cons_of_mem fi hx)) hins

theorem properNames_setSshConnection (s s1 : SftpFileSystemModel) (connected : Bool)
    (hp : ProperNames s.heap) (h : setSshConnection s connected = .ok s1) :
    ProperNames s1.heap := by
  unfold QSsh.setSshConnection handleSshConnectionEstablished at h
  split at h
  · simp only [Except.ok.injEq] at h
    rw [← h]
    exact hp
  · split at h
    · simp only [if_true, Except.ok.injEq] at h
      rw [← h]
      exact hp
    · simp only [Except.ok.injEq] at h
      rw [← h]
      exact hp

theorem properNames_connectionEstablished (s s1 : SftpFileSystemModel)
    (hp : ProperNames s.heap) (h : handleSshConnectionEstablished s = .ok s1) :
    ProperNames s1.heap := by
  unfold handleSshConnectionEstablished at h
  split at h
  · simp only [Except.ok.injEq] at h
    rw [← h]
    exact hp
  · simp at h

theorem properNames_statRootDirectory (s s1 : SftpFileSystemModel) (job : SftpJobId)
    (hp : ProperNames s.heap) (h : statRootDirectory s job = .ok s1) :
    ProperNames s1.heap := by
  unfold QSsh.statRootDirectory at h
  split at h
  · simp only [Except.ok.injEq] at h
    rw [← h]
    exact hp
  · simp at h

theorem properNames_setRootDirectory (s s1 : SftpFileSystemModel) (path : String)
    (job : SftpJobId) (hp : ProperNames s.heap) (h : setRootDirectory s path job = .ok s1) :
    ProperNames s1.heap := by
  unfold QSsh.setRootDirectory at h
  exact properNames_statRootDirectory _ s1 job (properNames_delete s.heap s.rootNode hp) h

theorem properNames_rowCount (s s1 : SftpFileSystemModel) (parent : QModelIndex)
    (job : SftpJobId) (n : Int) (hp : ProperNames s.heap)
    (h : rowCount s parent job = .ok (n, s1)) : ProperNames s1.heap := by
  unfold QSsh.rowCount at h
  split at h
  · simp only [Except.ok.injEq, Prod.mk.injEq] at h
    rw [← h.2]
    exact hp
  · split at h
    · simp only [Except.ok.injEq, Prod.mk.injEq] at h
      rw [← h.2]
      exact hp
    · split at h
      · simp only [Except.ok.injEq, Prod.mk.injEq] at h
        rw [← h.2]
        exact hp
      · split at h
        · simp only [Except.ok.injEq, Prod.mk.injEq] at h
          rw [← h.2]
          exact hp
        · split at h
          · simp at h
          · split at h
            · simp only [Except.ok.injEq, Prod.mk.injEq] at h
              rw [← h.2]
              exact hp
            · split at h
              · simp only [Except.ok.injEq, Prod.mk.injEq] at h
                rw [← h.2]
                exact hp
              · split at h
                · simp only [Except.ok.injEq, Prod.mk.injEq] at h
                  rw [← h.2]
                  refine properNames_write s.heap _ ?n0 _ hp ?ha ?hinfo ?hpar
                  case ha => assumption
                  all_goals rfl
                · simp at h

theorem properNames_update (s s1 : SftpFileSystemModel) (index : QModelIndex)
    (job : SftpJobId) (hp : ProperNames s.heap) (h : update s index job = .ok s1) :
    ProperNames s1.heap := by
  unfold QSsh.update at h
  split at h
  · simp at h
  · simp at h
  · split at h
    · simp at h
    · split at h
      · simp at h
      · split at h
        · simp only [Except.ok.injEq] at h
          rw [← h]
          refine properNames_write s.heap _ ?n0 _ hp ?ha ?hinfo ?hpar
          case ha => assumption
          all_goals rfl
        · simp at h

theorem properNames_handleFileInfo (fold : Char → Char) (s s1 : SftpFileSystemModel)
    (jobId : SftpJobId) (fileInfoList : List SftpFileInfo) (hp : ProperNames s.heap)
    (h : handleFileInfo fold s jobId fileInfoList = .ok s1) : ProperNames s1.heap := by
  unfold QSsh.handleFileInfo at h
  split at h
  · split at h
    · simp at h
    · simp only [Except.ok.injEq] at h
      rw [← h]
      exact properNames_alloc s.heap _ hp (fun hne => absurd rfl hne)
  · split at h
    · simp only [Except.ok.injEq] at h
      rw [← h]
      exact hp
    · split at h
      · simp at h
      · simp only [Except.ok.injEq] at h
        rw [← h]
        rename_i h2 hins
        exact properNames_insertEntries fold _ _ s.heap h2 hp
          (filteredList_names fileInfoList) hins

theorem properNames_handleSftpJobFinished (s s1 : SftpFileSystemModel) (jobId : SftpJobId)
    (errorMessage : String) (hp : ProperNames s.heap)
    (h : handleSftpJobFinished s jobId errorMessage = .ok s1) : ProperNames s1.heap := by
  unfold QSsh.handleSftpJobFinished at h
  split at h
  · simp only [Except.ok.injEq] at h
    rw [← h]
    exact hp
  · split at h
    · split at h
      · simp at h
      · split at h
        · simp at h
        · simp only [Except.ok.injEq] at h
          rw [← h]
          refine properNames_write s.heap _ ?n0 _ hp ?ha ?hinfo ?hpar
          case ha => assumption
          all_goals rfl
    · split at h
      · simp only [Except.ok.injEq] at h
        rw [← h]
        exact hp
      · simp only [Except.ok.injEq] at h
        rw [← h]
        exact hp

/-- C19. In every state reachable from the constructor through connection
set-up, `setRootDirectory`, `rowCount`, `update`, `handleFileInfo` and
`handleSftpJobFinished`, with whatever job ids, indexes and listings, no node
that has a parent (every node other than one built as the root has one) is named
`.` or `..`. -/
theorem no_dot_entries (fold : Char → Char) (s : SftpFileSystemModel)
    (hr : Reachable fold s) :
    ∀ a n, s.heap.node a = some n → n.parent ≠ none →
      n.fileInfo.name ≠ "." ∧ n.fileInfo.name ≠ ".." := by
  have hp : ProperNames s.heap := by
    induction hr with
    | init =>
      intro a n hn
      simp [SftpFileSystemModel.init, Heap.node] at hn
    | setSshConnection s s1 connected _ h ih => exact properNames_setSshConnection s s1 connected ih h
    | connectionEstablished s s1 _ h ih => exact properNames_connectionEstablished s s1 ih h
    | channelInitialized s s1 job _ h ih => exact properNames_statRootDirectory s s1 job ih h
    | setRootDirectory s s1 path job _ h ih => exact properNames_setRootDirectory s s1 path job ih h
    | rowCount s s1 parent job n _ h ih => exact properNames_rowCount s s1 parent job n ih h
    | update s s1 index job _ h ih => exact properNames_update s s1 index job ih h
    | handleFileInfo s s1 jobId fileInfoList _ h ih =>
      exact properNames_handleFileInfo fold s s1 jobId fileInfoList ih h
    | handleSftpJobFinished s s1 jobId errorMessage _ h ih =>
      exact properNames_handleSftpJobFinished s s1 jobId errorMessage ih h
  exact hp

/-- Witness of `no_dot_entries`: the listing of `/home` answered with `.`, `..`
and `a`; only `a` becomes a node. -/
theorem no_dot_entries_witness :
    ∃ s1, handleFileInfo asciiFold scenarioListing 2 dotListing = .ok s1 ∧
      (childrenOf s1.heap 0).bind (childNames s1.heap) = some ["a"] ∧
      s1.heap.length = 2 ∧
      ∀ a n, s1.heap.node a = some n → n.parent ≠ none →
        n.fileInfo.name ≠ "." ∧ n.fileInfo.name ≠ ".." :=
  ⟨_, rfl, rfl, rfl,
    no_dot_entries asciiFold _
      (Reachable.handleFileInfo _ _ 2 dotListing reachable_scenarioListing rfl)⟩

/-! ## C20: the paths of the nodes -/

/-- C20. A listing delivered for a job registered against the directory `D`
(the job not being the pending root-stat job, the children of `D` alive):
`handleFileInfo` succeeds and adds one cell per entry other than `.` and `..`;
the node built for an entry carries the entry, points back to `D`, is among the
children of `D`, and its path is the path of `D`, then `/` exactly when that path
does not already end in `/`, then the name of the entry; so below the root `/`
the path is `/` followed by the name.  The root node a stat answer builds has
the configured root directory as its path. -/
theorem child_paths (fold : Char → Char) (s : SftpFileSystemModel) (jobId : SftpJobId)
    (fileInfoList : List SftpFileInfo) (D : Addr) (dn : SftpFileNode) (d : SftpDirNode)
    (hjob : s.lsOps.value jobId = some D) (hstat : jobId ≠ s.statJobId)
    (hD : s.heap.node D = some dn) (hd : dn.asDir = some d)
    (hlive : ∀ c ∈ d.children, (s.heap.node c).isSome = true) :
    (∃ (s1 : SftpFileSystemModel) (l : List Addr),
      handleFileInfo fold s jobId fileInfoList = .ok s1 ∧
      s1.heap.length = s.heap.length + (filteredList fileInfoList).length ∧
      childrenOf s1.heap D = some l ∧
      ∀ i fi, (filteredList fileInfoList).get? i = some fi →
        ∃ cn, s1.heap.node (s.heap.length + i) = some cn ∧ s.heap.length + i ∈ l ∧
          cn.fileInfo = fi ∧ cn.parent = some D ∧
          (endsWithSlash dn.path = true → cn.path = dn.path ++ fi.name) ∧
          (endsWithSlash dn.path = false → cn.path = dn.path ++ "/" ++ fi.name) ∧
          (dn.path = "/" → cn.path = "/" ++ fi.name)) ∧
    (∀ (fi : SftpFileInfo) (rest : List SftpFileInfo),
      ∃ s1 rn, handleFileInfo fold s s.statJobId (fi :: rest) = .ok s1 ∧
        s1.rootNode = some s.heap.length ∧ s1.heap.node s.heap.length = some rn ∧
        rn.path = s.rootDirectory) := by
  constructor
  · obtain ⟨h', l, hins, hlen, hD', hnodes, _, _, _⟩ :=
      insertEntries_nodes fold D (filteredList fileInfoList) s.heap dn d hD hd hlive
    have hpaths : ∀ i fi, (filteredList fileInfoList).get? i = some fi →
        ∃ cn, h'.node (s.heap.length + i) = some cn ∧ s.heap.length + i ∈ l ∧
          cn.fileInfo = fi ∧ cn.parent = some D ∧
          (endsWithSlash dn.path = true → cn.path = dn.path ++ fi.name) ∧
          (endsWithSlash dn.path = false → cn.path = dn.path ++ "/" ++ fi.name) ∧
          (dn.path = "/" → cn.path = "/" ++ fi.name) := by
      intro i fi hi
      obtain ⟨hnode, hmem⟩ := hnodes i fi hi
      refine ⟨_, hnode, hmem, rfl, rfl, ?_, ?_, ?_⟩
      · intro he
        simp [newChildNode, he]
      · intro he
        simp [newChildNode, he]
      · intro hp
        have he : endsWithSlash "/" = true := rfl
        simp [newChildNode, hp, he]
    by_cases hnil : (filteredList fileInfoList).isEmpty = true
    · have hfl : filteredList fileInfoList = [] := by simpa using hnil
      rw [hfl] at hins hlen
      simp only [insertEntries, Except.ok.injEq] at hins
      subst hins
      refine ⟨s, l, by simp [handleFileInfo, hstat, hfl], by simp [hfl], ?_, hpaths⟩
      simp [childrenOf, hD']
    · refine ⟨{ s with heap := h',
                       emitted := s.emitted ++
                         [Signal.layoutAboutToBeChanged, Signal.layoutChanged] },
        l, by simp [handleFileInfo, hstat, hnil, hjob, hins], hlen, ?_, hpaths⟩
      simp [childrenOf, hD']
  · intro fi rest
    refine ⟨{ s with
        emitted := s.emitted ++ [Signal.rowsAboutToBeInserted 0 0, Signal.rowsInserted 0 0],
        rootNode := some s.heap.length,
        heap := (s.heap.alloc
          { path := s.rootDirectory,
            fileInfo := { fi with name := if s.rootDirectory = "/" then s.rootDirectory
                                          else fileName s.rootDirectory },
            parent := none,
            asDir := some { lsState := LsState.LsNotYetCalled, children := [] } }).2 },
      _, ?_, rfl, Heap.node_alloc s.heap _, rfl⟩
    simp only [handleFileInfo, if_true, List.head?_cons]

/-- Witness of `child_paths`: the listing of `/home` in the scenario; the three
nodes get the paths `/home/b.txt`, `/home/A` and `/home/a.txt`. -/
theorem child_paths_witness :
    (∃ (s1 : SftpFileSystemModel) (l : List Addr),
      handleFileInfo asciiFold scenarioListing 2 homeListing = .ok s1 ∧
      s1.heap.length = scenarioListing.heap.length + (filteredList homeListing).length ∧
      childrenOf s1.heap 0 = some l ∧
      ∀ i fi, (filteredList homeListing).get? i = some fi →
        ∃ cn, s1.heap.node (scenarioListing.heap.length + i) = some cn ∧
          scenarioListing.heap.length + i ∈ l ∧
          cn.fileInfo = fi ∧ cn.parent = some 0 ∧
          (endsWithSlash "/home" = true → cn.path = "/home" ++ fi.name) ∧
          (endsWithSlash "/home" = false → cn.path = "/home" ++ "/" ++ fi.name) ∧
          ("/home" = "/" → cn.path = "/" ++ fi.name)) ∧
    (handleFileInfo asciiFold scenarioListing 2 homeListing).map
      (fun s1 => [1, 2, 3].map (fun a => (s1.heap.node a).map (fun n => n.path))) =
      .ok [some "/home/b.txt", some "/home/A", some "/home/a.txt"] :=
  ⟨(child_paths asciiFold scenarioListing 2 homeListing 0 (homeNode LsState.LsRunning [])
      { lsState := LsState.LsRunning, children := [] } rfl (by decide) rfl rfl
      (fun c hc => by simp at hc)).1,
   rfl⟩

/-! ## C21: `setRootDirectory` without a channel -/

/-- C21 (the code departs from the claim).  `setRootDirectory` on the freshly
constructed model, which has no connection and no channel, does not end
silently: after the reset `statRootDirectory` calls `statFile` through the null
channel pointer.  So it is in every state without a channel, whatever the path
and whatever root the state had; `shutDown`, by contrast, tests the channel
pointer before using it. -/
theorem setRootDirectory_without_channel_faults :
    SftpFileSystemModel.init.sftpChannel = false ∧
    SftpFileSystemModel.init.sshConnection = false ∧
    setRootDirectory SftpFileSystemModel.init "/home" 1 = .error Fault.nullDeref ∧
    (∀ (s : SftpFileSystemModel) (path : String) (job : SftpJobId), s.sftpChannel = false →
      setRootDirectory s path job = .error Fault.nullDeref) ∧
    (shutDown SftpFileSystemModel.init).channelCalls = [] := by
  refine ⟨rfl, rfl, rfl, ?_, rfl⟩
  intro s path job hch
  simp [setRootDirectory, statRootDirectory, hch]

/-! ## C22: where `insertChild` puts the new node -/

theorem ucstricmp_lt_le_trans (fold : Char → Char) :
    ∀ a b c : List Char, ucstricmp fold a b < 0 → ucstricmp fold b c ≤ 0 →
      ucstricmp fold a c < 0
  | [], [], _ => by intro h; simp [ucstricmp] at h
  | [], _ :: _, [] => by intro _ h; simp [ucstricmp] at h
  | [], _ :: _, _ :: _ => by intros; simp [ucstricmp]
  | _ :: _, [], _ => by intro h; simp [ucstricmp] at h
  | _ :: _, _ :: _, [] => by intro _ h; simp [ucstricmp] at h
  | a :: as, b :: bs, c :: cs => by
    intro h1 h2
    unfold ucstricmp at h1 h2 ⊢
    by_cases hab : (fold a).toNat = (fold b).toNat
    · rw [if_pos hab] at h1
      by_cases hbc : (fold b).toNat = (fold c).toNat
      · rw [if_pos hbc] at h2
        rw [if_pos (hab.trans hbc)]
        exact ucstricmp_lt_le_trans fold as bs cs h1 h2
      · rw [if_neg hbc] at h2
        rw [if_neg (fun e => hbc (hab.symm.trans e))]
        omega
    · rw [if_neg hab] at h1
      by_cases hbc : (fold b).toNat = (fold c).toNat
      · rw [if_pos hbc] at h2
        rw [if_neg (fun e => hab (e.trans hbc.symm))]
        omega
      · rw [if_neg hbc] at h2
        have hac : ¬ (fold a).toNat = (fold c).toNat := by omega
        rw [if_neg hac]
        omega

theorem ucstricmp_swap_neg (fold : Char → Char) :
    ∀ a b : List Char, ucstricmp fold a b < 0 → 0 < ucstricmp fold b a
  | [], [] => by simp [ucstricmp]
  | [], _ :: _ => by simp [ucstricmp]
  | _ :: _, [] => by simp [ucstricmp]
  | a :: as, b :: bs => by
    intro h
    unfold ucstricmp at h ⊢
    by_cases hab : (fold a).toNat = (fold b).toNat
    · rw [if_pos hab] at h
      rw [if_pos hab.symm]
      exact ucstricmp_swap_neg fold as bs h
    · rw [if_neg hab] at h
      rw [if_neg (fun e => hab e.symm)]
      omega

/-- The comparison read from the other side: `s` is not greater than `t` exactly
when `t` is not smaller than `s`. -/
theorem qCompare_le_iff (fold : Char → Char) (s t : String) :
    qCompare fold s t ≤ 0 ↔ 0 ≤ qCompare fold t s := by
  constructor
  · intro h
    by_contra hlt
    have := ucstricmp_swap_neg fold t.toList s.toList (not_le.mp hlt)
    unfold qCompare at h
    omega
  · intro h
    by_contra hgt
    have := ucstricmp_swap fold s.toList t.toList (not_le.mp hgt)
    unfold qCompare at h
    omega

theorem qCompare_lt_le_trans (fold : Char → Char) (s t u : String)
    (h1 : qCompare fold s t < 0) (h2 : qCompare fold t u ≤ 0) : qCompare fold s u < 0 :=
  ucstricmp_lt_le_trans fold _ _ _ h1 h2

/-- The scan of `insertChild` passes every child the new name compares greater
than and stops in front of the first child it does not. -/
theorem insertLoop_at (fold : Char → Char) (h : Heap) (nn : String) (new : Addr) (c : Addr)
    (cn : SftpFileNode) (post : List Addr) (hc : h.node c = some cn)
    (hle : qCompare fold nn cn.fileInfo.name ≤ 0) :
    ∀ pre : List Addr,
      (∀ x ∈ pre, ∃ xn, h.node x = some xn ∧ qCompare fold nn xn.fileInfo.name > 0) →
      insertLoop fold h nn new (pre ++ c :: post) = .ok (pre ++ new :: c :: post)
  | [], _ => by
    have hng : ¬ qCompare fold nn cn.fileInfo.name > 0 := not_lt.mpr hle
    simp [insertLoop, hc, hng]
  | x :: pre, hpre => by
    obtain ⟨xn, hx, hgt⟩ := hpre x (List.mem_cons_self x pre)
    have ih := insertLoop_at fold h nn new c cn post hc hle pre
      (fun y hy => hpre y (List.mem_cons_of_mem x hy))
    rw [List.cons_append]
    unfold insertLoop
    simp only [hx]
    rw [if_pos hgt, ih]
    rfl

/-- The scan of `insertChild` appends the new node when the new name compares
greater than the name of every child. -/
theorem insertLoop_end (fold : Char → Char) (h : Heap) (nn : String) (new : Addr) :
    ∀ cs : List Addr,
      (∀ x ∈ cs, ∃ xn, h.node x = some xn ∧ qCompare fold nn xn.fileInfo.name > 0) →
      insertLoop fold h nn new cs = .ok (cs ++ [new])
  | [], _ => rfl
  | x :: cs, hcs => by
    obtain ⟨xn, hx, hgt⟩ := hcs x (List.mem_cons_self x cs)
    have ih := insertLoop_end fold h nn new cs (fun y hy => hcs y (List.mem_cons_of_mem x hy))
    rw [List.cons_append]
    unfold insertLoop
    simp only [hx]
    rw [if_pos hgt, ih]

/-- The children of a live list split into those the scan of `insertChild`
passes and the rest, which starts with the child the scan stops at. -/
theorem insertLoop_split (fold : Char → Char) (h : Heap) (nn : String) :
    ∀ cs : List Addr, (∀ c ∈ cs, (h.node c).isSome = true) →
      ∃ before after, cs = before ++ after ∧
        (∀ x ∈ before, ∃ xn, h.node x = some xn ∧ qCompare fold nn xn.fileInfo.name > 0) ∧
        (∀ c rest, after = c :: rest →
          ∃ cn, h.node c = some cn ∧ qCompare fold nn cn.fileInfo.name ≤ 0)
  | [], _ => ⟨[], [], rfl, fun x hx => by simp at hx, fun c rest hc => by simp at hc⟩
  | c :: cs, hlive => by
    obtain ⟨cn, hcn⟩ := Option.isSome_iff_exists.mp (hlive c (List.mem_cons_self c cs))
    by_cases hgt : qCompare fold nn cn.fileInfo.name > 0
    · obtain ⟨before, after, hsplit, hbefore, hafter⟩ := insertLoop_split fold h nn cs
        (fun x hx => hlive x (List.mem_cons_of_mem c hx))
      refine ⟨c :: before, after, by rw [hsplit]; rfl, ?_, hafter⟩
      intro x hx
      rcases List.mem_cons.mp hx with rfl | hx
      · exact ⟨cn, hcn, hgt⟩
      · exact hbefore x hx
    · refine ⟨[], c :: cs, rfl, fun x hx => by simp at hx, ?_⟩
      intro c2 rest hc2
      simp only [List.cons.injEq] at hc2
      rw [← hc2.1]
      exact ⟨cn, hcn, not_lt.mp hgt⟩

/-- The result of the scan of `insertChild` over a live list, in terms of the
split of the list. -/
theorem insertLoop_position (fold : Char → Char) (h : Heap) (nn : String) (new : Addr)
    (cs : List Addr) (hlive : ∀ c ∈ cs, (h.node c).isSome = true) :
    ∃ before after, cs = before ++ after ∧
      insertLoop fold h nn new cs = .ok (before ++ new :: after) ∧
      (∀ x ∈ before, ∃ xn, h.node x = some xn ∧ qCompare fold nn xn.fileInfo.name > 0) ∧
      (∀ c rest, after = c :: rest →
        ∃ cn, h.node c = some cn ∧ qCompare fold nn cn.fileInfo.name ≤ 0) := by
  obtain ⟨before, after, hsplit, hbefore, hafter⟩ := insertLoop_split fold h nn cs hlive
  refine ⟨before, after, hsplit, ?_, hbefore, hafter⟩
  cases after with
  | nil =>
    rw [hsplit, List.append_nil]
    exact insertLoop_end fold h nn new before hbefore
  | cons c rest =>
    obtain ⟨cn, hcn, hle⟩ := hafter c rest rfl
    rw [hsplit]
    exact insertLoop_at fold h nn new c cn rest hcn hle before hbefore

/-- Sorted names, told of the nodes of the list. -/
theorem sortedCI_nodes (fold : Char → Char) (h : Heap) :
    ∀ (l : List Addr) (names : List String), childNames h l = some names →
      SortedCI fold names →
      l.Pairwise (fun a b => ∀ an bn : SftpFileNode, h.node a = some an → h.node b = some bn →
        qCompare fold an.fileInfo.name bn.fileInfo.name ≤ 0)
  | [], _, _, _ => List.Pairwise.nil
  | a :: as, names, hnames, hsorted => by
    obtain ⟨n, ns, hn, hns, rfl⟩ := (childNames_cons h a as names).mp hnames
    unfold SortedCI at hsorted
    rw [List.pairwise_cons] at hsorted
    refine List.Pairwise.cons ?_ (sortedCI_nodes fold h as ns hns hsorted.2)
    intro b hb an bn han hbn
    have hmap := childNames_eq_map h as ns hns
    have hbmem : nameAt h b ∈ as.map (nameAt h) := List.mem_map_of_mem _ hb
    rw [hmap, nameAt_eq h b bn hbn] at hbmem
    obtain ⟨m, hm, hmeq⟩ := List.mem_map.mp hbmem
    simp only [Option.some.injEq] at hmeq
    rw [nameAt_eq h a an han] at hn
    simp only [Option.some.injEq] at hn
    rw [hn, ← hmeq]
    exact hsorted.1 m hm


/-- C22. A directory whose children carry sorted names and a live node that is
not among them: `insertChild` succeeds and the new child list is the old one
with the new node put in at one place, right after the children the new name
compares greater than (ignoring case; their names compare smaller than the new
one) and right before the first child it does not (whose name compares greater
than or equal to the new one), at the end when there is no such child; so the list is longer by one, the
old children keep their order, and no other node changes.  When the new name
equals the name of a child ignoring case, and of no earlier child, the new
node comes right before that child. -/
theorem insertChild_position (fold : Char → Char) (h : Heap) (dir newFileNode : Addr)
    (dn nn : SftpFileNode) (d : SftpDirNode) (names : List String)
    (hdir : h.node dir = some dn) (hd : dn.asDir = some d)
    (hnames : childNames h d.children = some names) (hsorted : SortedCI fold names)
    (hnew : h.node newFileNode = some nn) (hfresh : newFileNode ∉ d.children) :
    ∃ (h' : Heap) (before after : List Addr),
      insertChild fold h dir newFileNode = .ok h' ∧
      d.children = before ++ after ∧
      childrenOf h' dir = some (before ++ newFileNode :: after) ∧
      (∀ x ∈ before, ∃ xn, h.node x = some xn ∧
        qCompare fold nn.fileInfo.name xn.fileInfo.name > 0 ∧
        qCompare fold xn.fileInfo.name nn.fileInfo.name < 0) ∧
      (∀ c rest, after = c :: rest →
        ∃ cn, h.node c = some cn ∧ qCompare fold nn.fileInfo.name cn.fileInfo.name ≤ 0 ∧
          0 ≤ qCompare fold cn.fileInfo.name nn.fileInfo.name) ∧
      (before ++ newFileNode :: after).length = d.children.length + 1 ∧
      d.children.Sublist (before ++ newFileNode :: after) ∧
      (∀ b, b ≠ dir → h'.node b = h.node b) ∧
      (∀ (pre post : List Addr) (c : Addr) (cn : SftpFileNode),
        d.children = pre ++ c :: post → h.node c = some cn →
        qCompare fold nn.fileInfo.name cn.fileInfo.name = 0 →
        (∀ x ∈ pre, ∀ xn, h.node x = some xn →
          qCompare fold nn.fileInfo.name xn.fileInfo.name ≠ 0) →
        childrenOf h' dir = some (pre ++ newFileNode :: c :: post)) := by
  have hlive : ∀ c ∈ d.children, (h.node c).isSome = true :=
    childNames_live h d.children names hnames
  obtain ⟨before, after, hsplit, hloop, hbefore, hafter⟩ :=
    insertLoop_position fold h nn.fileInfo.name newFileNode d.children hlive
  have hcontains : d.children.contains newFileNode = false := by
    simpa using hfresh
  have hins : insertChild fold h dir newFileNode =
      .ok (h.write dir { dn with asDir := some { d with children := before ++ newFileNode :: after } }) := by
    unfold insertChild
    simp only [hdir, hd, hcontains]
    by_cases he : d.children.isEmpty = true
    · have hnil : d.children = [] := by simpa using he
      have hb : before = [] ∧ after = [] := by
        rw [hnil] at hsplit
        exact List.append_eq_nil.mp hsplit.symm
      simp [he, hb.1, hb.2]
    · simp [he, hnew, hloop]
  have hnode : (h.write dir
      { dn with asDir := some { d with children := before ++ newFileNode :: after } }).node dir =
      some { dn with asDir := some { d with children := before ++ newFileNode :: after } } := by
    rw [Heap.node_write h dir dir _ dn hdir]
    simp
  have hchildren : childrenOf (h.write dir
      { dn with asDir := some { d with children := before ++ newFileNode :: after } }) dir =
      some (before ++ newFileNode :: after) := by
    simp only [childrenOf, hnode]
    rfl
  refine ⟨_, before, after, hins, hsplit, hchildren, ?_, ?_, ?_, ?_, ?_, ?_⟩
  · intro x hx
    obtain ⟨xn, hxn, hgt⟩ := hbefore x hx
    exact ⟨xn, hxn, hgt, ucstricmp_swap fold _ _ hgt⟩
  · intro c rest hc
    obtain ⟨cn, hcn, hle⟩ := hafter c rest hc
    exact ⟨cn, hcn, hle, (qCompare_le_iff fold _ _).mp hle⟩
  · rw [hsplit]
    simp only [List.length_append, List.length_cons]
    omega
  · rw [hsplit]
    exact List.Sublist.append (List.Sublist.refl before) (List.sublist_cons_self newFileNode after)
  · intro b hb
    rw [Heap.node_write h dir b _ dn hdir]
    simp [hb]
  · intro pre post c cn hpre hc heq hfirst
    have hpair := sortedCI_nodes fold h d.children names hnames hsorted
    rw [hpre] at hpair
    have hcross := (List.pairwise_append.mp hpair).2.2
    have hgt : ∀ x ∈ pre, ∃ xn, h.node x = some xn ∧
        qCompare fold nn.fileInfo.name xn.fileInfo.name > 0 := by
      intro x hx
      obtain ⟨xn, hxn⟩ := Option.isSome_iff_exists.mp
        (hlive x (by rw [hpre]; exact List.mem_append_left _ hx))
      refine ⟨xn, hxn, ?_⟩
      have hxc := hcross x hx c (List.mem_cons_self c post) xn cn hxn hc
      have hne := hfirst x hx xn hxn
      by_contra hng
      have hlt : qCompare fold nn.fileInfo.name xn.fileInfo.name < 0 :=
        lt_of_le_of_ne (not_lt.mp hng) hne
      have := qCompare_lt_le_trans fold _ _ _ hlt hxc
      omega
    have hloop2 := insertLoop_at fold h nn.fileInfo.name newFileNode c cn post hc
      (le_of_eq heq) pre hgt
    rw [← hpre, hloop] at hloop2
    simp only [Except.ok.injEq] at hloop2
    rw [hchildren, hloop2]

/-- Witness of `insertChild_position`: the children `A`, `a.txt`, `b.txt` of
`/home` (addresses 2, 3, 1) and a new node `A.TXT` (address 4); it comes right
before `a.txt`. -/
theorem insertChild_position_witness :
    (insertChild asciiFold heapWithNewEntry 0 4).map (fun h' => childrenOf h' 0) =
      .ok (some [2, 4, 3, 1]) ∧
    ∃ (h' : Heap) (before after : List Addr),
      insertChild asciiFold heapWithNewEntry 0 4 = .ok h' ∧
      [2, 3, 1] = before ++ after ∧
      childrenOf h' 0 = some (before ++ 4 :: after) ∧
      (∀ x ∈ before, ∃ xn, heapWithNewEntry.node x = some xn ∧
        qCompare asciiFold "A.TXT" xn.fileInfo.name > 0 ∧
        qCompare asciiFold xn.fileInfo.name "A.TXT" < 0) ∧
      (∀ c rest, after = c :: rest →
        ∃ cn, heapWithNewEntry.node c = some cn ∧
          qCompare asciiFold "A.TXT" cn.fileInfo.name ≤ 0 ∧
          0 ≤ qCompare asciiFold cn.fileInfo.name "A.TXT") ∧
      (before ++ 4 :: after).length = 3 + 1 ∧
      [2, 3, 1].Sublist (before ++ 4 :: after) ∧
      (∀ b, b ≠ 0 → h'.node b = heapWithNewEntry.node b) ∧
      (∀ (pre post : List Addr) (c : Addr) (cn : SftpFileNode),
        [2, 3, 1] = pre ++ c :: post → heapWithNewEntry.node c = some cn →
        qCompare asciiFold "A.TXT" cn.fileInfo.name = 0 →
        (∀ x ∈ pre, ∀ xn, heapWithNewEntry.node x = some xn →
          qCompare asciiFold "A.TXT" xn.fileInfo.name ≠ 0) →
        childrenOf h' 0 = some (pre ++ 4 :: c :: post)) :=
  ⟨rfl,
   insertChild_position asciiFold heapWithNewEntry 0 4 (homeNode LsState.LsRunning [2, 3, 1])
    (newChildNode 0 "/home" { name := "A.TXT", type := SftpFileType.FileTypeRegular, size := 5 })
    { lsState := LsState.LsRunning, children := [2, 3, 1] } ["A", "a.txt", "b.txt"]
    rfl rfl rfl (by unfold SortedCI; decide) rfl (by decide)⟩

/-! ## C23: the end of a job leaves the tree alone -/

theorem keepsDirs_refl (h : Heap) : KeepsDirs h h :=
  fun _ x hx hd => ⟨x, hx, hd⟩

theorem keepsDirs_trans (h1 h2 h3 : Heap) (h12 : KeepsDirs h1 h2) (h23 : KeepsDirs h2 h3) :
    KeepsDirs h1 h3 := by
  intro b x hx hd
  obtain ⟨x2, hx2, hd2⟩ := h12 b x hx hd
  exact h23 b x2 hx2 hd2

theorem keepsDirs_write (h : Heap) (a : Addr) (n0 n : SftpFileNode)
    (ha : h.node a = some n0) (hdir : n.asDir.isSome = true) : KeepsDirs h (h.write a n) := by
  intro b x hx hd
  rw [Heap.node_write h a b n n0 ha]
  by_cases hb : b = a
  · exact ⟨n, by simp [hb], hdir⟩
  · exact ⟨x, by simp [hb, hx], hd⟩

theorem keepsDirs_alloc (h : Heap) (n : SftpFileNode) : KeepsDirs h (h.alloc n).2 :=
  fun b x hx hd => ⟨x, Heap.node_append_left h _ b x hx, hd⟩

theorem keepsDirs_insertChild (fold : Char → Char) (h h2 : Heap) (dir new : Addr)
    (hins : insertChild fold h dir new = .ok h2) : KeepsDirs h h2 := by
  unfold QSsh.insertChild at hins
  cases hdn : h.node dir with
  | none => simp [hdn] at hins
  | some dn =>
    cases hd : dn.asDir with
    | none => simp [hdn, hd] at hins
    | some d =>
      simp only [hdn, hd] at hins
      split at hins
      · simp only [Except.ok.injEq] at hins
        rw [← hins]
        exact keepsDirs_refl h
      · split at hins
        · simp only [Except.ok.injEq] at hins
          rw [← hins]
          exact keepsDirs_write h dir dn _ hdn rfl
        · cases hnn : h.node new with
          | none => simp [hnn] at hins
          | some nn =>
            simp only [hnn] at hins
            cases hl : insertLoop fold h nn.fileInfo.name new d.children with
            | error e => simp [hl] at hins
            | ok l =>
              simp only [hl, Except.ok.injEq] at hins
              rw [← hins]
              exact keepsDirs_write h dir dn _ hdn rfl

theorem keepsDirs_insertEntries (fold : Char → Char) (parentNode : Option Addr) :
    ∀ (entries : List SftpFileInfo) (h h2 : Heap),
      insertEntries fold parentNode h entries = .ok h2 → KeepsDirs h h2
  | [], h, h2, hins => by
    simp only [QSsh.insertEntries, Except.ok.injEq] at hins
    rw [← hins]
    exact keepsDirs_refl h
  | fi :: rest, h, h2, hins => by
    unfold QSsh.insertEntries at hins
    cases hpn : parentNode with
    | none => simp [hpn] at hins
    | some p =>
      simp only [hpn] at hins
      cases hnode : h.node p with
      | none => simp [hnode] at hins
      | some pn =>
        simp only [hnode] at hins
        cases hic : QSsh.insertChild fold (h.alloc (newChildNode p pn.path fi)).2 p h.length with
        | error e => simp [hic] at hins
        | ok h1 =>
          simp only [hic] at hins
          rw [← hpn] at hins
          exact keepsDirs_trans _ _ _
            (keepsDirs_trans _ _ _ (keepsDirs_alloc h _) (keepsDirs_insertChild fold _ h1 p h.length hic))
            (keepsDirs_insertEntries fold parentNode rest h1 h2 hins)

/-- A step keeps the registry pointing to live directory nodes when it keeps the
directory nodes and every pointer it registers is one. -/
theorem registryLive_step (s s1 : SftpFileSystemModel) (hreg : RegistryLive s)
    (hk : KeepsDirs s.heap s1.heap)
    (hfrom : ∀ j a, s1.lsOps.value j = some a →
      s.lsOps.value j = some a ∨ ∃ n, s.heap.node a = some n ∧ n.asDir.isSome = true) :
    RegistryLive s1 := by
  intro j a hj
  have hold : ∃ n, s.heap.node a = some n ∧ n.asDir.isSome = true := by
    rcases hfrom j a hj with h0 | h0
    · obtain ⟨n, d, hn, hd⟩ := hreg j a h0
      exact ⟨n, hn, by rw [hd]; rfl⟩
    · exact h0
  obtain ⟨n, hn, hd⟩ := hold
  obtain ⟨x2, hx2, hd2⟩ := hk a n hn hd
  obtain ⟨d2, hd2⟩ := Option.isSome_iff_exists.mp hd2
  exact ⟨x2, d2, hx2, hd2⟩

theorem registryFrom_insert (s : SftpFileSystemModel) (job : SftpJobId) (a : Addr)
    (n : SftpFileNode) (ha : s.heap.node a = some n) (hdir : n.asDir.isSome = true) :
    ∀ j b, (s.lsOps.insert job a).value j = some b →
      s.lsOps.value j = some b ∨ ∃ n, s.heap.node b = some n ∧ n.asDir.isSome = true := by
  intro j b hj
  by_cases hjob : j = job
  · rw [hjob, DirNodeHash.value_insert_self] at hj
    simp only [Option.some.injEq] at hj
    rw [← hj]
    exact Or.inr ⟨n, ha, hdir⟩
  · rw [DirNodeHash.value_insert_other _ _ _ _ hjob] at hj
    exact Or.inl hj

theorem registryFrom_erase (s : SftpFileSystemModel) (job : SftpJobId) :
    ∀ j b, (s.lsOps.erase job).value j = some b →
      s.lsOps.value j = some b ∨ ∃ n, s.heap.node b = some n ∧ n.asDir.isSome = true := by
  intro j b hj
  by_cases hjob : j = job
  · rw [hjob, DirNodeHash.value_erase_self] at hj
    simp at hj
  · rw [DirNodeHash.value_erase_other _ _ _ hjob] at hj
    exact Or.inl hj

theorem registryLive_setSshConnection (s s1 : SftpFileSystemModel) (connected : Bool)
    (hp : RegistryLive s) (h : setSshConnection s connected = .ok s1) :
    RegistryLive s1 := by
  unfold QSsh.setSshConnection handleSshConnectionEstablished at h
  split at h
  · simp only [Except.ok.injEq] at h
    rw [← h]
    exact hp
  · split at h
    · simp only [if_true, Except.ok.injEq] at h
      rw [← h]
      exact hp
    · simp only [Except.ok.injEq] at h
      rw [← h]
      exact hp

theorem registryLive_connectionEstablished (s s1 : SftpFileSystemModel)
    (hp : RegistryLive s) (h : handleSshConnectionEstablished s = .ok s1) :
    RegistryLive s1 := by
  unfold handleSshConnectionEstablished at h
  split at h
  · simp only [Except.ok.injEq] at h
    rw [← h]
    exact hp
  · simp at h

theorem registryLive_statRootDirectory (s s1 : SftpFileSystemModel) (job : SftpJobId)
    (hp : RegistryLive s) (h : statRootDirectory s job = .ok s1) :
    RegistryLive s1 := by
  unfold QSsh.statRootDirectory at h
  split at h
  · simp only [Except.ok.injEq] at h
    rw [← h]
    exact hp
  · simp at h

theorem registryLive_setRootDirectory (s s1 : SftpFileSystemModel) (path : String)
    (job : SftpJobId) (h : setRootDirectory s path job = .ok s1) :
    RegistryLive s1 := by
  unfold QSsh.setRootDirectory at h
  refine registryLive_statRootDirectory _ s1 job ?_ h
  intro j a hj
  simp [DirNodeHash.value] at hj

theorem registryLive_rowCount (s s1 : SftpFileSystemModel) (parent : QModelIndex)
    (job : SftpJobId) (n : Int) (hp : RegistryLive s)
    (h : rowCount s parent job = .ok (n, s1)) : RegistryLive s1 := by
  unfold QSsh.rowCount at h
  split at h
  · simp only [Except.ok.injEq, Prod.mk.injEq] at h
    rw [← h.2]
    exact hp
  · split at h
    · simp only [Except.ok.injEq, Prod.mk.injEq] at h
      rw [← h.2]
      exact hp
    · split at h
      · simp only [Except.ok.injEq, Prod.mk.injEq] at h
        rw [← h.2]
        exact hp
      · split at h
        · simp only [Except.ok.injEq, Prod.mk.injEq] at h
          rw [← h.2]
          exact hp
        · split at h
          · simp at h
          · split at h
            · simp only [Except.ok.injEq, Prod.mk.injEq] at h
              rw [← h.2]
              exact hp
            · split at h
              · simp only [Except.ok.injEq, Prod.mk.injEq] at h
                rw [← h.2]
                exact hp
              · split at h
                · simp only [Except.ok.injEq, Prod.mk.injEq] at h
                  rw [← h.2]
                  refine registryLive_step s _ hp ?hk ?hfrom
                  case hk =>
                    refine keepsDirs_write s.heap _ ?n0 _ ?ha ?hdir
                    case ha => assumption
                    case hdir => rfl
                  case hfrom =>
                    refine registryFrom_insert s job _ ?n0 ?ha ?hdir
                    case ha => assumption
                    case hdir => simp [*]
                · simp at h

theorem registryLive_update (s s1 : SftpFileSystemModel) (index : QModelIndex)
    (job : SftpJobId) (hp : RegistryLive s) (h : update s index job = .ok s1) :
    RegistryLive s1 := by
  unfold QSsh.update at h
  split at h
  · simp at h
  · simp at h
  · split at h
    · simp at h
    · split at h
      · simp at h
      · split at h
        · simp only [Except.ok.injEq] at h
          rw [← h]
          refine registryLive_step s _ hp ?hk ?hfrom
          case hk =>
            refine keepsDirs_write s.heap _ ?n0 _ ?ha ?hdir
            case ha => assumption
            case hdir => rfl
          case hfrom =>
            refine registryFrom_insert s job _ ?n0 ?ha ?hdir
            case ha => assumption
            case hdir => simp [*]
        · simp at h

theorem registryLive_handleFileInfo (fold : Char → Char) (s s1 : SftpFileSystemModel)
    (jobId : SftpJobId) (fileInfoList : List SftpFileInfo) (hp : RegistryLive s)
    (h : handleFileInfo fold s jobId fileInfoList = .ok s1) : RegistryLive s1 := by
  unfold QSsh.handleFileInfo at h
  split at h
  · split at h
    · simp at h
    · simp only [Except.ok.injEq] at h
      rw [← h]
      exact registryLive_step s _ hp (keepsDirs_alloc s.heap _) (fun j a hj => Or.inl hj)
  · split at h
    · simp only [Except.ok.injEq] at h
      rw [← h]
      exact hp
    · split at h
      · simp at h
      · simp only [Except.ok.injEq] at h
        rw [← h]
        rename_i h2 hins
        exact registryLive_step s _ hp (keepsDirs_insertEntries fold _ _ s.heap h2 hins)
          (fun j a hj => Or.inl hj)

theorem registryLive_handleSftpJobFinished (s s1 : SftpFileSystemModel) (jobId : SftpJobId)
    (errorMessage : String) (hp : RegistryLive s)
    (h : handleSftpJobFinished s jobId errorMessage = .ok s1) : RegistryLive s1 := by
  unfold QSsh.handleSftpJobFinished at h
  split at h
  · simp only [Except.ok.injEq] at h
    rw [← h]
    exact hp
  · split at h
    · split at h
      · simp at h
      · split at h
        · simp at h
        · simp only [Except.ok.injEq] at h
          rw [← h]
          refine registryLive_step s _ hp ?hk (registryFrom_erase s jobId)
          refine keepsDirs_write s.heap _ ?n0 _ ?ha ?hdir
          case ha => assumption
          case hdir => rfl
    · split at h
      · simp only [Except.ok.injEq] at h
        rw [← h]
        exact hp
      · simp only [Except.ok.injEq] at h
        rw [← h]
        exact hp

/-- In every reachable state the pointers of the listing registry point to live
directory nodes. -/
theorem reachable_registryLive (fold : Char → Char) (s : SftpFileSystemModel)
    (hr : Reachable fold s) : RegistryLive s := by
  induction hr with
  | init =>
    intro j a hj
    simp [SftpFileSystemModel.init, DirNodeHash.value] at hj
  | setSshConnection s s1 connected _ h ih => exact registryLive_setSshConnection s s1 connected ih h
  | connectionEstablished s s1 _ h ih => exact registryLive_connectionEstablished s s1 ih h
  | channelInitialized s s1 job _ h ih => exact registryLive_statRootDirectory s s1 job ih h
  | setRootDirectory s s1 path job _ h ih => exact registryLive_setRootDirectory s s1 path job h
  | rowCount s s1 parent job n _ h ih => exact registryLive_rowCount s s1 parent job n ih h
  | update s s1 index job _ h ih => exact registryLive_update s s1 index job ih h
  | handleFileInfo s s1 jobId fileInfoList _ h ih =>
    exact registryLive_handleFileInfo fold s s1 jobId fileInfoList ih h
  | handleSftpJobFinished s s1 jobId errorMessage _ h ih =>
    exact registryLive_handleSftpJobFinished s s1 jobId errorMessage ih h


/-- What `handleSftpJobFinished` does to the heap: nothing, or one write that
sets the `lsState` of the directory registered for the job to `LsFinished`. -/
theorem handleSftpJobFinished_heap (s s1 : SftpFileSystemModel) (jobId : SftpJobId)
    (errorMessage : String) (h : handleSftpJobFinished s jobId errorMessage = .ok s1) :
    (s1.heap = s.heap ∨
      ∃ a n d, jobId ≠ s.statJobId ∧ s.lsOps.value jobId = some a ∧
        s.heap.node a = some n ∧ n.asDir = some d ∧
        s1.heap = s.heap.write a { n with asDir := some { d with lsState := LsState.LsFinished } }) ∧
    s1.rootNode = s.rootNode ∧ s1.rootDirectory = s.rootDirectory ∧
    s1.sshConnection = s.sshConnection ∧ s1.sftpChannel = s.sftpChannel ∧
    s1.nameFilters_ = s.nameFilters_ ∧ s1.channelCalls = s.channelCalls := by
  by_cases hstat : jobId = s.statJobId
  · rw [handleSftpJobFinished, if_pos hstat] at h
    simp only [Except.ok.injEq] at h
    rw [← h]
    exact ⟨Or.inl rfl, rfl, rfl, rfl, rfl, rfl, rfl⟩
  · rw [handleSftpJobFinished, if_neg hstat] at h
    cases hv : s.lsOps.value jobId with
    | some a =>
      simp only [hv] at h
      cases hn : s.heap.node a with
      | none => simp [hn] at h
      | some n =>
        simp only [hn] at h
        cases hd : n.asDir with
        | none => simp [hd] at h
        | some d =>
          simp only [hd, Except.ok.injEq] at h
          rw [← h]
          exact ⟨Or.inr ⟨a, n, d, hstat, rfl, hn, hd, rfl⟩, rfl, rfl, rfl, rfl, rfl, rfl⟩
    | none =>
      simp only [hv] at h
      split at h
      · simp only [Except.ok.injEq] at h
        rw [← h]
        exact ⟨Or.inl rfl, rfl, rfl, rfl, rfl, rfl, rfl⟩
      · simp only [Except.ok.injEq] at h
        rw [← h]
        exact ⟨Or.inl rfl, rfl, rfl, rfl, rfl, rfl, rfl⟩

/-- `handleSftpJobFinished` returns whenever the pointer registered for the job,
if there is one, points to a live directory node. -/
theorem handleSftpJobFinished_total (s : SftpFileSystemModel) (jobId : SftpJobId)
    (errorMessage : String)
    (hlive : ∀ a, s.lsOps.value jobId = some a →
      ∃ n d, s.heap.node a = some n ∧ n.asDir = some d) :
    ∃ s1, handleSftpJobFinished s jobId errorMessage = .ok s1 := by
  by_cases hstat : jobId = s.statJobId
  · rw [handleSftpJobFinished, if_pos hstat]
    exact ⟨_, rfl⟩
  · rw [handleSftpJobFinished, if_neg hstat]
    cases hv : s.lsOps.value jobId with
    | some a =>
      obtain ⟨n, d, hn, hd⟩ := hlive a hv
      simp only [hn, hd]
      exact ⟨_, rfl⟩
    | none =>
      simp only
      split
      · exact ⟨_, rfl⟩
      · exact ⟨_, rfl⟩

/-- C23. `handleSftpJobFinished` for any state, job id and error text.  Whenever
it returns, the root pointer is the same, the heap has the same cells, every
node has the same path, entry, parent and child list as before (so every
directory has the same child list), a node that is not the directory registered
for the job is the same altogether, and the root directory, the connection, the
channel, the name filters and the requests sent are the same; what is left to
change is the `lsState` of the registered directory, the registry, the external
jobs and the pending stat job.  It returns in every reachable state, and in any
state when the id is the pending stat job or no key of the registry. -/
theorem job_finished_keeps_tree (fold : Char → Char) (s : SftpFileSystemModel)
    (jobId : SftpJobId) (errorMessage : String) :
    (∀ s1, handleSftpJobFinished s jobId errorMessage = .ok s1 →
      s1.rootNode = s.rootNode ∧
      (∀ a, childrenOf s1.heap a = childrenOf s.heap a) ∧
      s1.heap.length = s.heap.length ∧
      (∀ a, (s1.heap.node a).map
          (fun n => (n.path, n.fileInfo, n.parent, n.asDir.map (fun d => d.children))) =
        (s.heap.node a).map
          (fun n => (n.path, n.fileInfo, n.parent, n.asDir.map (fun d => d.children)))) ∧
      (∀ a, (jobId = s.statJobId ∨ s.lsOps.value jobId ≠ some a) →
        s1.heap.node a = s.heap.node a) ∧
      s1.rootDirectory = s.rootDirectory ∧ s1.sshConnection = s.sshConnection ∧
      s1.sftpChannel = s.sftpChannel ∧ s1.nameFilters_ = s.nameFilters_ ∧
      s1.channelCalls = s.channelCalls) ∧
    (Reachable fold s → ∃ s1, handleSftpJobFinished s jobId errorMessage = .ok s1) ∧
    (jobId = s.statJobId ∨ s.lsOps.value jobId = none →
      ∃ s1, handleSftpJobFinished s jobId errorMessage = .ok s1 ∧ s1.heap = s.heap) := by
  refine ⟨?_, ?_, ?_⟩
  · intro s1 h
    obtain ⟨hheap, hroot, hdir, hconn, hch, hnf, hcalls⟩ :=
      handleSftpJobFinished_heap s s1 jobId errorMessage h
    have hnodes : ∀ a, (s1.heap.node a).map
          (fun n => (n.path, n.fileInfo, n.parent, n.asDir.map (fun d => d.children))) =
        (s.heap.node a).map
          (fun n => (n.path, n.fileInfo, n.parent, n.asDir.map (fun d => d.children))) := by
      intro b
      rcases hheap with he | ⟨a, n, d, _, _, hn, hd, he⟩
      · rw [he]
      · rw [he, Heap.node_write s.heap a b _ n hn]
        by_cases hb : b = a
        · rw [if_pos hb, hb, hn]
          simp [hd]
        · rw [if_neg hb]
    refine ⟨hroot, ?_, ?_, hnodes, ?_, hdir, hconn, hch, hnf, hcalls⟩
    · intro b
      have hb := hnodes b
      unfold childrenOf
      cases h1 : s1.heap.node b <;> cases h0 : s.heap.node b <;> simp [h1, h0] at hb ⊢
      exact hb.2.2.2
    · rcases hheap with he | ⟨a, n, d, _, _, hn, hd, he⟩
      · rw [he]
      · rw [he]
        exact Heap.length_write _ _ _
    · intro b hb
      rcases hheap with he | ⟨a, n, d, hstat, hv, hn, hd, he⟩
      · rw [he]
      · rw [he, Heap.node_write s.heap a b _ n hn]
        have hne : b ≠ a := by
          rintro rfl
          rcases hb with hb | hb
          · exact hstat hb
          · exact hb hv
        rw [if_neg hne]
  · intro hr
    exact handleSftpJobFinished_total s jobId errorMessage
      (fun a ha => reachable_registryLive fold s hr jobId a ha)
  · intro hcase
    by_cases hstat : jobId = s.statJobId
    · rw [handleSftpJobFinished, if_pos hstat]
      exact ⟨_, rfl, rfl⟩
    · have hnone : s.lsOps.value jobId = none := by
        rcases hcase with h0 | h0
        · exact absurd h0 hstat
        · exact h0
      rw [handleSftpJobFinished, if_neg hstat]
      simp only [hnone]
      split
      · exact ⟨_, rfl, rfl⟩
      · exact ⟨_, rfl, rfl⟩

/-- Witness of `job_finished_keeps_tree`: the end of the listing job 2 of `/home`
with an error text, in the scenario with the three children merged; the root and
its children stay, the root becomes `LsFinished`. -/
theorem job_finished_keeps_tree_witness :
    (∃ s1, handleSftpJobFinished scenarioMerged 2 "Permission denied" = .ok s1 ∧
      s1.rootNode = some 0 ∧ childrenOf s1.heap 0 = some [2, 3, 1] ∧
      lsStateOf scenarioMerged.heap 0 = some LsState.LsRunning ∧
      lsStateOf s1.heap 0 = some LsState.LsFinished ∧ s1.lsOps = []) ∧
    (∀ s1, handleSftpJobFinished scenarioMerged 2 "Permission denied" = .ok s1 →
      s1.rootNode = scenarioMerged.rootNode ∧
      (∀ a, childrenOf s1.heap a = childrenOf scenarioMerged.heap a) ∧
      s1.heap.length = scenarioMerged.heap.length ∧
      (∀ a, (s1.heap.node a).map
          (fun n => (n.path, n.fileInfo, n.parent, n.asDir.map (fun d => d.children))) =
        (scenarioMerged.heap.node a).map
          (fun n => (n.path, n.fileInfo, n.parent, n.asDir.map (fun d => d.children)))) ∧
      (∀ a, (2 = scenarioMerged.statJobId ∨ scenarioMerged.lsOps.value 2 ≠ some a) →
        s1.heap.node a = scenarioMerged.heap.node a) ∧
      s1.rootDirectory = scenarioMerged.rootDirectory ∧
      s1.sshConnection = scenarioMerged.sshConnection ∧
      s1.sftpChannel = scenarioMerged.sftpChannel ∧
      s1.nameFilters_ = scenarioMerged.nameFilters_ ∧
      s1.channelCalls = scenarioMerged.channelCalls) ∧
    (∃ s1, handleSftpJobFinished scenarioMerged 2 "Permission denied" = .ok s1) :=
  ⟨⟨_, rfl, rfl, rfl, rfl, rfl, rfl⟩,
   (job_finished_keeps_tree asciiFold scenarioMerged 2 "Permission denied").1,
   (job_finished_keeps_tree asciiFold scenarioMerged 2 "Permission denied").2.1
     reachable_scenarioMerged⟩

/-! ## C24: the root is always a directory node -/

theorem kindsMatch_write (h : Heap) (a : Addr) (n0 n : SftpFileNode) (hp : KindsMatch h)
    (ha : h.node a = some n0) (hinfo : n.fileInfo = n0.fileInfo) (hpar : n.parent = n0.parent)
    (hdir : n.asDir.isSome = n0.asDir.isSome) :
    KindsMatch (h.write a n) := by
  intro b x hx hxp
  rcases Heap.node_write_some h a b n x hx with ⟨_, rfl⟩ | hold
  · rw [hinfo, hdir]
    exact hp a n0 ha (by rw [← hpar]; exact hxp)
  · exact hp b x hold hxp

theorem kindsMatch_alloc (h : Heap) (n : SftpFileNode) (hp : KindsMatch h)
    (hn : n.parent ≠ none →
      (n.asDir.isSome = true ↔ n.fileInfo.type = SftpFileType.FileTypeDirectory)) :
    KindsMatch (h.alloc n).2 := by
  intro b x hx hxp
  rcases Heap.node_alloc_some h n x b hx with ⟨_, rfl⟩ | hold
  · exact hn hxp
  · exact hp b x hold hxp

theorem kindsMatch_delete (h : Heap) (p : Option Addr) (hp : KindsMatch h) :
    KindsMatch (h.delete p) :=
  fun b x hx hxp => hp b x (Heap.delete_some h p b x hx) hxp

/-- The node `handleFileInfo` builds for an entry of a listing is a directory node
exactly when the type of the entry is `FileTypeDirectory`. -/
theorem newChildNode_kind (parentNode : Addr) (parentPath : String) (fileInfo : SftpFileInfo) :
    (newChildNode parentNode parentPath fileInfo).asDir.isSome = true ↔
      fileInfo.type = SftpFileType.FileTypeDirectory := by
  unfold newChildNode
  by_cases ht : fileInfo.type = SftpFileType.FileTypeDirectory <;> simp [ht]

theorem kindsMatch_insertChild (fold : Char → Char) (h h2 : Heap) (dir new : Addr)
    (hp : KindsMatch h) (hins : insertChild fold h dir new = .ok h2) : KindsMatch h2 := by
  unfold QSsh.insertChild at hins
  cases hdn : h.node dir with
  | none => simp [hdn] at hins
  | some dn =>
    cases hd : dn.asDir with
    | none => simp [hdn, hd] at hins
    | some d =>
      simp only [hdn, hd] at hins
      split at hins
      · simp only [Except.ok.injEq] at hins
        rw [← hins]
        exact hp
      · split at hins
        · simp only [Except.ok.injEq] at hins
          rw [← hins]
          exact kindsMatch_write h dir dn _ hp hdn rfl rfl (by rw [hd]; rfl)
        · cases hnn : h.node new with
          | none => simp [hnn] at hins
          | some nn =>
            simp only [hnn] at hins
            cases hl : insertLoop fold h nn.fileInfo.name new d.children with
            | error e => simp [hl] at hins
            | ok l =>
              simp only [hl, Except.ok.injEq] at hins
              rw [← hins]
              exact kindsMatch_write h dir dn _ hp hdn rfl rfl (by rw [hd]; rfl)

theorem kindsMatch_insertEntries (fold : Char → Char) (parentNode : Option Addr) :
    ∀ (entries : List SftpFileInfo) (h h2 : Heap), KindsMatch h →
      insertEntries fold parentNode h entries = .ok h2 → KindsMatch h2
  | [], h, h2, hp, hins => by
    simp only [QSsh.insertEntries, Except.ok.injEq] at hins
    rw [← hins]
    exact hp
  | fi :: rest, h, h2, hp, hins => by
    unfold QSsh.insertEntries at hins
    cases hpn : parentNode with
    | none => simp [hpn] at hins
    | some p =>
      simp only [hpn] at hins
      cases hnode : h.node p with
      | none => simp [hnode] at hins
      | some pn =>
        simp only [hnode] at hins
        cases hic : QSsh.insertChild fold (h.alloc (newChildNode p pn.path fi)).2 p h.length with
        | error e => simp [hic] at hins
        | ok h1 =>
          simp only [hic] at hins
          have hp0 : KindsMatch (h.alloc (newChildNode p pn.path fi)).2 :=
            kindsMatch_alloc h _ hp (fun _ => newChildNode_kind p pn.path fi)
          have hp1 := kindsMatch_insertChild fold _ h1 p h.length hp0 hic
          rw [← hpn] at hins
          exact kindsMatch_insertEntries fold parentNode rest h1 h2 hp1 hins

theorem kindsMatch_setSshConnection (s s1 : SftpFileSystemModel) (connected : Bool)
    (hp : KindsMatch s.heap) (h : setSshConnection s connected = .ok s1) :
    KindsMatch s1.heap := by
  unfold QSsh.setSshConnection handleSshConnectionEstablished at h
  split at h
  · simp only [Except.ok.injEq] at h
    rw [← h]
    exact hp
  · split at h
    · simp only [if_true, Except.ok.injEq] at h
      rw [← h]
      exact hp
    · simp only [Except.ok.injEq] at h
      rw [← h]
      exact hp

theorem kindsMatch_connectionEstablished (s s1 : SftpFileSystemModel)
    (hp : KindsMatch s.heap) (h : handleSshConnectionEstablished s = .ok s1) :
    KindsMatch s1.heap := by
  unfold handleSshConnectionEstablished at h
  split at h
  · simp only [Except.ok.injEq] at h
    rw [← h]
    exact hp
  · simp at h

theorem kindsMatch_statRootDirectory (s s1 : SftpFileSystemModel) (job : SftpJobId)
    (hp : KindsMatch s.heap) (h : statRootDirectory s job = .ok s1) :
    KindsMatch s1.heap := by
  unfold QSsh.statRootDirectory at h
  split at h
  · simp only [Except.ok.injEq] at h
    rw [← h]
    exact hp
  · simp at h

theorem kindsMatch_setRootDirectory (s s1 : SftpFileSystemModel) (path : String)
    (job : SftpJobId) (hp : KindsMatch s.heap) (h : setRootDirectory s path job = .ok s1) :
    KindsMatch s1.heap := by
  unfold QSsh.setRootDirectory at h
  exact kindsMatch_statRootDirectory _ s1 job (kindsMatch_delete s.heap s.rootNode hp) h

theorem kindsMatch_rowCount (s s1 : SftpFileSystemModel) (parent : QModelIndex)
    (job : SftpJobId) (n : Int) (hp : KindsMatch s.heap)
    (h : rowCount s parent job = .ok (n, s1)) : KindsMatch s1.heap := by
  unfold QSsh.rowCount at h
  split at h
  · simp only [Except.ok.injEq, Prod.mk.injEq] at h
    rw [← h.2]
    exact hp
  · split at h
    · simp only [Except.ok.injEq, Prod.mk.injEq] at h
      rw [← h.2]
      exact hp
    · split at h
      · simp only [Except.ok.injEq, Prod.mk.injEq] at h
        rw [← h.2]
        exact hp
      · split at h
        · simp only [Except.ok.injEq, Prod.mk.injEq] at h
          rw [← h.2]
          exact hp
        · split at h
          · simp at h
          · split at h
            · simp only [Except.ok.injEq, Prod.mk.injEq] at h
              rw [← h.2]
              exact hp
            · split at h
              · simp only [Except.ok.injEq, Prod.mk.injEq] at h
                rw [← h.2]
                exact hp
              · split at h
                · simp only [Except.ok.injEq, Prod.mk.injEq] at h
                  rw [← h.2]
                  refine kindsMatch_write s.heap _ ?n0 _ hp ?ha ?hinfo ?hpar ?hdir
                  case ha => assumption
                  case hdir => simp [*]
                  all_goals rfl
                · simp at h

theorem kindsMatch_update (s s1 : SftpFileSystemModel) (index : QModelIndex)
    (job : SftpJobId) (hp : KindsMatch s.heap) (h : update s index job = .ok s1) :
    KindsMatch s1.heap := by
  unfold QSsh.update at h
  split at h
  · simp at h
  · simp at h
  · split at h
    · simp at h
    · split at h
      · simp at h
      · split at h
        · simp only [Except.ok.injEq] at h
          rw [← h]
          refine kindsMatch_write s.heap _ ?n0 _ hp ?ha ?hinfo ?hpar ?hdir
          case ha => assumption
          case hdir => simp [*]
          all_goals rfl
        · simp at h

theorem kindsMatch_handleFileInfo (fold : Char → Char) (s s1 : SftpFileSystemModel)
    (jobId : SftpJobId) (fileInfoList : List SftpFileInfo) (hp : KindsMatch s.heap)
    (h : handleFileInfo fold s jobId fileInfoList = .ok s1) : KindsMatch s1.heap := by
  unfold QSsh.handleFileInfo at h
  split at h
  · split at h
    · simp at h
    · simp only [Except.ok.injEq] at h
      rw [← h]
      exact kindsMatch_alloc s.heap _ hp (fun hne => absurd rfl hne)
  · split at h
    · simp only [Except.ok.injEq] at h
      rw [← h]
      exact hp
    · split at h
      · simp at h
      · simp only [Except.ok.injEq] at h
        rw [← h]
        rename_i h2 hins
        exact kindsMatch_insertEntries fold _ _ s.heap h2 hp hins

theorem kindsMatch_handleSftpJobFinished (s s1 : SftpFileSystemModel) (jobId : SftpJobId)
    (errorMessage : String) (hp : KindsMatch s.heap)
    (h : handleSftpJobFinished s jobId errorMessage = .ok s1) : KindsMatch s1.heap := by
  unfold QSsh.handleSftpJobFinished at h
  split at h
  · simp only [Except.ok.injEq] at h
    rw [← h]
    exact hp
  · split at h
    · split at h
      · simp at h
      · split at h
        · simp at h
        · simp only [Except.ok.injEq] at h
          rw [← h]
          refine kindsMatch_write s.heap _ ?n0 _ hp ?ha ?hinfo ?hpar ?hdir
          case ha => assumption
          case hdir => simp [*]
          all_goals rfl
    · split at h
      · simp only [Except.ok.injEq] at h
        rw [← h]
        exact hp
      · simp only [Except.ok.injEq] at h
        rw [← h]
        exact hp

theorem reachable_kindsMatch (fold : Char → Char) (s : SftpFileSystemModel)
    (hr : Reachable fold s) : KindsMatch s.heap := by
  induction hr with
  | init =>
    intro a n hn
    simp [SftpFileSystemModel.init, Heap.node] at hn
  | setSshConnection s s1 connected _ h ih => exact kindsMatch_setSshConnection s s1 connected ih h
  | connectionEstablished s s1 _ h ih => exact kindsMatch_connectionEstablished s s1 ih h
  | channelInitialized s s1 job _ h ih => exact kindsMatch_statRootDirectory s s1 job ih h
  | setRootDirectory s s1 path job _ h ih => exact kindsMatch_setRootDirectory s s1 path job ih h
  | rowCount s s1 parent job n _ h ih => exact kindsMatch_rowCount s s1 parent job n ih h
  | update s s1 index job _ h ih => exact kindsMatch_update s s1 index job ih h
  | handleFileInfo s s1 jobId fileInfoList _ h ih =>
    exact kindsMatch_handleFileInfo fold s s1 jobId fileInfoList ih h
  | handleSftpJobFinished s s1 jobId errorMessage _ h ih =>
    exact kindsMatch_handleSftpJobFinished s s1 jobId errorMessage ih h


/-- C24. A stat answer for the pending root-stat job with a non-empty list,
whatever the type of its first entry: `handleFileInfo` succeeds and the root it
builds keeps the reported type in its entry but is a directory node in state
`LsNotYetCalled` without children; `index(0, 0)` addresses it, and with the
channel attached the first `rowCount` on it returns 0, issues `listDirectory`
for the root path and registers the job against the root.  The nodes built for
the entries of a listing, by contrast, are directory nodes exactly when the
type of the entry is `FileTypeDirectory`, and so is every node with a parent in
every reachable state. -/
theorem root_always_directory (fold : Char → Char) (s : SftpFileSystemModel)
    (fi : SftpFileInfo) (rest : List SftpFileInfo) :
    (∃ s1 rn, handleFileInfo fold s s.statJobId (fi :: rest) = .ok s1 ∧
      s1.rootNode = some s.heap.length ∧ s1.heap.node s.heap.length = some rn ∧
      rn.fileInfo.type = fi.type ∧ rn.path = s.rootDirectory ∧ rn.parent = none ∧
      rn.asDir = some { lsState := LsState.LsNotYetCalled, children := [] } ∧
      (∀ job, index s1 0 0 QModelIndex.invalid job = .ok (createIndex 0 0 s.heap.length, s1)) ∧
      (s.sftpChannel = true → ∀ job, ∃ s2,
        rowCount s1 (createIndex 0 0 s.heap.length) job = .ok (0, s2) ∧
        s2.channelCalls = s.channelCalls ++ [ChannelCall.listDirectory s.rootDirectory job] ∧
        s2.lsOps.value job = some s.heap.length ∧
        lsStateOf s2.heap s.heap.length = some LsState.LsRunning)) ∧
    (∀ (jobId : SftpJobId) (fileInfoList : List SftpFileInfo) (D : Addr) (dn : SftpFileNode)
        (d : SftpDirNode),
      s.lsOps.value jobId = some D → jobId ≠ s.statJobId →
      s.heap.node D = some dn → dn.asDir = some d →
      (∀ c ∈ d.children, (s.heap.node c).isSome = true) →
      ∃ s1, handleFileInfo fold s jobId fileInfoList = .ok s1 ∧
        ∀ i e, (filteredList fileInfoList).get? i = some e →
          ∃ cn, s1.heap.node (s.heap.length + i) = some cn ∧
            cn.fileInfo = e ∧ cn.parent = some D ∧
            (cn.asDir.isSome = true ↔ e.type = SftpFileType.FileTypeDirectory)) ∧
    (Reachable fold s → ∀ a n, s.heap.node a = some n → n.parent ≠ none →
      (n.asDir.isSome = true ↔ n.fileInfo.type = SftpFileType.FileTypeDirectory)) := by
  refine ⟨?_, ?_, fun hr => reachable_kindsMatch fold s hr⟩
  · have hnode := Heap.node_alloc s.heap
      { path := s.rootDirectory,
        fileInfo := { fi with name := if s.rootDirectory = "/" then s.rootDirectory
                                      else fileName s.rootDirectory },
        parent := none,
        asDir := some { lsState := LsState.LsNotYetCalled, children := [] } }
    refine ⟨{ s with
        emitted := s.emitted ++ [Signal.rowsAboutToBeInserted 0 0, Signal.rowsInserted 0 0],
        rootNode := some s.heap.length,
        heap := (s.heap.alloc
          { path := s.rootDirectory,
            fileInfo := { fi with name := if s.rootDirectory = "/" then s.rootDirectory
                                          else fileName s.rootDirectory },
            parent := none,
            asDir := some { lsState := LsState.LsNotYetCalled, children := [] } }).2 },
      _, ?_, rfl, hnode, rfl, rfl, rfl, rfl, ?_, ?_⟩
    · simp only [handleFileInfo, if_true, List.head?_cons]
    · intro job
      have hinv : QModelIndex.invalid.isValid = false := rfl
      simp [index, rowCount, hinv, columnCount]
    · intro hch job
      have hvalid : (createIndex 0 0 s.heap.length).isValid = true := rfl
      have hcol : (createIndex 0 0 s.heap.length).column = 0 := rfl
      have hptr : (createIndex 0 0 s.heap.length).internalPointer = some s.heap.length := rfl
      refine ⟨{ s with
          emitted := s.emitted ++ [Signal.rowsAboutToBeInserted 0 0, Signal.rowsInserted 0 0],
          rootNode := some s.heap.length,
          lsOps := s.lsOps.insert job s.heap.length,
          channelCalls := s.channelCalls ++ [ChannelCall.listDirectory s.rootDirectory job],
          heap := ((s.heap.alloc
            { path := s.rootDirectory,
              fileInfo := { fi with name := if s.rootDirectory = "/" then s.rootDirectory
                                            else fileName s.rootDirectory },
              parent := none,
              asDir := some { lsState := LsState.LsNotYetCalled, children := [] } }).2).write
            s.heap.length
            { path := s.rootDirectory,
              fileInfo := { fi with name := if s.rootDirectory = "/" then s.rootDirectory
                                            else fileName s.rootDirectory },
              parent := none,
              asDir := some { lsState := LsState.LsRunning, children := [] } } },
        ?_, rfl, DirNodeHash.value_insert_self _ _ _, ?_⟩
      · simp [rowCount, hvalid, hcol, hptr, hnode, hch]
      · simp only [lsStateOf]
        rw [Heap.node_write _ _ _ _ _ hnode]
        simp
  · intro jobId fileInfoList D dn d hjob hstat hD hd hlive
    obtain ⟨h', l, hins, hlen, hD', hnodes, _, _, _⟩ :=
      insertEntries_nodes fold D (filteredList fileInfoList) s.heap dn d hD hd hlive
    have hkinds : ∀ i e, (filteredList fileInfoList).get? i = some e →
        ∃ cn, h'.node (s.heap.length + i) = some cn ∧
          cn.fileInfo = e ∧ cn.parent = some D ∧
          (cn.asDir.isSome = true ↔ e.type = SftpFileType.FileTypeDirectory) := by
      intro i e hi
      exact ⟨_, (hnodes i e hi).1, rfl, rfl, newChildNode_kind D dn.path e⟩
    by_cases hnil : (filteredList fileInfoList).isEmpty = true
    · have hfl : filteredList fileInfoList = [] := by simpa using hnil
      rw [hfl] at hins
      simp only [insertEntries, Except.ok.injEq] at hins
      subst hins
      exact ⟨s, by simp [handleFileInfo, hstat, hfl], hkinds⟩
    · exact ⟨{ s with heap := h',
                      emitted := s.emitted ++
                        [Signal.layoutAboutToBeChanged, Signal.layoutChanged] },
        by simp [handleFileInfo, hstat, hnil, hjob, hins], hkinds⟩

/-- Witness of `root_always_directory`: the stat answer for `/home` reports a
regular file; the root is a directory node all the same and the first
`rowCount` on it asks for the listing of `/home`. -/
theorem root_always_directory_witness :
    setRootDirectory scenarioConnected "/home" 1 = .ok scenarioRootRequested ∧
    (handleFileInfo asciiFold scenarioRootRequested 1
        [{ name := "home", type := SftpFileType.FileTypeRegular, size := 7 }]).bind
      (fun s1 => (rowCount s1 (createIndex 0 0 0) 2).map
        (fun r => (r.1, (s1.heap.node 0).map (fun n => (n.fileInfo.type, n.asDir)),
          r.2.channelCalls))) =
      .ok (0, some (SftpFileType.FileTypeRegular,
              some { lsState := LsState.LsNotYetCalled, children := [] }),
           [ChannelCall.statFile "/home" 1, ChannelCall.listDirectory "/home" 2]) ∧
    (∃ s1 rn, handleFileInfo asciiFold scenarioRootRequested 1
        [{ name := "home", type := SftpFileType.FileTypeRegular, size := 7 }] = .ok s1 ∧
      s1.rootNode = some 0 ∧ s1.heap.node 0 = some rn ∧
      rn.fileInfo.type = SftpFileType.FileTypeRegular ∧ rn.path = "/home" ∧ rn.parent = none ∧
      rn.asDir = some { lsState := LsState.LsNotYetCalled, children := [] } ∧
      (∀ job, index s1 0 0 QModelIndex.invalid job = .ok (createIndex 0 0 0, s1)) ∧
      (scenarioRootRequested.sftpChannel = true → ∀ job, ∃ s2,
        rowCount s1 (createIndex 0 0 0) job = .ok (0, s2) ∧
        s2.channelCalls =
          [ChannelCall.statFile "/home" 1] ++ [ChannelCall.listDirectory "/home" job] ∧
        s2.lsOps.value job = some 0 ∧
        lsStateOf s2.heap 0 = some LsState.LsRunning)) :=
  ⟨rfl, rfl, (root_always_directory asciiFold scenarioRootRequested
      { name := "home", type := SftpFileType.FileTypeRegular, size := 7 } []).1⟩

end QSsh
